import Mathlib

/-!
# mlbgameday: a shallow embedding of the Gameday client and its specification

The Go package `mlbgameday` is a read-only client of the MLB Gameday API.  This
file embeds the parts of `game.go`, `gameday.go`, `mlbgameday.go` and
`game_models.go` that the specification talks about, and proves (or refutes)
the specification's statements on that embedding.

Modelling conventions

* A Go `string` is a Lean `String`.  The only separator the package ever splits
  on is the one-byte string `"_"`, so cutting a valid UTF-8 string at that byte
  and cutting the character sequence at that character agree.
* A Go `int` is an `Int`; a Go slice is a `List` (the nil slice is `[]`);
  a Go pointer result `*T` is an `Option T` (`nil` is `none`); a Go `error`
  result is an `Option GoError` (`nil` is `none`).
* A `float32` is kept as its bit pattern; the package never computes with one.
* The network is a log of requests, oldest first: each has the path handed
  to `Client.get` and the URL requested.  Every operation takes the log and
  returns the extended log.
* An operation that dereferences or indexes returns an `Option`; `none`
  stands for a run-time panic (nil dereference, index out of range).
* The calls of `xml.Unmarshal` are parameters of the operations (`XML`), and
  so is what `net/url` makes of a path (`Client.URL`).
* For the statements on decoding, what `xml.Unmarshal` does with a document
  is embedded apart: a document is the tree of its elements (the tokenizer is
  not modelled), a struct type is the table of its tags, `int` has 64 bits
  and `strconv.ParseFloat` is a parameter.
-/

namespace Mlbgameday

/-! ## Errors and strings -/

/-- A Go `error` value, identified by the text its `Error()` method returns. -/
structure GoError where
  msg : String
deriving DecidableEq, Repr

namespace errors

/-- The call `errors.New(text)`. -/
def New (text : String) : GoError := ⟨text⟩

end errors

namespace strings

/-- Cut a character sequence at every occurrence of `sep`: `k` occurrences give
`k + 1` tokens, the empty sequence gives one empty token. -/
def splitChars (sep : Char) : List Char → List (List Char)
  | [] => [[]]
  | c :: cs =>
    if c = sep then [] :: splitChars sep cs
    else
      match splitChars sep cs with
      | [] => [[c]]
      | t :: ts => (c :: t) :: ts

/-- The call `strings.Split(s, sep)` for a separator `sep` of one character. -/
def Split (s : String) (sep : Char) : List String :=
  (splitChars sep s.data).map String.mk

end strings

/-! ## game.go: path of a game -/

/-- Translation of `pathFromGID`: the URL path of resource `path` of the game `gid`. -/
def pathFromGID (gid : String) (path : String) : String × Option GoError :=
  let toks := strings.Split gid '_'
  if toks.length ≠ 6 then
    ("", some (errors.New ("Could not derive date from id " ++ gid)))
  else
    let gDate := "year_" ++ toks.getD 0 "" ++ "/month_" ++ toks.getD 1 "" ++ "/day_" ++ toks.getD 2 ""
    ("components/game/mlb/" ++ gDate ++ "/gid_" ++ gid ++ "/" ++ path, none)

/-! ## game_models.go: the decoded records -/

/-- A Go `float32`, kept as its IEEE-754 bit pattern. -/
structure Float32 where
  bits : Nat
deriving DecidableEq, Repr

/-- Translation of `Game`: an MLB game. -/
structure Game where
  GID : String
  TimeDate : String
  TimeZone : String
  AMPM : String
  AwayNameAbbrev : String
  HomeNameAbbrev : String
  AwayTeamCity : String
  HomeTeamCity : String
  AwayTeamName : String
  HomeTeamName : String
  TopInning : String
  Status : String
  Inning : Int
  Outs : Int
  AwayTeamRuns : Int
  HomeTeamRuns : Int
  AwayHitsRuns : Int
  HomeHitsRuns : Int
  AwayTeamErrors : Int
  HomeTeamErrors : Int
  BaseState : Int
deriving DecidableEq, Repr

/-- Translation of `Review`. -/
structure Review where
  ChallengesAwayUsed : Int
  ChallengesAwayRemaining : Int
  ChallengesHomeUsed : Int
  ChallengesHomeRemaining : Int
deriving DecidableEq, Repr

/-- Translation of `LineScoreInning`. -/
structure LineScoreInning where
  Inning : Int
  HomeRuns : Int
  AwayRuns : Int
deriving DecidableEq, Repr

/-- Translation of `LineScore`: the embedded `Game` plus runs by inning and reviews. -/
structure LineScore where
  toGame : Game
  NoHitter : String
  PerfectGame : String
  Review : Review
  Innings : List LineScoreInning
deriving DecidableEq, Repr

/-- Translation of `Player`. -/
structure Player where
  ID : Int
  First : String
  Last : String
  Num : Int
  RL : String
  Bats : String
  Position : String
  Status : String
  Avg : Float32
  HR : Int
  RBI : Int
  Wins : Int
  Losses : Int
  ERA : Float32
deriving DecidableEq, Repr

/-- Translation of `Coach`. -/
structure Coach where
  ID : Int
  First : String
  Last : String
  Num : Int
  Position : String
deriving DecidableEq, Repr

/-- Translation of `Umpire`. -/
structure Umpire where
  ID : Int
  First : String
  Last : String
  Position : String
  Name : String
deriving DecidableEq, Repr

/-- Translation of `Roster`. -/
structure Roster where
  TeamID : String
  Players : List Player
  Coaches : List Coach
deriving DecidableEq, Repr

/-- Translation of `Players`: the team rosters and the umpires. -/
structure Players where
  Teams : List Roster
  Umpires : List Umpire
deriving DecidableEq, Repr

/-- Translation of `Pitch`: the PitchF/X data of one pitch.  The Go field `Type`
is spelled `Type_` here, `Type` being reserved. -/
structure Pitch where
  Des : String
  Type_ : String
  TFSZulu : String
  X : Float32
  Y : Float32
  StartSpeed : Float32
  EndSpeed : Float32
  SZTop : Float32
  SZBot : Float32
  PfxX : Float32
  PfxZ : Float32
  PX : Float32
  PZ : Float32
  X0 : Float32
  Y0 : Float32
  Z0 : Float32
  VX0 : Float32
  VY0 : Float32
  VZ0 : Float32
  AX : Float32
  AY : Float32
  AZ : Float32
  BreakY : Float32
  BreakAngle : Float32
  BreakLength : Float32
  PitchType : String
  TypeConfidence : Float32
  Zone : Float32
  Nasty : Float32
  SpinDir : Float32
  SpinRate : Float32
deriving DecidableEq, Repr

/-- Translation of `AtBat`: a single at-bat. -/
structure AtBat where
  Number : Int
  Batter : Int
  Pitcher : Int
  Balls : Int
  Strikes : Int
  Outs : Int
  Event : String
  HomeTeamRuns : Int
  AwayTeamRuns : Int
  Pitches : List Pitch
deriving DecidableEq, Repr

/-- Translation of `AtBatInning`: the at-bats of both halves of an inning. -/
structure AtBatInning where
  Number : Int
  Top : List AtBat
  Bottom : List AtBat
deriving DecidableEq, Repr

/-- Translation of `AtBats`: the at-bats by inning. -/
structure AtBats where
  Innings : List AtBatInning
deriving DecidableEq, Repr

/-- Translation of `Type`: the category of a notification. -/
structure NotificationType where
  Category : String
deriving DecidableEq, Repr

/-- Translation of `Notification`. -/
structure Notification where
  Inning : Int
  Top : String
  AtBat : Int
  Outs : Int
  Players : List Player
  Types : List NotificationType
deriving DecidableEq, Repr

/-- Translation of `Team`: the notifications of one team. -/
structure Team where
  ID : Int
  Code : String
  Notifications : List Notification
deriving DecidableEq, Repr

/-- Translation of `Notifications`: game and team notifications. -/
structure Notifications where
  Game : List Notification
  Teams : List Team
deriving DecidableEq, Repr

/-- Translation of `Scoreboard` (gameday.go): the games of one day. -/
structure Scoreboard where
  Games : List Game
deriving DecidableEq, Repr

/-! ## mlbgameday.go: the transport -/

/-- The bytes of a response body. -/
abbrev Bytes := List UInt8

/-- One request of the transport: the path handed to `Client.get` and the URL
requested. -/
structure Request where
  path : String
  url : String
deriving DecidableEq, Repr

/-- The requests of the transport so far, oldest first. -/
abbrev Log := List Request

/-- An `http.Response` as far as `Client.get` looks at it: the status code and
what `ioutil.ReadAll(resp.Body)` returns, the bytes read and the read error. -/
structure Response where
  StatusCode : Int
  Body : Bytes × Option GoError

/-- Translation of `Client`.  `URL path` is what `url.Parse(path)` and
`c.BaseURL.ResolveReference` make of the relative `path`: `none` when
`url.Parse` returns an error, so that `rel` is nil, and otherwise the text
`u.String()` of the resolved URL.  `Get u` is what `c.client.Get` returns for
that text: a transport-level error or a response. -/
structure Client where
  URL : String → Option String
  Get : String → Except GoError Response

namespace fmt

/-- The verb `%v` applied to an `int`: its decimal notation. -/
def verbInt (v : Int) : String := toString v

/-- The call `fmt.Errorf`, given the formatted message. -/
def Errorf (msg : String) : GoError := ⟨msg⟩

end fmt

/-- Translation of `Client.get`: send a GET for `path` and return the body.
The error of `url.Parse` is dropped: when there is one, `ResolveReference`
dereferences the nil `rel` and the call panics before any request. -/
def Client.get (c : Client) (path : String) (log : Log) :
    Option ((Bytes × Option GoError) × Log) :=
  match c.URL path with
  | none => none
  | some u =>
    match c.Get u with
    | .error err => some (([], some err), log ++ [⟨path, u⟩])
    | .ok resp =>
      if resp.StatusCode ≠ 200 then
        some (([], some (fmt.Errorf ("HTTP " ++ fmt.verbInt resp.StatusCode))),
          log ++ [⟨path, u⟩])
      else
        some (resp.Body, log ++ [⟨path, u⟩])

/-- The calls `xml.Unmarshal(data, &v)` of the package, one for each record
type `v` is allocated at: a decoding error, or the populated record. -/
structure XML where
  UnmarshalScoreboard : Bytes → Except GoError Scoreboard
  UnmarshalLineScore : Bytes → Except GoError LineScore
  UnmarshalPlayers : Bytes → Except GoError Players
  UnmarshalAtBats : Bytes → Except GoError AtBats
  UnmarshalNotifications : Bytes → Except GoError Notifications

/-! ## game.go: the game service -/

/-- Translation of `GameServiceOp`. -/
structure GameServiceOp where
  client : Client
  gid : String
  path : String

/-- Translation of `NewGameService`. -/
def NewGameService (client : Client) (gid : String) : Option GameServiceOp × Option GoError :=
  match pathFromGID gid "" with
  | (_, some err) => (none, some err)
  | (path, none) => (some { client := client, gid := gid, path := path }, none)

/-- Translation of `GameServiceOp.LineScore`. -/
def GameServiceOp.LineScore (s : GameServiceOp) (xml : XML) (log : Log) :
    Option ((Option Mlbgameday.LineScore × Option GoError) × Log) :=
  match s.client.get (s.path ++ "linescore.xml") log with
  | none => none
  | some ((_, some err), log1) => some ((none, some err), log1)
  | some ((data, none), log1) =>
    match xml.UnmarshalLineScore data with
    | .error err => some ((none, some err), log1)
    | .ok ls => some ((some ls, none), log1)

/-- Translation of `GameServiceOp.Players`. -/
def GameServiceOp.Players (s : GameServiceOp) (xml : XML) (log : Log) :
    Option ((Option Mlbgameday.Players × Option GoError) × Log) :=
  match s.client.get (s.path ++ "players.xml") log with
  | none => none
  | some ((_, some err), log1) => some ((none, some err), log1)
  | some ((data, none), log1) =>
    match xml.UnmarshalPlayers data with
    | .error err => some ((none, some err), log1)
    | .ok p => some ((some p, none), log1)

/-- Translation of `GameServiceOp.AtBats`. -/
def GameServiceOp.AtBats (s : GameServiceOp) (xml : XML) (log : Log) :
    Option ((Option Mlbgameday.AtBats × Option GoError) × Log) :=
  match s.client.get (s.path ++ "inning/inning_all.xml") log with
  | none => none
  | some ((_, some err), log1) => some ((none, some err), log1)
  | some ((data, none), log1) =>
    match xml.UnmarshalAtBats data with
    | .error err => some ((none, some err), log1)
    | .ok g => some ((some g, none), log1)

/-- The loop of `lastHalfInning`, entered with `k = n + 1` for the loop variable
`n`: it runs while `n >= 0`, that is while `k > 0`.  `none` is an index out of
range at `g.Innings[n]`. -/
def lastHalfInningLoop (g : AtBats) : Nat → Option (Nat × String × Option GoError)
  | 0 => some (0, "", some (errors.New "Game has not started"))
  | n + 1 =>
    match g.Innings[n]? with
    | none => none
    | some i =>
      if i.Bottom.length > 0 then some (n, "N", none)
      else if i.Top.length > 0 then some (n, "Y", none)
      else lastHalfInningLoop g n

/-- Translation of `lastHalfInning`: index of the most recent half inning and
whether it is the top (`"Y"`) or the bottom (`"N"`) of the inning. -/
def lastHalfInning (g : AtBats) : Option (Nat × String × Option GoError) :=
  lastHalfInningLoop g g.Innings.length

/-- Translation of `GameServiceOp.CurrentAtBat`. -/
def GameServiceOp.CurrentAtBat (s : GameServiceOp) (xml : XML) (log : Log) :
    Option ((Option AtBat × Option GoError) × Log) :=
  match s.AtBats xml log with
  | none => none
  | some ((_, some err), log1) => some ((none, some err), log1)
  | some ((none, none), _) => none
  | some ((some g, none), log1) =>
    match lastHalfInning g with
    | none => none
    | some (_, _, some err) => some ((none, some err), log1)
    | some (i, top, none) =>
      match g.Innings[i]? with
      | none => none
      | some inning =>
        let abs := if top = "Y" then inning.Top else inning.Bottom
        if abs.length = 0 then none
        else
          match abs[abs.length - 1]? with
          | none => none
          | some ab => some ((some ab, none), log1)

/-- The body of the loop of `FilterAtBats` for one inning: the inning built
from `inning` and the predicate `f`, appended to `abs` when a half kept an
at-bat. -/
def filterInning (f : AtBat → Bool) (abs : AtBats) (inning : AtBatInning) : AtBats :=
  let inn : AtBatInning := { Number := inning.Number, Top := [], Bottom := [] }
  let inn := inning.Top.foldl
    (fun (inn : AtBatInning) ab => if f ab then { inn with Top := inn.Top ++ [ab] } else inn) inn
  let inn := inning.Bottom.foldl
    (fun (inn : AtBatInning) ab => if f ab then { inn with Bottom := inn.Bottom ++ [ab] } else inn) inn
  if inn.Top.length > 0 ∨ inn.Bottom.length > 0 then
    { abs with Innings := abs.Innings ++ [inn] }
  else abs

/-- Translation of `GameServiceOp.FilterAtBats`; the predicate is a pure
function of the at-bat. -/
def GameServiceOp.FilterAtBats (s : GameServiceOp) (xml : XML) (f : AtBat → Bool) (log : Log) :
    Option ((Option Mlbgameday.AtBats × Option GoError) × Log) :=
  match s.AtBats xml log with
  | none => none
  | some ((_, some err), log1) => some ((none, some err), log1)
  | some ((none, none), _) => none
  | some ((some all, none), log1) =>
    some ((some (all.Innings.foldl (filterInning f) { Innings := [] }), none), log1)

/-- Translation of `GameServiceOp.Notifications`. -/
def GameServiceOp.Notifications (s : GameServiceOp) (xml : XML) (log : Log) :
    Option ((Option Mlbgameday.Notifications × Option GoError) × Log) :=
  match s.client.get (s.path ++ "notifications/notifications_full.xml") log with
  | none => none
  | some ((_, some err), log1) => some ((none, some err), log1)
  | some ((data, none), log1) =>
    match xml.UnmarshalNotifications data with
    | .error err => some ((none, some err), log1)
    | .ok n => some ((some n, none), log1)

/-! ## gameday.go: the day service -/

namespace time

/-- A `time.Location`: its name and the offset from UTC, in seconds east, in
force at each instant (given in seconds since the Unix epoch). -/
structure Location where
  name : String
  offset : Int → Int

/-- A `time.Time` to the second: an instant, in seconds since the Unix epoch,
and the location it is read in. -/
structure Time where
  unix : Int
  loc : Location

/-- The method `Time.In`: the same instant read in location `l`. -/
def Time.In (t : Time) (l : Location) : Time := { t with loc := l }

/-- Year, month and day of the proleptic Gregorian calendar for the day
numbered `z`, day `0` being 1970-01-01. -/
def civilFromDays (z : Int) : Int × Int × Int :=
  let z := z + 719468
  let era := z / 146097
  let doe := z - era * 146097
  let yoe := (doe - doe / 1460 + doe / 36524 - doe / 146096) / 365
  let doy := doe - (365 * yoe + yoe / 4 - yoe / 100)
  let mp := (5 * doy + 2) / 153
  let d := doy - (153 * mp + 2) / 5 + 1
  let m := if mp < 10 then mp + 3 else mp - 9
  (if m ≤ 2 then yoe + era * 400 + 1 else yoe + era * 400, m, d)

/-- The method `Time.Date`: year, month and day of the instant in its location. -/
def Time.Date (t : Time) : Int × Int × Int :=
  civilFromDays ((t.unix + t.loc.offset t.unix) / 86400)

/-- The helper `appendInt` of `Time.Format`: the decimal notation of `x`, padded
with zeros to `width` digits, after a minus sign when `x` is negative. -/
def appendInt (x : Int) (width : Nat) : String :=
  let digits := Nat.repr x.natAbs
  (if x < 0 then "-" else "") ++ String.mk (List.replicate (width - digits.length) '0') ++ digits

end time

/-- Translation of `pathFromDate`.  In the layout
`components/game/mlb/year_2006/month_01/day_02/` the reference elements are
`2006` (four-digit year), `01` (two-digit month) and `02` (two-digit day); all
other text, the final `/` included, is copied. -/
def pathFromDate (date : time.Time) : String :=
  "components/game/mlb/year_" ++ time.appendInt date.Date.1 4 ++
    "/month_" ++ time.appendInt date.Date.2.1 2 ++
    "/day_" ++ time.appendInt date.Date.2.2 2 ++ "/"

/-- Translation of `GamedayServiceOp`. -/
structure GamedayServiceOp where
  client : Client
  date : time.Time
  path : String

/-- Translation of `NewGamedayService`; `l` is the location that
`time.LoadLocation("America/New_York")` returns. -/
def NewGamedayService (l : time.Location) (client : Client) (date : time.Time) : GamedayServiceOp :=
  { client := client, date := date.In l, path := pathFromDate date }

/-- Translation of `Client.Gameday`. -/
def Client.Gameday (l : time.Location) (c : Client) (date : time.Time) : GamedayServiceOp :=
  NewGamedayService l c date

/-- Translation of `GamedayServiceOp.getScoreboard`. -/
def GamedayServiceOp.getScoreboard (s : GamedayServiceOp) (xml : XML) (log : Log) :
    Option ((Option Mlbgameday.Scoreboard × Option GoError) × Log) :=
  match s.client.get (s.path ++ "/miniscoreboard.xml") log with
  | none => none
  | some ((_, some err), log1) => some ((none, some err), log1)
  | some ((data, none), log1) =>
    match xml.UnmarshalScoreboard data with
    | .error err => some ((none, some err), log1)
    | .ok sb => some ((some sb, none), log1)

/-- Translation of `GamedayServiceOp.Scoreboard`. -/
def GamedayServiceOp.Scoreboard (s : GamedayServiceOp) (xml : XML) (log : Log) :
    Option ((Option Mlbgameday.Scoreboard × Option GoError) × Log) :=
  match s.getScoreboard xml log with
  | none => none
  | some ((_, some err), log1) => some ((none, some err), log1)
  | some ((sb, none), log1) => some ((sb, none), log1)

/-- Translation of `GamedayServiceOp.GamesInProgress`. -/
def GamedayServiceOp.GamesInProgress (s : GamedayServiceOp) (xml : XML) (log : Log) :
    Option ((List Mlbgameday.Game × Option GoError) × Log) :=
  match s.getScoreboard xml log with
  | none => none
  | some ((_, some err), log1) => some (([], some err), log1)
  | some ((none, none), _) => none
  | some ((some sb, none), log1) =>
    some ((sb.Games.foldl
      (fun games game => if game.Status = "In Progress" then games ++ [game] else games) [], none),
      log1)

/-- Translation of `GamedayServiceOp.Game`. -/
def GamedayServiceOp.Game (s : GamedayServiceOp) (gid : String) :
    Option GameServiceOp × Option GoError :=
  match NewGameService s.client gid with
  | (_, some err) => (none, some err)
  | (svc, none) => (svc, none)

/-! ## encoding/xml: decoding a document into the records -/

namespace strconv

/-- A `*strconv.NumError`: the function that failed, the text it was given
and the reason. -/
structure NumError where
  Func : String
  Num : String
  Err : GoError
deriving DecidableEq, Repr

/-- The error `strconv.ErrSyntax`. -/
def ErrSyntax : GoError := ⟨"invalid syntax"⟩

/-- The error `strconv.ErrRange`. -/
def ErrRange : GoError := ⟨"value out of range"⟩

/-- The digit loop of `strconv.ParseUint` in base 10 with 64 bits: a character
that is no decimal digit is a syntax error, a value of `2^64` or more a range
error. -/
def parseUintLoop : List Char → Nat → Except GoError Nat
  | [], n => .ok n
  | c :: cs, n =>
    if c.toNat < 48 ∨ 57 < c.toNat then .error ErrSyntax
    else if 2 ^ 64 ≤ n * 10 + (c.toNat - 48) then .error ErrRange
    else parseUintLoop cs (n * 10 + (c.toNat - 48))

/-- The call `strconv.ParseInt(s, 10, 64)`. -/
def ParseInt (s : String) : Except NumError Int :=
  match s.data with
  | [] => .error ⟨"ParseInt", s, ErrSyntax⟩
  | c :: cs =>
    let neg := decide (c = '-')
    let digits := if c = '+' ∨ c = '-' then cs else c :: cs
    if digits = [] then .error ⟨"ParseInt", s, ErrSyntax⟩
    else
      match parseUintLoop digits 0 with
      | .error err => .error ⟨"ParseInt", s, err⟩
      | .ok un =>
        if neg = false ∧ 2 ^ 63 ≤ un then .error ⟨"ParseInt", s, ErrRange⟩
        else if neg = true ∧ 2 ^ 63 < un then .error ⟨"ParseInt", s, ErrRange⟩
        else .ok (if neg then - (un : Int) else (un : Int))

end strconv

namespace unicode

/-- The predicate `unicode.IsSpace`: the characters with the property White_Space. -/
def IsSpace (c : Char) : Bool :=
  decide (c.toNat = 9 ∨ c.toNat = 10 ∨ c.toNat = 11 ∨ c.toNat = 12 ∨ c.toNat = 13 ∨
    c.toNat = 32 ∨ c.toNat = 133 ∨ c.toNat = 160 ∨ c.toNat = 5760 ∨
    (8192 ≤ c.toNat ∧ c.toNat ≤ 8202) ∨ c.toNat = 8232 ∨ c.toNat = 8233 ∨
    c.toNat = 8239 ∨ c.toNat = 8287 ∨ c.toNat = 12288)

end unicode

namespace strings

/-- The call `strings.TrimSpace(s)`: `s` without leading and trailing white space. -/
def TrimSpace (s : String) : String :=
  ⟨((s.data.dropWhile unicode.IsSpace).reverse.dropWhile unicode.IsSpace).reverse⟩

end strings

namespace xml

/-- The attributes of a start element in document order, each with its local
name and its value. -/
abbrev Attrs := List (String × String)

/-- An element of a document: its local name, its attributes and its child
elements, in document order. -/
inductive Element where
  | mk (name : String) (attrs : Attrs) (children : List Element)

/-- The local name of an element. -/
def Element.name : Element → String
  | .mk name _ _ => name

/-- The attributes of an element. -/
def Element.attrs : Element → Attrs
  | .mk _ attrs _ => attrs

/-- The child elements of an element. -/
def Element.children : Element → List Element
  | .mk _ _ children => children

/-- The kinds of the fields that the records of the package bind to an
attribute. -/
inductive Kind where
  | string
  | int
  | float32
deriving DecidableEq, Repr

/-- The attribute fields of a struct type as its tags give them: the name of
the attribute and the kind of the field. -/
abbrev Fields := List (String × Kind)

/-- The kind of the field that the tags bind to the attribute `tag`, if any. -/
def kindOf : Fields → String → Option Kind
  | [], _ => none
  | (t, k) :: rest, tag => if t = tag then some k else kindOf rest tag

/-- The values of the attribute fields of a record, each under the name of its
attribute. -/
structure Values where
  str : String → String
  int : String → Int
  float32 : String → Float32

/-- The zero value of a record, which `xml.Unmarshal` starts from. -/
def Values.zero : Values := ⟨fun _ => "", fun _ => 0, fun _ => ⟨0⟩⟩

/-- The helper `copyValue` for a field of kind `int`, which has 64 bits: the
empty value is zero, any other value is parsed after trimming white space. -/
def copyValueInt (src : String) : Except strconv.NumError Int :=
  if src.length = 0 then .ok 0 else strconv.ParseInt (strings.TrimSpace src)

/-- The helper `copyValue` for a field of kind `float32`: the empty value is
zero, any other value is parsed after trimming white space; `pf s` is the call
`strconv.ParseFloat(s, 32)` followed by the conversion to `float32`. -/
def copyValueFloat32 (pf : String → Except strconv.NumError Float32) (src : String) :
    Except strconv.NumError Float32 :=
  if src.length = 0 then .ok ⟨0⟩ else pf (strings.TrimSpace src)

/-- What `xml.Unmarshal` does with one attribute of an element that it decodes
into a struct: the value is copied into the field whose tag names the
attribute, an attribute that no tag names is skipped, and a value that cannot
be copied is an error. -/
def unmarshalAttr (pf : String → Except strconv.NumError Float32) (fields : Fields)
    (v : Values) (a : String × String) : Except strconv.NumError Values :=
  match kindOf fields a.1 with
  | none => .ok v
  | some .string => .ok { v with str := Function.update v.str a.1 a.2 }
  | some .int =>
    match copyValueInt a.2 with
    | .error err => .error err
    | .ok i => .ok { v with int := Function.update v.int a.1 i }
  | some .float32 =>
    match copyValueFloat32 pf a.2 with
    | .error err => .error err
    | .ok f => .ok { v with float32 := Function.update v.float32 a.1 f }

/-- The walk of `xml.Unmarshal` over the attributes of an element, in document
order, starting from the values `v`; it stops at the first error. -/
def unmarshalAttrs (pf : String → Except strconv.NumError Float32) (fields : Fields)
    (v : Values) : Attrs → Except strconv.NumError Values
  | [] => .ok v
  | a :: rest =>
    match unmarshalAttr pf fields v a with
    | .error err => .error err
    | .ok v1 => unmarshalAttrs pf fields v1 rest

/-- A value that is not numeric: it has a character that is no decimal digit,
no sign and no white space. -/
def nonNumeric (src : String) : Prop :=
  ∃ c ∈ src.data, (c.toNat < 48 ∨ 57 < c.toNat) ∧ c ≠ '+' ∧ c ≠ '-' ∧
    unicode.IsSpace c = false

/-- A field of a struct type that the tags bind to a child element: the names
of the elements on the way to it (the tag `a>b` has the parent `a`), the name
of the element, whether the field is a slice, and the struct type of the
field, which for a slice is the type of its elements. -/
structure FieldInfo (α : Type) where
  parents : List String
  name : String
  slice : Bool
  typ : α

/-- A struct type as its tags describe it to `xml.Unmarshal`: the attribute
fields and, in the order of declaration, the element fields. -/
inductive Struct where
  | mk (fields : Fields) (elems : List (FieldInfo Struct))

/-- The attribute fields of a struct type. -/
def Struct.fields : Struct → Fields
  | .mk fields _ => fields

/-- The element fields of a struct type. -/
def Struct.elems : Struct → List (FieldInfo Struct)
  | .mk _ elems => elems

/-- A decoded record: the values of its attribute fields and the records that
were decoded into its element fields, in the order of decoding, each with the
index of its field among the element fields of the struct type. -/
inductive Record where
  | mk (values : Values) (elems : List (Nat × Record))

/-- The values of the attribute fields of a record. -/
def Record.values : Record → Values
  | .mk values _ => values

/-- The records decoded into the element fields of a record. -/
def Record.elems : Record → List (Nat × Record)
  | .mk _ elems => elems

/-- The zero value of a struct type: zero attribute fields, empty slices and
zero struct fields. -/
def Record.zero : Record := .mk Values.zero []

/-- The elements of the slice field with index `i`. -/
def Record.slice (r : Record) (i : Nat) : List Record :=
  (r.elems.filter (fun p => p.1 = i)).map Prod.snd

/-- The value of the struct field with index `i`: what the last decoding into
it left, the zero value when nothing was decoded into it. -/
def Record.field (r : Record) (i : Nat) : Record :=
  (r.slice i).getLast?.getD Record.zero

/-- What the search of `unmarshalPath` for a child element finds. -/
inductive Found where
  | field (i : Nat) (f : FieldInfo Struct)
  | parent
  | unmatched

/-- The loop of `unmarshalPath` over the element fields for a child element
`name` met below the elements `parents`: a field whose parents do not start
with `parents` is passed over; the first other field either has exactly these
parents and the name `name`, a perfect match, or has `name` as its next
parent, or is passed over too. -/
def findField : List (FieldInfo Struct) → Nat → List String → String → Found
  | [], _, _, _ => .unmatched
  | f :: rest, i, parents, name =>
    if parents.isPrefixOf f.parents = true then
      if f.parents.length = parents.length ∧ f.name = name then .field i f
      else if f.parents.get? parents.length = some name then .parent
      else findField rest (i + 1) parents name
    else findField rest (i + 1) parents name

mutual

/-- The method `unmarshalPath` of the decoder for the child element met below
the elements `parents` of a record `r` of struct type `s`.  A perfect match
decodes the element into the field: its attributes are copied and its
children decoded, into a new element for a slice and into the field itself
for a struct.  An element that is the next parent of a field has its own
children searched.  Any other element is skipped. -/
def unmarshalPath (pf : String → Except strconv.NumError Float32) (s : Struct)
    (parents : List String) (r : Record) : Element → Except strconv.NumError Record
  | .mk name attrs children =>
    match findField s.elems 0 parents name with
    | .unmatched => .ok r
    | .parent => unmarshalChildren pf s (parents ++ [name]) r children
    | .field i f =>
      match unmarshalAttrs pf f.typ.fields
          (if f.slice then Record.zero else r.field i).values attrs with
      | .error err => .error err
      | .ok v =>
        match unmarshalChildren pf f.typ []
            (.mk v (if f.slice then Record.zero else r.field i).elems) children with
        | .error err => .error err
        | .ok r1 => .ok (.mk r.values (r.elems ++ [(i, r1)]))

/-- The loop of the decoder over the child elements of an element, in document
order; it stops at the first error. -/
def unmarshalChildren (pf : String → Except strconv.NumError Float32) (s : Struct)
    (parents : List String) (r : Record) : List Element → Except strconv.NumError Record
  | [] => .ok r
  | c :: rest =>
    match unmarshalPath pf s parents r c with
    | .error err => .error err
    | .ok r1 => unmarshalChildren pf s parents r1 rest

end

/-- The call `xml.Unmarshal(data, &v)` for a document with root element `root`
and a record `v` with value `r` of struct type `s`, none of whose fields has a
name for the root element: the attributes of the root are copied into the
attribute fields, then its children are decoded. -/
def unmarshal (pf : String → Except strconv.NumError Float32) (s : Struct) (r : Record)
    (root : Element) : Except strconv.NumError Record :=
  match unmarshalAttrs pf s.fields r.values root.attrs with
  | .error err => .error err
  | .ok v => unmarshalChildren pf s [] (.mk v r.elems) root.children

mutual

/-- The elements that `unmarshalPath` decodes into a record when it is given
a child element, in document order, each as the attribute fields of its record
and its own attributes. -/
def decodedPath (s : Struct) (parents : List String) : Element → List (Fields × Attrs)
  | .mk name attrs children =>
    match findField s.elems 0 parents name with
    | .unmatched => []
    | .parent => decodedChildren s (parents ++ [name]) children
    | .field _ f => (f.typ.fields, attrs) :: decodedChildren f.typ [] children

/-- The elements that are decoded into a record among the given child
elements and their descendants, in document order. -/
def decodedChildren (s : Struct) (parents : List String) :
    List Element → List (Fields × Attrs)
  | [] => []
  | c :: rest => decodedPath s parents c ++ decodedChildren s parents rest

end

/-- The elements of a document that `xml.Unmarshal` decodes into a record, the
root first. -/
def decoded (s : Struct) (root : Element) : List (Fields × Attrs) :=
  (s.fields, root.attrs) :: decodedChildren s [] root.children

mutual

/-- Whether the first element is the second one with some attributes removed,
here or in a descendant. -/
def Element.fewerAttrs : Element → Element → Bool
  | .mk name2 attrs2 children2, .mk name attrs children =>
    decide (name2 = name) && decide (attrs2.Sublist attrs) && fewerAttrsList children2 children

/-- Whether the first elements are, one by one, the second ones with some
attributes removed. -/
def fewerAttrsList : List Element → List Element → Bool
  | [], [] => true
  | c2 :: rest2, c :: rest => c2.fewerAttrs c && fewerAttrsList rest2 rest
  | [], _ :: _ => false
  | _ :: _, [] => false

end

end xml

/-- The attribute fields of `Game`, from its struct tags. -/
def gameFields : xml.Fields :=
  [("gameday_link", .string), ("time_date", .string), ("time_zone", .string),
    ("ampm", .string), ("away_name_abbrev", .string), ("home_name_abbrev", .string),
    ("away_team_city", .string), ("home_team_city", .string), ("away_team_name", .string),
    ("home_team_name", .string), ("top_inning", .string), ("status", .string),
    ("inning", .int), ("outs", .int), ("away_team_runs", .int), ("home_team_runs", .int),
    ("away_team_hits", .int), ("home_team_hits", .int), ("away_team_errors", .int),
    ("home_team_errors", .int), ("runner_on_base_status", .int)]

/-- The attribute fields of `LineScore`, from its struct tags: those of the
embedded `Game` and its own. -/
def lineScoreFields : xml.Fields :=
  gameFields ++ [("is_no_hitter", .string), ("is_perfect_game", .string)]

/-- The attribute fields of `Review`, from its struct tags. -/
def reviewFields : xml.Fields :=
  [("challenges_away_used", .int), ("challenges_away_remaining", .int),
    ("challenges_home_used", .int), ("challenges_home_remaining", .int)]

/-- The attribute fields of `LineScoreInning`, from its struct tags. -/
def lineScoreInningFields : xml.Fields :=
  [("inning", .int), ("home_inning_runs", .int), ("away_inning_runs", .int)]

/-- The attribute fields of `Roster`, from its struct tags. -/
def rosterFields : xml.Fields := [("id", .string)]

/-- The attribute fields of `Player`, from its struct tags. -/
def playerFields : xml.Fields :=
  [("id", .int), ("first", .string), ("last", .string), ("num", .int), ("rl", .string),
    ("bats", .string), ("position", .string), ("status", .string), ("avg", .float32),
    ("hr", .int), ("rbi", .int), ("wins", .int), ("losses", .int), ("era", .float32)]

/-- The attribute fields of `Coach`, from its struct tags. -/
def coachFields : xml.Fields :=
  [("id", .int), ("first", .string), ("last", .string), ("num", .int), ("position", .string)]

/-- The attribute fields of `Umpire`, from its struct tags. -/
def umpireFields : xml.Fields :=
  [("id", .int), ("first", .string), ("last", .string), ("position", .string),
    ("name", .string)]

/-- The attribute fields of `AtBatInning`, from its struct tags. -/
def atBatInningFields : xml.Fields := [("num", .int)]

/-- The attribute fields of `AtBat`, from its struct tags. -/
def atBatFields : xml.Fields :=
  [("num", .int), ("batter", .int), ("pitcher", .int), ("b", .int), ("s", .int), ("o", .int),
    ("event", .string), ("home_team_runs", .int), ("away_team_runs", .int)]

/-- The attribute fields of `Pitch`, from its struct tags. -/
def pitchFields : xml.Fields :=
  [("des", .string), ("type", .string), ("tfs_zulu", .string), ("x", .float32),
    ("y", .float32), ("start_speed", .float32), ("end_speed", .float32),
    ("sz_top", .float32), ("sz_bot", .float32), ("pfx_x", .float32), ("pfx_z", .float32),
    ("px", .float32), ("pz", .float32), ("x0", .float32), ("y0", .float32), ("z0", .float32),
    ("vx0", .float32), ("vy0", .float32), ("vz0", .float32), ("ax", .float32),
    ("ay", .float32), ("az", .float32), ("break_y", .float32), ("break_angle", .float32),
    ("break_length", .float32), ("pitch_type", .string), ("type_confidence", .float32),
    ("zone", .float32), ("nasty", .float32), ("spin_dir", .float32), ("spin_rate", .float32)]

/-- The attribute fields of `Team`, from its struct tags. -/
def teamFields : xml.Fields := [("id", .int), ("code", .string)]

/-- The attribute fields of `Notification`, from its struct tags. -/
def notificationFields : xml.Fields :=
  [("inning", .int), ("top", .string), ("ab", .int), ("outs", .int)]

/-- The attribute fields of `Type`, from its struct tags. -/
def typeFields : xml.Fields := [("category", .string)]

/-- The attribute fields of all the records of the package that have some. -/
def packageFields : List xml.Fields :=
  [gameFields, lineScoreFields, reviewFields, lineScoreInningFields, rosterFields,
    playerFields, coachFields, umpireFields, atBatInningFields, atBatFields, pitchFields,
    teamFields, notificationFields, typeFields]

/-- The struct type `Game`: attribute fields only. -/
def gameStruct : xml.Struct := .mk gameFields []

/-- The struct type `Scoreboard`, which `getScoreboard` decodes into: the
slice `Games` of the elements `game`. -/
def scoreboardStruct : xml.Struct := .mk [] [⟨[], "game", true, gameStruct⟩]

/-- The struct type `Review`. -/
def reviewStruct : xml.Struct := .mk reviewFields []

/-- The struct type `LineScoreInning`. -/
def lineScoreInningStruct : xml.Struct := .mk lineScoreInningFields []

/-- The struct type `LineScore`, which `LineScore` decodes into: the
attributes of the embedded `Game` and its own, the struct `Review` of the
element `review` and the slice `Innings` of the elements `linescore`. -/
def lineScoreStruct : xml.Struct :=
  .mk lineScoreFields
    [⟨[], "review", false, reviewStruct⟩, ⟨[], "linescore", true, lineScoreInningStruct⟩]

/-- The struct type `Player`. -/
def playerStruct : xml.Struct := .mk playerFields []

/-- The struct type `Coach`. -/
def coachStruct : xml.Struct := .mk coachFields []

/-- The struct type `Umpire`. -/
def umpireStruct : xml.Struct := .mk umpireFields []

/-- The struct type `Roster`: the slices `Players` and `Coaches`. -/
def rosterStruct : xml.Struct :=
  .mk rosterFields [⟨[], "player", true, playerStruct⟩, ⟨[], "coach", true, coachStruct⟩]

/-- The struct type `Players`, which `Players` decodes into: the slice `Teams`
of the elements `team` and the slice `Umpires` of the elements `umpire` below
`umpires`. -/
def playersStruct : xml.Struct :=
  .mk [] [⟨[], "team", true, rosterStruct⟩, ⟨["umpires"], "umpire", true, umpireStruct⟩]

/-- The struct type `Pitch`. -/
def pitchStruct : xml.Struct := .mk pitchFields []

/-- The struct type `AtBat`: the slice `Pitches`. -/
def atBatStruct : xml.Struct := .mk atBatFields [⟨[], "pitch", true, pitchStruct⟩]

/-- The struct type `AtBatInning`: the slices `Top` and `Bottom` of the
elements `atbat` below `top` and below `bottom`. -/
def atBatInningStruct : xml.Struct :=
  .mk atBatInningFields
    [⟨["top"], "atbat", true, atBatStruct⟩, ⟨["bottom"], "atbat", true, atBatStruct⟩]

/-- The struct type `AtBats`, which `AtBats` decodes into: the slice `Innings`
of the elements `inning`. -/
def atBatsStruct : xml.Struct := .mk [] [⟨[], "inning", true, atBatInningStruct⟩]

/-- The struct type `Type`. -/
def typeStruct : xml.Struct := .mk typeFields []

/-- The struct type `Notification`: the slices `Players` and `Types`. -/
def notificationStruct : xml.Struct :=
  .mk notificationFields [⟨[], "player", true, playerStruct⟩, ⟨[], "type", true, typeStruct⟩]

/-- The struct type `Team`: the slice `Notifications`. -/
def teamStruct : xml.Struct :=
  .mk teamFields [⟨[], "notification", true, notificationStruct⟩]

/-- The struct type `Notifications`, which `Notifications` decodes into: the
slice `Game` of the elements `notification` below `game` and the slice `Teams`
of the elements `team`. -/
def notificationsStruct : xml.Struct :=
  .mk []
    [⟨["game"], "notification", true, notificationStruct⟩, ⟨[], "team", true, teamStruct⟩]

/-- The record `Game` with the values of its attribute fields. -/
def Game.ofValues (v : xml.Values) : Game :=
  { GID := v.str "gameday_link", TimeDate := v.str "time_date", TimeZone := v.str "time_zone",
    AMPM := v.str "ampm", AwayNameAbbrev := v.str "away_name_abbrev",
    HomeNameAbbrev := v.str "home_name_abbrev", AwayTeamCity := v.str "away_team_city",
    HomeTeamCity := v.str "home_team_city", AwayTeamName := v.str "away_team_name",
    HomeTeamName := v.str "home_team_name", TopInning := v.str "top_inning",
    Status := v.str "status", Inning := v.int "inning", Outs := v.int "outs",
    AwayTeamRuns := v.int "away_team_runs", HomeTeamRuns := v.int "home_team_runs",
    AwayHitsRuns := v.int "away_team_hits", HomeHitsRuns := v.int "home_team_hits",
    AwayTeamErrors := v.int "away_team_errors", HomeTeamErrors := v.int "home_team_errors",
    BaseState := v.int "runner_on_base_status" }

/-- The record `Scoreboard` of a decoded record: the slice `Games` is the
element field with index 0. -/
def Scoreboard.ofRecord (r : xml.Record) : Scoreboard :=
  { Games := (r.slice 0).map (fun g => Game.ofValues g.values) }

/-- What `xml.Unmarshal` makes of the attributes of one `game` element: the
walk over the attributes from the zero record. -/
def unmarshalGame (pf : String → Except strconv.NumError Float32) (attrs : xml.Attrs) :
    Except strconv.NumError Game :=
  match xml.unmarshalAttrs pf gameFields xml.Values.zero attrs with
  | .error err => .error err
  | .ok v => .ok (Game.ofValues v)

/-- The call `xml.Unmarshal(data, &sb)` of `getScoreboard` for a document with
root element `root`, `sb` being the zero `Scoreboard`. -/
def unmarshalScoreboard (pf : String → Except strconv.NumError Float32) (root : xml.Element) :
    Except strconv.NumError Scoreboard :=
  match xml.unmarshal pf scoreboardStruct xml.Record.zero root with
  | .error err => .error err
  | .ok r => .ok (Scoreboard.ofRecord r)

/-- The behaviour of `xml.Unmarshal` on an empty document: the decoder meets
the end of the input before any element and returns `io.EOF`, whose message
is `EOF`. -/
def XML.EOFOnEmpty (xml : XML) : Prop :=
  xml.UnmarshalScoreboard [] = .error ⟨"EOF"⟩ ∧
  xml.UnmarshalLineScore [] = .error ⟨"EOF"⟩ ∧
  xml.UnmarshalPlayers [] = .error ⟨"EOF"⟩ ∧
  xml.UnmarshalAtBats [] = .error ⟨"EOF"⟩ ∧
  xml.UnmarshalNotifications [] = .error ⟨"EOF"⟩

/-- The filtering step of `FilterAtBats`: its loop over the innings of the
decoded collection `all`, started with no inning. -/
def filterLoop (f : AtBat → Bool) (all : AtBats) : AtBats :=
  all.Innings.foldl (filterInning f) { Innings := [] }

/-! ## The specification's wording of the filter -/

/-- The filtered collection in the words of the specification: the innings
that have an at-bat satisfying `p` in either half, in the original order, each
with its number and with both halves filtered by `p`. -/
def specFilterAtBats (p : AtBat → Bool) (g : AtBats) : AtBats :=
  ⟨(g.Innings.filter (fun inning => inning.Top.any p || inning.Bottom.any p)).map
    (fun inning => ⟨inning.Number, inning.Top.filter p, inning.Bottom.filter p⟩)⟩

/-! ## Fixtures: a server, a location and the services of the test suite -/

/-- The location of the test suite: New York on daylight time, four hours
west of UTC. -/
def newYorkEDT : time.Location := ⟨"America/New_York", fun _ => -14400⟩

/-- Midnight of 2016-09-05 in New York, the date of `setupGameday`. -/
def date20160905 : time.Time := ⟨1473048000, newYorkEDT⟩

/-- Whether the text has a `%` that no two hexadecimal digits follow, which
`url.Parse` rejects as an invalid URL escape. -/
def badEscape : List Char → Bool
  | [] => false
  | c :: rest =>
    if c = '%' then
      match rest with
      | a :: b :: rest2 =>
        if a.isDigit || ('a' ≤ a && a ≤ 'f') || ('A' ≤ a && a ≤ 'F') then
          if b.isDigit || ('a' ≤ b && b ≤ 'f') || ('A' ≤ b && b ≤ 'F') then badEscape rest2
          else true
        else true
      | _ => true
    else badEscape rest

/-- The URLs of the fixtures, for the base `http://gd2.mlb.com` of `NewClient`.
A path with an invalid escape is not parsed by `url.Parse`; a path of letters,
digits, `_`, `-`, `.` and `/` without dot segments resolves to the base, a
`/` and the path.  The fixtures are used at no other path. -/
def fixedURL (path : String) : Option String :=
  if badEscape path.data then none else some ("http://gd2.mlb.com/" ++ path)

/-- The request that the fixtures log for a path. -/
def request (path : String) : Request := ⟨path, "http://gd2.mlb.com/" ++ path⟩

/-- A client whose server answers every request with the given status and body. -/
def fixedClient (status : Int) (body : Bytes) : Client :=
  ⟨fixedURL, fun _ => .ok ⟨status, (body, none)⟩⟩

/-- The day service of `setupGameday` over a server that answers 404. -/
def gameday404 : GamedayServiceOp := (fixedClient 404 []).Gameday newYorkEDT date20160905

/-- The game service of the test suite, bound to the game
`2016_09_05_kcamlb_minmlb_1`, over the client `c`. -/
def gameService (c : Client) : GameServiceOp :=
  { client := c, gid := "2016_09_05_kcamlb_minmlb_1",
    path := "components/game/mlb/year_2016/month_09/day_05/gid_2016_09_05_kcamlb_minmlb_1/" }

/-- A decoder that fails with `EOF` on an empty document and otherwise yields
the given at-bats and scoreboard; the other records are not decoded. -/
def fixedXML (g : AtBats) (sb : Scoreboard) : XML :=
  { UnmarshalScoreboard := fun data => if data = [] then .error ⟨"EOF"⟩ else .ok sb
    UnmarshalLineScore := fun _ => .error ⟨"EOF"⟩
    UnmarshalPlayers := fun _ => .error ⟨"EOF"⟩
    UnmarshalAtBats := fun data => if data = [] then .error ⟨"EOF"⟩ else .ok g
    UnmarshalNotifications := fun _ => .error ⟨"EOF"⟩ }

/-- An at-bat with the given number and batter and no pitches. -/
def atBat (num batter : Int) : AtBat :=
  { Number := num, Batter := batter, Pitcher := 0, Balls := 0, Strikes := 0, Outs := 0,
    Event := "", HomeTeamRuns := 0, AwayTeamRuns := 0, Pitches := [] }

/-- A game in the bottom of the seventh: six played innings, a seventh with at-bats
in both halves, and two later innings without at-bats. -/
def seventhInning : AtBats :=
  ⟨[⟨1, [atBat 1 10], [atBat 2 20]⟩, ⟨2, [atBat 3 11], [atBat 4 21]⟩,
    ⟨3, [atBat 5 12], [atBat 6 22]⟩, ⟨4, [atBat 7 13], [atBat 8 23]⟩,
    ⟨5, [atBat 9 14], [atBat 10 24]⟩, ⟨6, [atBat 11 15], [atBat 12 25]⟩,
    ⟨7, [atBat 13 16, atBat 14 17], [atBat 15 26, atBat 16 27]⟩,
    ⟨8, [], []⟩, ⟨9, [], []⟩]⟩

/-- A game that has not started: one inning, both halves empty. -/
def notStarted : AtBats := ⟨[⟨1, [], []⟩]⟩

/-- A game of the scoreboard with the given identifier and status. -/
def game (gid status : String) : Game :=
  { GID := gid, TimeDate := "", TimeZone := "ET", AMPM := "PM", AwayNameAbbrev := "",
    HomeNameAbbrev := "", AwayTeamCity := "", HomeTeamCity := "", AwayTeamName := "",
    HomeTeamName := "", TopInning := "", Status := status, Inning := 0, Outs := 0,
    AwayTeamRuns := 0, HomeTeamRuns := 0, AwayHitsRuns := 0, HomeHitsRuns := 0,
    AwayTeamErrors := 0, HomeTeamErrors := 0, BaseState := 0 }

/-- A scoreboard like the one of the test suite: a game in progress, a preview,
and a second game in progress. -/
def scoreboard20160905 : Scoreboard :=
  ⟨[game "2016_09_05_tormlb_nyamlb_1" "In Progress", game "2016_09_05_nynmlb_cinmlb_1" "Preview",
    game "2016_09_05_kcamlb_minmlb_1" "In Progress"]⟩

/-- The location UTC. -/
def utc : time.Location := ⟨"UTC", fun _ => 0⟩

/-- The instant 2016-09-06 02:00 UTC, which is 2016-09-05 22:00 in New York. -/
def evening20160905 : time.Time := ⟨1473127200, utc⟩

/-- A game in the top of the second: a first inning played in both halves and
a second inning with an at-bat in the top half only. -/
def topOfSecond : AtBats :=
  ⟨[⟨1, [atBat 1 10], [atBat 2 20]⟩, ⟨2, [atBat 3 11], []⟩]⟩

/-- The attributes of a game that is still a preview: no inning, outs, runs,
hits, errors or runners, and no `top_inning`. -/
def previewAttrs : xml.Attrs :=
  [("id", "2016/09/05/nynmlb-cinmlb-1"), ("gameday_link", "2016_09_05_nynmlb_cinmlb_1"),
    ("time_date", "2016/09/05 1:10"), ("time_zone", "ET"), ("ampm", "PM"),
    ("away_name_abbrev", "NYM"), ("home_name_abbrev", "CIN"), ("away_team_city", "NY Mets"),
    ("home_team_city", "Cincinnati"), ("away_team_name", "Mets"), ("home_team_name", "Reds"),
    ("status", "Preview")]

/-- The attributes of a game in progress, with all its numbers. -/
def inProgressAttrs : xml.Attrs :=
  [("id", "2016/09/05/tormlb-nyamlb-1"), ("gameday_link", "2016_09_05_tormlb_nyamlb_1"),
    ("time_date", "2016/09/05 1:05"), ("time_zone", "ET"), ("ampm", "PM"),
    ("away_name_abbrev", "TOR"), ("home_name_abbrev", "NYY"), ("away_team_city", "Toronto"),
    ("home_team_city", "NY Yankees"), ("away_team_name", "Blue Jays"),
    ("home_team_name", "Yankees"), ("top_inning", "Y"), ("status", "In Progress"),
    ("inning", "1"), ("outs", "0"), ("away_team_runs", "0"), ("home_team_runs", "0"),
    ("away_team_hits", "1"), ("home_team_hits", "0"), ("away_team_errors", "0"),
    ("home_team_errors", "0"), ("runner_on_base_status", "2")]

/-- A scoreboard document like the one of the test suite: a game in progress
with a child element, and a preview. -/
def scoreboardDocument : xml.Element :=
  .mk "games" [("year", "2016"), ("month", "09"), ("day", "05")]
    [.mk "game" inProgressAttrs [.mk "game_media" [] []], .mk "game" previewAttrs []]

/-- A scoreboard document whose one game has an inning that is not a number. -/
def nonNumericDocument : xml.Element :=
  .mk "games" [] [.mk "game" [("status", "In Progress"), ("inning", "abc")] []]

/-- A float parser for the fixtures, which decode no field of kind `float32`:
it rejects every text. -/
def fixedParseFloat (s : String) : Except strconv.NumError Float32 :=
  .error ⟨"ParseFloat", s, strconv.ErrSyntax⟩

/-- The game in progress that the scoreboard test expects. -/
def inProgressGame : Game :=
  { GID := "2016_09_05_tormlb_nyamlb_1", TimeDate := "2016/09/05 1:05", TimeZone := "ET",
    AMPM := "PM", AwayNameAbbrev := "TOR", HomeNameAbbrev := "NYY", AwayTeamCity := "Toronto",
    HomeTeamCity := "NY Yankees", AwayTeamName := "Blue Jays", HomeTeamName := "Yankees",
    TopInning := "Y", Status := "In Progress", Inning := 1, Outs := 0, AwayTeamRuns := 0,
    HomeTeamRuns := 0, AwayHitsRuns := 1, HomeHitsRuns := 0, AwayTeamErrors := 0,
    HomeTeamErrors := 0, BaseState := 2 }

/-- The preview that the scoreboard test expects: every number is zero and
`TopInning` is empty. -/
def previewGame : Game :=
  { GID := "2016_09_05_nynmlb_cinmlb_1", TimeDate := "2016/09/05 1:10", TimeZone := "ET",
    AMPM := "PM", AwayNameAbbrev := "NYM", HomeNameAbbrev := "CIN", AwayTeamCity := "NY Mets",
    HomeTeamCity := "Cincinnati", AwayTeamName := "Mets", HomeTeamName := "Reds",
    TopInning := "", Status := "Preview", Inning := 0, Outs := 0, AwayTeamRuns := 0,
    HomeTeamRuns := 0, AwayHitsRuns := 0, HomeHitsRuns := 0, AwayTeamErrors := 0,
    HomeTeamErrors := 0, BaseState := 0 }

/-- The scoreboard document with most of its attributes removed: the root has
none, the first game keeps three and the second none. -/
def strippedDocument : xml.Element :=
  .mk "games" []
    [.mk "game" [("gameday_link", "2016_09_05_tormlb_nyamlb_1"), ("status", "In Progress"),
        ("inning", "1")] [.mk "game_media" [] []],
     .mk "game" [] []]

/-- An at-bats document: an inning whose top half has an at-bat with a pitch,
next to elements that no tag names. -/
def atBatsDocument : xml.Element :=
  .mk "game" [("atBat", "543877"), ("deck", "457705")]
    [.mk "inning" [("num", "1"), ("away_team", "tor")]
      [.mk "top" []
        [.mk "atbat" [("num", "1"), ("b", "1"), ("event", "Single")]
          [.mk "pitch" [("des", "Ball"), ("type", "B")] [],
           .mk "runner" [("id", "543877")] []],
         .mk "action" [("b", "0")] []],
       .mk "bottom" [] [.mk "atbat" [("num", "2")] []]]]

/-- A line score document: two innings, a review and an element that no tag
names. -/
def lineScoreDocument : xml.Element :=
  .mk "game" [("status", "In Progress"), ("inning", "3"), ("is_no_hitter", "N")]
    [.mk "linescore" [("inning", "1"), ("home_inning_runs", "0"), ("away_inning_runs", "2")] [],
     .mk "linescore" [("inning", "2"), ("away_inning_runs", "0")] [],
     .mk "review" [("challenges_away_used", "1")] [],
     .mk "current_batter" [("id", "543877")] []]

/-- A players document: a team with a player and a coach, an umpire below
`umpires` and an umpire that is not below `umpires`. -/
def playersDocument : xml.Element :=
  .mk "game" [("venue", "Target Field")]
    [.mk "team" [("type", "away"), ("id", "KC")]
      [.mk "player" [("id", "543877"), ("avg", ".266")] [], .mk "coach" [("id", "119271")] []],
     .mk "umpires" [] [.mk "umpire" [("id", "427044"), ("position", "home")] []],
     .mk "umpire" [("id", "427045")] []]

/-- A notifications document: a notification of the game and one of a team. -/
def notificationsDocument : xml.Element :=
  .mk "notifications" [("modified_date", "2016-09-05")]
    [.mk "game" [("id", "2016_09_05_kcamlb_minmlb_1")]
      [.mk "notification" [("inning", "1"), ("ab", "5")]
        [.mk "player" [("id", "543877")] [], .mk "type" [("category", "scoring")] []]],
     .mk "team" [("id", "142"), ("code", "min")] [.mk "notification" [("inning", "2")] []]]

/-! ## Path of a game -/

/-- Cutting at `sep` gives one token more than there are occurrences of `sep`. -/
theorem splitChars_length (sep : Char) (cs : List Char) :
    (strings.splitChars sep cs).length = cs.count sep + 1 := by
  induction cs with
  | nil => rfl
  | cons c cs ih =>
    by_cases h : c = sep
    · simp [strings.splitChars, h, ih]
    · have hc : (c == sep) = false := by simpa using h
      cases hs : strings.splitChars sep cs with
      | nil => rw [hs] at ih; simp at ih
      | cons t ts =>
        rw [hs] at ih
        simp only [strings.splitChars, h, if_false, hs, List.count_cons, hc]
        simpa using ih

/-- No token of a cut contains the separator. -/
theorem splitChars_no_sep (sep : Char) (cs : List Char) :
    ∀ t ∈ strings.splitChars sep cs, sep ∉ t := by
  induction cs with
  | nil => intro t ht; simp [strings.splitChars] at ht; simp [ht]
  | cons c cs ih =>
    by_cases h : c = sep
    · intro t ht
      simp only [strings.splitChars, h, if_true, List.mem_cons] at ht
      rcases ht with rfl | ht
      · simp
      · exact ih t ht
    · cases hs : strings.splitChars sep cs with
      | nil =>
        intro t ht
        simp only [strings.splitChars, h, if_false, hs, List.mem_singleton] at ht
        subst ht
        simpa using fun hh => h hh.symm
      | cons t0 ts =>
        rw [hs] at ih
        intro t ht
        simp only [strings.splitChars, h, if_false, hs, List.mem_cons] at ht
        rcases ht with rfl | ht
        · have := ih t0 (List.mem_cons_self _ _)
          simp only [List.mem_cons, not_or]
          exact ⟨fun hh => h hh.symm, this⟩
        · exact ih t (List.mem_cons_of_mem _ ht)

/-- Joining the tokens of a cut with the separator gives the sequence back. -/
theorem splitChars_join (sep : Char) (cs : List Char) :
    List.intercalate [sep] (strings.splitChars sep cs) = cs := by
  induction cs with
  | nil => rfl
  | cons c cs ih =>
    by_cases h : c = sep
    · cases hs : strings.splitChars sep cs with
      | nil => have := splitChars_length sep cs; rw [hs] at this; simp at this
      | cons t ts =>
        rw [hs] at ih
        simp only [strings.splitChars, h, if_true, hs]
        simp only [List.intercalate, List.intersperse, List.flatten, List.nil_append,
          List.singleton_append] at ih ⊢
        rw [ih]
    · cases hs : strings.splitChars sep cs with
      | nil => have := splitChars_length sep cs; rw [hs] at this; simp at this
      | cons t ts =>
        rw [hs] at ih
        simp only [strings.splitChars, h, if_false, hs]
        cases ts with
        | nil =>
          simp only [List.intercalate, List.intersperse, List.flatten, List.append_nil] at ih ⊢
          rw [ih]
        | cons t1 ts =>
          simp only [List.intercalate, List.intersperse, List.flatten, List.cons_append] at ih ⊢
          rw [ih]

/-- The call `strings.Split(s, sep)` returns one token more than `s` has
occurrences of `sep`: six tokens for exactly five separators. -/
theorem Split_length (s : String) (sep : Char) :
    (strings.Split s sep).length = s.data.count sep + 1 := by
  simp [strings.Split, splitChars_length]

/-- The calendar of `civilFromDays` on days around the epoch, a leap day, the
date of the test suite and the first day of the year 0. -/
theorem civilFromDays_samples :
    time.civilFromDays 0 = (1970, 1, 1) ∧ time.civilFromDays (-1) = (1969, 12, 31) ∧
    time.civilFromDays 11016 = (2000, 2, 29) ∧ time.civilFromDays 17049 = (2016, 9, 5) ∧
    time.civilFromDays 19782 = (2024, 2, 29) ∧ time.civilFromDays 19783 = (2024, 3, 1) ∧
    time.civilFromDays (-719528) = (0, 1, 1) ∧ time.civilFromDays (-719529) = (-1, 12, 31) := by
  decide

/-- The padding of `appendInt`. -/
theorem appendInt_samples :
    time.appendInt 5 2 = "05" ∧ time.appendInt 12 2 = "12" ∧ time.appendInt 0 4 = "0000" ∧
    time.appendInt 2016 4 = "2016" ∧ time.appendInt (-44) 4 = "-0044" ∧
    time.appendInt 12345 4 = "12345" := by
  decide

theorem Game_eq (s : GamedayServiceOp) (gid : String) :
    s.Game gid = NewGameService s.client gid := by
  unfold GamedayServiceOp.Game
  rcases h : NewGameService s.client gid with ⟨svc, _ | err⟩ <;> simp
  unfold NewGameService at h
  split at h <;> simp_all

theorem pathFromGID_of_ne_six (gid path : String) (h : (strings.Split gid '_').length ≠ 6) :
    pathFromGID gid path = ("", some ⟨"Could not derive date from id " ++ gid⟩) := by
  simp [pathFromGID, h, errors.New]

theorem pathFromGID_of_six (gid path : String) (h : (strings.Split gid '_').length = 6) :
    pathFromGID gid path =
      ("components/game/mlb/year_" ++ (strings.Split gid '_').getD 0 "" ++
        "/month_" ++ (strings.Split gid '_').getD 1 "" ++
        "/day_" ++ (strings.Split gid '_').getD 2 "" ++ "/gid_" ++ gid ++ "/" ++ path, none) := by
  have e : "components/game/mlb/" ++ "year_" = "components/game/mlb/year_" := by decide
  simp only [pathFromGID, h, ne_eq, not_true_eq_false, if_false, String.append_assoc]
  rw [← String.append_assoc "components/game/mlb/" "year_", e]

/-- C1: `Game(gid)` returns an error exactly when cutting `gid` at `_` does not
give six tokens; it then returns no service and the error
`Could not derive date from id ` followed by `gid`; with six tokens it returns
the service bound to `gid` and its path, and no error. -/
theorem Game_fails_iff_not_six_tokens (s : GamedayServiceOp) (gid : String) :
    ((s.Game gid).2 ≠ none ↔ (strings.Split gid '_').length ≠ 6) ∧
    ((strings.Split gid '_').length ≠ 6 →
      s.Game gid = (none, some ⟨"Could not derive date from id " ++ gid⟩)) ∧
    ((strings.Split gid '_').length = 6 →
      s.Game gid =
        (some { client := s.client, gid := gid, path := (pathFromGID gid "").1 }, none)) := by
  have hne : (strings.Split gid '_').length ≠ 6 →
      s.Game gid = (none, some ⟨"Could not derive date from id " ++ gid⟩) := by
    intro h
    rw [Game_eq]
    simp [NewGameService, pathFromGID_of_ne_six gid "" h]
  have heq : (strings.Split gid '_').length = 6 →
      s.Game gid =
        (some { client := s.client, gid := gid, path := (pathFromGID gid "").1 }, none) := by
    intro h
    rw [Game_eq]
    simp [NewGameService, pathFromGID_of_six gid "" h]
  refine ⟨?_, hne, heq⟩
  by_cases h : (strings.Split gid '_').length = 6
  · simp [heq h, h]
  · simp [hne h, h]

theorem Game_fails_iff_not_six_tokens_witness :
    ((strings.Split "invalid_gid" '_').length ≠ 6 ∧
      gameday404.Game "invalid_gid" =
        (none, some ⟨"Could not derive date from id invalid_gid"⟩)) ∧
    ((strings.Split "2016_09_05_kcamlb_minmlb_1" '_').length = 6 ∧
      gameday404.Game "2016_09_05_kcamlb_minmlb_1" =
        (some { client := gameday404.client, gid := "2016_09_05_kcamlb_minmlb_1",
                path := (pathFromGID "2016_09_05_kcamlb_minmlb_1" "").1 }, none)) :=
  ⟨⟨by decide, (Game_fails_iff_not_six_tokens gameday404 "invalid_gid").2.1 (by decide)⟩,
   ⟨by decide,
    (Game_fails_iff_not_six_tokens gameday404 "2016_09_05_kcamlb_minmlb_1").2.2 (by decide)⟩⟩

/-- C2: when `gid` is cut at `_` into exactly the six tokens `t0 .. t5`,
`pathFromGID(gid, r)` returns, without error, the path
`components/game/mlb/year_t0/month_t1/day_t2/gid_<gid>/r`. -/
theorem pathFromGID_six_tokens (gid r t0 t1 t2 t3 t4 t5 : String)
    (h : strings.Split gid '_' = [t0, t1, t2, t3, t4, t5]) :
    pathFromGID gid r =
      ("components/game/mlb/year_" ++ t0 ++ "/month_" ++ t1 ++ "/day_" ++ t2 ++
        "/gid_" ++ gid ++ "/" ++ r, none) := by
  rw [pathFromGID_of_six gid r (by simp [h]), h]
  rfl

theorem pathFromGID_six_tokens_witness :
    pathFromGID "2016_09_05_kcamlb_minmlb_1" "" =
      ("components/game/mlb/year_2016/month_09/day_05/gid_2016_09_05_kcamlb_minmlb_1/", none) :=
  pathFromGID_six_tokens "2016_09_05_kcamlb_minmlb_1" "" "2016" "09" "05" "kcamlb" "minmlb" "1"
    (by decide)

/-! ## The most recent half inning -/

theorem mem_drop_succ_iff {α : Type} (l : List α) (k : Nat) (x : α) :
    x ∈ l.drop (k + 1) ↔ ∃ j, k < j ∧ l[j]? = some x := by
  rw [List.mem_iff_getElem?]
  constructor
  · rintro ⟨n, hn⟩
    rw [List.getElem?_drop] at hn
    exact ⟨k + 1 + n, by omega, hn⟩
  · rintro ⟨j, hj, hx⟩
    refine ⟨j - (k + 1), ?_⟩
    rw [List.getElem?_drop]
    have : k + 1 + (j - (k + 1)) = j := by omega
    rw [this]
    exact hx

/-- What the loop of `lastHalfInning` returns when entered at `n`: the error
when the first `n` innings are empty, otherwise the highest index below `n`
of an inning with an at-bat, flagged `"N"` when its bottom half has one. -/
theorem lastHalfInningLoop_spec (g : AtBats) : ∀ n, n ≤ g.Innings.length →
    ((∀ j, j < n → ∀ x, g.Innings[j]? = some x → x.Top = [] ∧ x.Bottom = []) ∧
      lastHalfInningLoop g n = some (0, "", some ⟨"Game has not started"⟩)) ∨
    (∃ k inn, k < n ∧ g.Innings[k]? = some inn ∧ (inn.Top ≠ [] ∨ inn.Bottom ≠ []) ∧
      (∀ j, k < j → j < n → ∀ x, g.Innings[j]? = some x → x.Top = [] ∧ x.Bottom = []) ∧
      lastHalfInningLoop g n = some (k, if inn.Bottom ≠ [] then "N" else "Y", none)) := by
  intro n
  induction n with
  | zero =>
    intro _
    left
    exact ⟨fun j hj => absurd hj (Nat.not_lt_zero j), rfl⟩
  | succ n ih =>
    intro hn
    have hlt : n < g.Innings.length := by omega
    have hget : g.Innings[n]? = some g.Innings[n] := List.getElem?_eq_getElem hlt
    by_cases hb : g.Innings[n].Bottom = []
    · by_cases ht : g.Innings[n].Top = []
      · have hstep : lastHalfInningLoop g (n + 1) = lastHalfInningLoop g n := by
          rw [lastHalfInningLoop, hget]
          simp [hb, ht]
        rcases ih (by omega) with ⟨hall, hres⟩ | ⟨k, inn, hk, hkget, hne, hlater, hres⟩
        · left
          refine ⟨?_, by rw [hstep, hres]⟩
          intro j hj x hx
          rcases Nat.lt_succ_iff_lt_or_eq.mp hj with h | h
          · exact hall j h x hx
          · subst h
            rw [hget] at hx
            cases hx
            exact ⟨ht, hb⟩
        · right
          refine ⟨k, inn, by omega, hkget, hne, ?_, by rw [hstep, hres]⟩
          intro j hkj hj x hx
          rcases Nat.lt_succ_iff_lt_or_eq.mp hj with h | h
          · exact hlater j hkj h x hx
          · subst h
            rw [hget] at hx
            cases hx
            exact ⟨ht, hb⟩
      · right
        refine ⟨n, g.Innings[n], by omega, hget, Or.inl ht, ?_, ?_⟩
        · intro j hkj hj
          omega
        · have : 0 < g.Innings[n].Top.length := List.length_pos.mpr ht
          rw [lastHalfInningLoop, hget]
          simp [hb, this]
    · right
      refine ⟨n, g.Innings[n], by omega, hget, Or.inr hb, ?_, ?_⟩
      · intro j hkj hj
        omega
      · have : 0 < g.Innings[n].Bottom.length := List.length_pos.mpr hb
        rw [lastHalfInningLoop, hget]
        simp [hb, this]

/-- The function `lastHalfInning` finds the last inning with an at-bat. -/
theorem lastHalfInning_found (g : AtBats) (k : Nat) (inn : AtBatInning)
    (hk : g.Innings[k]? = some inn) (hne : inn.Top ≠ [] ∨ inn.Bottom ≠ [])
    (hlater : ∀ x ∈ g.Innings.drop (k + 1), x.Top = [] ∧ x.Bottom = []) :
    lastHalfInning g = some (k, if inn.Bottom ≠ [] then "N" else "Y", none) := by
  rcases lastHalfInningLoop_spec g g.Innings.length le_rfl with
    ⟨hall, _⟩ | ⟨k2, inn2, hk2, hk2get, hne2, hlater2, hres⟩
  · have hklt : k < g.Innings.length := (List.getElem?_eq_some.mp hk).1
    have := hall k hklt inn hk
    rcases hne with h | h
    · exact absurd this.1 h
    · exact absurd this.2 h
  · have hklt : k < g.Innings.length := (List.getElem?_eq_some.mp hk).1
    have hkk : k2 = k := by
      rcases Nat.lt_trichotomy k2 k with h | h | h
      · have := hlater2 k h hklt inn hk
        rcases hne with h1 | h1
        · exact absurd this.1 h1
        · exact absurd this.2 h1
      · exact h
      · have := hlater inn2 ((mem_drop_succ_iff _ _ _).mpr ⟨k2, h, hk2get⟩)
        rcases hne2 with h1 | h1
        · exact absurd this.1 h1
        · exact absurd this.2 h1
    subst hkk
    rw [hk] at hk2get
    cases hk2get
    exact hres

/-- The function `lastHalfInning` reports the error on a collection without at-bats. -/
theorem lastHalfInning_empty (g : AtBats)
    (hall : ∀ x ∈ g.Innings, x.Top = [] ∧ x.Bottom = []) :
    lastHalfInning g = some (0, "", some ⟨"Game has not started"⟩) := by
  rcases lastHalfInningLoop_spec g g.Innings.length le_rfl with
    ⟨_, hres⟩ | ⟨k, inn, _, hkget, hne, _, _⟩
  · exact hres
  · have := hall inn (List.mem_iff_getElem?.mpr ⟨k, hkget⟩)
    rcases hne with h | h
    · exact absurd this.1 h
    · exact absurd this.2 h

/-- A collection with an at-bat has a last inning with an at-bat. -/
theorem exists_last_nonempty (g : AtBats)
    (h : ¬ ∀ x ∈ g.Innings, x.Top = [] ∧ x.Bottom = []) :
    ∃ k inn, g.Innings[k]? = some inn ∧ (inn.Top ≠ [] ∨ inn.Bottom ≠ []) ∧
      ∀ x ∈ g.Innings.drop (k + 1), x.Top = [] ∧ x.Bottom = [] := by
  rcases lastHalfInningLoop_spec g g.Innings.length le_rfl with
    ⟨hall, _⟩ | ⟨k, inn, _, hkget, hne, hlater, _⟩
  · exfalso
    apply h
    intro x hx
    obtain ⟨j, hj⟩ := List.mem_iff_getElem?.mp hx
    exact hall j (List.getElem?_eq_some.mp hj).1 x hj
  · refine ⟨k, inn, hkget, hne, ?_⟩
    intro x hx
    obtain ⟨j, hkj, hj⟩ := (mem_drop_succ_iff _ _ _).mp hx
    exact hlater j hkj (List.getElem?_eq_some.mp hj).1 x hj

/-! ## The current at-bat -/

/-- With an at-bat in the collection, `CurrentAtBat` returns the last at-bat of
the last inning that has one, the bottom half first. -/
theorem CurrentAtBat_of_found (s : GameServiceOp) (xml : XML) (log log1 : Log) (g : AtBats)
    (hfetch : s.AtBats xml log = some ((some g, none), log1))
    (k : Nat) (inn : AtBatInning) (hk : g.Innings[k]? = some inn)
    (hne : inn.Top ≠ [] ∨ inn.Bottom ≠ [])
    (hlater : ∀ x ∈ g.Innings.drop (k + 1), x.Top = [] ∧ x.Bottom = []) :
    ∃ ab, (if inn.Bottom ≠ [] then inn.Bottom.getLast? else inn.Top.getLast?) = some ab ∧
      s.CurrentAtBat xml log = some ((some ab, none), log1) := by
  have hfound := lastHalfInning_found g k inn hk hne hlater
  by_cases hb : inn.Bottom = []
  · have ht : inn.Top ≠ [] := by
      rcases hne with h | h
      · exact h
      · exact absurd hb h
    obtain ⟨ab, hab⟩ : ∃ ab, inn.Top.getLast? = some ab := by
      cases h : inn.Top.getLast? with
      | none => exact absurd (List.getLast?_eq_none_iff.mp h) ht
      | some ab => exact ⟨ab, rfl⟩
    refine ⟨ab, by simp [hb, hab], ?_⟩
    have hlen : inn.Top.length ≠ 0 := fun h => ht (List.length_eq_zero.mp h)
    rw [List.getLast?_eq_getElem?] at hab
    simp [GameServiceOp.CurrentAtBat, hfetch, hfound, hk, hb, hlen, hab]
  · obtain ⟨ab, hab⟩ : ∃ ab, inn.Bottom.getLast? = some ab := by
      cases h : inn.Bottom.getLast? with
      | none => exact absurd (List.getLast?_eq_none_iff.mp h) hb
      | some ab => exact ⟨ab, rfl⟩
    refine ⟨ab, by simp [hb, hab], ?_⟩
    have hlen : inn.Bottom.length ≠ 0 := fun h => hb (List.length_eq_zero.mp h)
    rw [List.getLast?_eq_getElem?] at hab
    simp [GameServiceOp.CurrentAtBat, hfetch, hfound, hk, hb, hlen, hab]

/-- Without an at-bat in the collection, `CurrentAtBat` reports that the game
has not started. -/
theorem CurrentAtBat_of_empty (s : GameServiceOp) (xml : XML) (log log1 : Log) (g : AtBats)
    (hfetch : s.AtBats xml log = some ((some g, none), log1))
    (hall : ∀ x ∈ g.Innings, x.Top = [] ∧ x.Bottom = []) :
    s.CurrentAtBat xml log = some ((none, some ⟨"Game has not started"⟩), log1) := by
  simp [GameServiceOp.CurrentAtBat, hfetch, lastHalfInning_empty g hall]

/-- C3: when the decoded collection has an at-bat, `CurrentAtBat` returns the
last at-bat of the last non-empty half inning: for the highest index `k` of an
inning with an at-bat (every inning after `k` is empty in both halves) it
returns the last bottom-half at-bat of inning `k` when that half is non-empty
and the last top-half at-bat of inning `k` otherwise, with no error. -/
theorem CurrentAtBat_last_nonempty_half (s : GameServiceOp) (xml : XML) (log log1 : Log)
    (g : AtBats) (hfetch : s.AtBats xml log = some ((some g, none), log1))
    (k : Nat) (inn : AtBatInning) (hk : g.Innings[k]? = some inn)
    (hne : inn.Top ≠ [] ∨ inn.Bottom ≠ [])
    (hlater : ∀ x ∈ g.Innings.drop (k + 1), x.Top = [] ∧ x.Bottom = []) :
    ∃ ab, (if inn.Bottom ≠ [] then inn.Bottom.getLast? else inn.Top.getLast?) = some ab ∧
      s.CurrentAtBat xml log = some ((some ab, none), log1) :=
  CurrentAtBat_of_found s xml log log1 g hfetch k inn hk hne hlater

theorem CurrentAtBat_last_nonempty_half_witness :
    (gameService (fixedClient 200 [60])).CurrentAtBat (fixedXML seventhInning ⟨[]⟩) [] =
      some ((some (atBat 16 27), none),
        [request "components/game/mlb/year_2016/month_09/day_05/gid_2016_09_05_kcamlb_minmlb_1/inning/inning_all.xml"]) := by
  obtain ⟨ab, hab, hres⟩ :=
    CurrentAtBat_last_nonempty_half (gameService (fixedClient 200 [60]))
      (fixedXML seventhInning ⟨[]⟩) []
      [request "components/game/mlb/year_2016/month_09/day_05/gid_2016_09_05_kcamlb_minmlb_1/inning/inning_all.xml"]
      seventhInning (by decide) 6 ⟨7, [atBat 13 16, atBat 14 17], [atBat 15 26, atBat 16 27]⟩
      (by decide) (by decide) (by decide)
  have hab2 : some (atBat 16 27) = some ab := hab
  cases hab2
  exact hres

/-- C4: on a decoded collection `CurrentAtBat` returns an error exactly when
every inning is empty in both halves (also when there is no inning); it then
returns no at-bat and the error `Game has not started`. -/
theorem CurrentAtBat_fails_iff_no_atbat (s : GameServiceOp) (xml : XML) (log log1 : Log)
    (g : AtBats) (hfetch : s.AtBats xml log = some ((some g, none), log1)) :
    ∃ r, s.CurrentAtBat xml log = some (r, log1) ∧
      (r.2 ≠ none ↔ ∀ x ∈ g.Innings, x.Top = [] ∧ x.Bottom = []) ∧
      ((∀ x ∈ g.Innings, x.Top = [] ∧ x.Bottom = []) →
        r = (none, some ⟨"Game has not started"⟩)) := by
  by_cases hall : ∀ x ∈ g.Innings, x.Top = [] ∧ x.Bottom = []
  · exact ⟨_, CurrentAtBat_of_empty s xml log log1 g hfetch hall,
      ⟨fun _ => hall, fun _ => by simp⟩, fun _ => rfl⟩
  · obtain ⟨k, inn, hk, hne, hlater⟩ := exists_last_nonempty g hall
    obtain ⟨ab, _, hres⟩ := CurrentAtBat_of_found s xml log log1 g hfetch k inn hk hne hlater
    exact ⟨_, hres, ⟨fun h => absurd rfl h, fun h => absurd h hall⟩, fun h => absurd h hall⟩

theorem CurrentAtBat_fails_iff_no_atbat_witness :
    ∃ r, (gameService (fixedClient 200 [60])).CurrentAtBat (fixedXML notStarted ⟨[]⟩) [] =
        some (r, [request "components/game/mlb/year_2016/month_09/day_05/gid_2016_09_05_kcamlb_minmlb_1/inning/inning_all.xml"]) ∧
      (r.2 ≠ none ↔ ∀ x ∈ notStarted.Innings, x.Top = [] ∧ x.Bottom = []) ∧
      ((∀ x ∈ notStarted.Innings, x.Top = [] ∧ x.Bottom = []) →
        r = (none, some ⟨"Game has not started"⟩)) :=
  CurrentAtBat_fails_iff_no_atbat (gameService (fixedClient 200 [60])) (fixedXML notStarted ⟨[]⟩) []
    [request "components/game/mlb/year_2016/month_09/day_05/gid_2016_09_05_kcamlb_minmlb_1/inning/inning_all.xml"]
    notStarted (by decide)

/-! ## Filtering at-bats -/

theorem foldl_keep_top (f : AtBat → Bool) (l : List AtBat) : ∀ inn : AtBatInning,
    l.foldl (fun (inn : AtBatInning) ab => if f ab then { inn with Top := inn.Top ++ [ab] } else inn)
      inn = { inn with Top := inn.Top ++ l.filter f } := by
  induction l with
  | nil => intro inn; simp
  | cons a l ih =>
    intro inn
    rw [List.foldl_cons, ih]
    by_cases h : f a <;> simp [h]

theorem foldl_keep_bottom (f : AtBat → Bool) (l : List AtBat) : ∀ inn : AtBatInning,
    l.foldl
      (fun (inn : AtBatInning) ab => if f ab then { inn with Bottom := inn.Bottom ++ [ab] } else inn)
      inn = { inn with Bottom := inn.Bottom ++ l.filter f } := by
  induction l with
  | nil => intro inn; simp
  | cons a l ih =>
    intro inn
    rw [List.foldl_cons, ih]
    by_cases h : f a <;> simp [h]

theorem filter_ne_nil_iff_any (f : AtBat → Bool) (l : List AtBat) :
    0 < (l.filter f).length ↔ l.any f = true := by
  induction l with
  | nil => simp
  | cons a l ih =>
    by_cases h : f a <;> simp [List.filter_cons, h, ih]

theorem filterInning_eq (f : AtBat → Bool) (abs : AtBats) (inning : AtBatInning) :
    filterInning f abs inning =
      if (inning.Top.any f || inning.Bottom.any f) = true then
        ⟨abs.Innings ++ [⟨inning.Number, inning.Top.filter f, inning.Bottom.filter f⟩]⟩
      else abs := by
  unfold filterInning
  simp only [foldl_keep_top, foldl_keep_bottom, List.nil_append, filter_ne_nil_iff_any,
    Bool.or_eq_true]

theorem foldl_filterInning (f : AtBat → Bool) (l : List AtBatInning) : ∀ abs : AtBats,
    l.foldl (filterInning f) abs = ⟨abs.Innings ++ (specFilterAtBats f ⟨l⟩).Innings⟩ := by
  induction l with
  | nil => intro abs; simp [specFilterAtBats]
  | cons a l ih =>
    intro abs
    rw [List.foldl_cons, ih, filterInning_eq]
    by_cases h : (a.Top.any f || a.Bottom.any f) = true
    · simp [specFilterAtBats, List.filter_cons, h]
    · simp [specFilterAtBats, List.filter_cons, h]

/-- On a decoded collection `FilterAtBats` returns the specified collection. -/
theorem FilterAtBats_eq_spec (s : GameServiceOp) (xml : XML) (p : AtBat → Bool) (log log1 : Log)
    (g : AtBats) (hfetch : s.AtBats xml log = some ((some g, none), log1)) :
    s.FilterAtBats xml p log = some ((some (specFilterAtBats p g), none), log1) := by
  simp [GameServiceOp.FilterAtBats, hfetch, foldl_filterInning]

/-- C5: on a decoded collection `FilterAtBats(p)` returns, in the original
order, one inning for each input inning with an at-bat satisfying `p` in
either half and none for the others; each returned inning has the number of
the input inning, and its top and bottom halves are the input halves filtered
by `p`, order kept. -/
theorem FilterAtBats_keeps_matching (s : GameServiceOp) (xml : XML) (p : AtBat → Bool)
    (log log1 : Log) (g : AtBats) (hfetch : s.AtBats xml log = some ((some g, none), log1)) :
    s.FilterAtBats xml p log =
      some ((some ⟨(g.Innings.filter (fun inning => inning.Top.any p || inning.Bottom.any p)).map
        (fun inning => ⟨inning.Number, inning.Top.filter p, inning.Bottom.filter p⟩)⟩, none),
        log1) :=
  FilterAtBats_eq_spec s xml p log log1 g hfetch

theorem FilterAtBats_keeps_matching_witness :
    (gameService (fixedClient 200 [60])).FilterAtBats (fixedXML seventhInning ⟨[]⟩)
        (fun ab => decide (ab.Batter = 27 ∨ ab.Batter = 12)) [] =
      some ((some ⟨[⟨3, [atBat 5 12], []⟩, ⟨7, [], [atBat 16 27]⟩]⟩, none),
        [request "components/game/mlb/year_2016/month_09/day_05/gid_2016_09_05_kcamlb_minmlb_1/inning/inning_all.xml"]) :=
  (FilterAtBats_keeps_matching (gameService (fixedClient 200 [60])) (fixedXML seventhInning ⟨[]⟩)
    (fun ab => decide (ab.Batter = 27 ∨ ab.Batter = 12)) []
    [request "components/game/mlb/year_2016/month_09/day_05/gid_2016_09_05_kcamlb_minmlb_1/inning/inning_all.xml"]
    seventhInning (by decide)).trans (by decide)

/-- C6: on a decoded collection, a predicate that holds for none of its
at-bats makes `FilterAtBats` return a collection without innings, and no
error. -/
theorem FilterAtBats_no_match (s : GameServiceOp) (xml : XML) (p : AtBat → Bool)
    (log log1 : Log) (g : AtBats) (hfetch : s.AtBats xml log = some ((some g, none), log1))
    (hnone : ∀ inning ∈ g.Innings,
      (∀ ab ∈ inning.Top, p ab = false) ∧ (∀ ab ∈ inning.Bottom, p ab = false)) :
    s.FilterAtBats xml p log = some ((some ⟨[]⟩, none), log1) := by
  rw [FilterAtBats_eq_spec s xml p log log1 g hfetch]
  have hfil : g.Innings.filter (fun inning => inning.Top.any p || inning.Bottom.any p) = [] := by
    rw [List.filter_eq_nil_iff]
    intro inning hmem
    have h := hnone inning hmem
    simp only [Bool.or_eq_true, List.any_eq_true, not_or, not_exists, not_and]
    exact ⟨fun ab hab => by simp [h.1 ab hab], fun ab hab => by simp [h.2 ab hab]⟩
  simp [specFilterAtBats, hfil]

theorem FilterAtBats_no_match_witness :
    (gameService (fixedClient 200 [60])).FilterAtBats (fixedXML seventhInning ⟨[]⟩)
        (fun ab => decide (ab.Batter = 99)) [] =
      some ((some ⟨[]⟩, none),
        [request "components/game/mlb/year_2016/month_09/day_05/gid_2016_09_05_kcamlb_minmlb_1/inning/inning_all.xml"]) :=
  FilterAtBats_no_match (gameService (fixedClient 200 [60])) (fixedXML seventhInning ⟨[]⟩)
    (fun ab => decide (ab.Batter = 99)) []
    [request "components/game/mlb/year_2016/month_09/day_05/gid_2016_09_05_kcamlb_minmlb_1/inning/inning_all.xml"]
    seventhInning (by decide) (by decide)

/-! ## The scoreboard and the games in progress -/

/-- The transport panics exactly when the path has no URL, and otherwise logs
one request, whatever the answer. -/
theorem get_log (c : Client) (path : String) (log : Log) :
    (c.get path log).map Prod.snd = (c.URL path).map (fun u => log ++ [⟨path, u⟩]) := by
  unfold Client.get
  rcases hu : c.URL path with _ | u
  · rfl
  · simp only [Option.map_some']
    rcases hg : c.Get u with err | resp
    · rfl
    · by_cases h : resp.StatusCode = 200 <;> simp [h]

theorem get_eq_none (c : Client) (path : String) (log : Log) (h : c.URL path = none) :
    c.get path log = none := by
  simp [Client.get, h]

theorem get_eq_some (c : Client) (path : String) (log : Log) (u : String)
    (h : c.URL path = some u) : ∃ r, c.get path log = some (r, log ++ [⟨path, u⟩]) := by
  have hlog := get_log c path log
  rw [h] at hlog
  cases hg : c.get path log with
  | none => rw [hg] at hlog; cases hlog
  | some r =>
    rw [hg] at hlog
    simp only [Option.map_some', Option.some.injEq] at hlog
    exact ⟨r.1, by rw [← hlog]⟩

/-- The operation `getScoreboard` returns no scoreboard with an error. -/
theorem getScoreboard_error_nil (s : GamedayServiceOp) (xml : XML) (log log1 : Log)
    (sb : Option Scoreboard) (err : GoError)
    (h : s.getScoreboard xml log = some ((sb, some err), log1)) : sb = none := by
  unfold GamedayServiceOp.getScoreboard at h
  rcases hg : s.client.get (s.path ++ "/miniscoreboard.xml") log with
    _ | ⟨⟨data, _ | e⟩, l1⟩
  · rw [hg] at h
    cases h
  · rw [hg] at h
    simp only at h
    cases hd : xml.UnmarshalScoreboard data with
    | error e2 =>
      rw [hd] at h
      simp only [Option.some.injEq, Prod.mk.injEq] at h
      exact h.1.1.symm
    | ok v =>
      rw [hd] at h
      simp at h
  · rw [hg] at h
    simp only [Option.some.injEq, Prod.mk.injEq] at h
    exact h.1.1.symm

theorem Scoreboard_eq_getScoreboard (s : GamedayServiceOp) (xml : XML) (log : Log) :
    s.Scoreboard xml log = s.getScoreboard xml log := by
  unfold GamedayServiceOp.Scoreboard
  rcases h : s.getScoreboard xml log with _ | ⟨⟨sb, _ | err⟩, log1⟩
  · rfl
  · rfl
  · have hsb := getScoreboard_error_nil s xml log log1 sb err h
    subst hsb
    rfl

theorem foldl_in_progress (l : List Game) : ∀ games : List Game,
    l.foldl (fun games game => if game.Status = "In Progress" then games ++ [game] else games)
      games = games ++ l.filter (fun game => game.Status = "In Progress") := by
  induction l with
  | nil => intro games; simp
  | cons a l ih =>
    intro games
    rw [List.foldl_cons, ih]
    by_cases h : a.Status = "In Progress" <;> simp [List.filter_cons, h]

/-- C7: on a fetched and decoded scoreboard `GamesInProgress` returns, without
error, the games whose `Status` is exactly `In Progress`, in the order of the
scoreboard; when no game has that status it returns the empty sequence and no
error. -/
theorem GamesInProgress_filters_status (s : GamedayServiceOp) (xml : XML) (log log1 : Log)
    (sb : Scoreboard) (hfetch : s.Scoreboard xml log = some ((some sb, none), log1)) :
    s.GamesInProgress xml log =
      some ((sb.Games.filter (fun game => game.Status = "In Progress"), none), log1) ∧
    ((∀ game ∈ sb.Games, game.Status ≠ "In Progress") →
      s.GamesInProgress xml log = some (([], none), log1)) := by
  rw [Scoreboard_eq_getScoreboard] at hfetch
  have hres : s.GamesInProgress xml log =
      some ((sb.Games.filter (fun game => game.Status = "In Progress"), none), log1) := by
    simp [GamedayServiceOp.GamesInProgress, hfetch, foldl_in_progress]
  refine ⟨hres, fun hno => ?_⟩
  rw [hres]
  have : sb.Games.filter (fun game => game.Status = "In Progress") = [] := by
    rw [List.filter_eq_nil_iff]
    intro game hmem
    simpa using hno game hmem
  rw [this]

theorem GamesInProgress_filters_status_witness :
    ((NewGamedayService newYorkEDT (fixedClient 200 [60]) date20160905).GamesInProgress
        (fixedXML ⟨[]⟩ scoreboard20160905) [] =
      some (([game "2016_09_05_tormlb_nyamlb_1" "In Progress",
              game "2016_09_05_kcamlb_minmlb_1" "In Progress"], none),
        [request "components/game/mlb/year_2016/month_09/day_05//miniscoreboard.xml"])) ∧
    ((NewGamedayService newYorkEDT (fixedClient 200 [60]) date20160905).GamesInProgress
        (fixedXML ⟨[]⟩ ⟨[game "2016_09_05_nynmlb_cinmlb_1" "Preview"]⟩) [] =
      some (([], none), [request "components/game/mlb/year_2016/month_09/day_05//miniscoreboard.xml"])) :=
  ⟨((GamesInProgress_filters_status
      (NewGamedayService newYorkEDT (fixedClient 200 [60]) date20160905)
      (fixedXML ⟨[]⟩ scoreboard20160905) []
      [request "components/game/mlb/year_2016/month_09/day_05//miniscoreboard.xml"]
      scoreboard20160905 (by decide)).1).trans (by decide),
   (GamesInProgress_filters_status
      (NewGamedayService newYorkEDT (fixedClient 200 [60]) date20160905)
      (fixedXML ⟨[]⟩ ⟨[game "2016_09_05_nynmlb_cinmlb_1" "Preview"]⟩) []
      [request "components/game/mlb/year_2016/month_09/day_05//miniscoreboard.xml"]
      ⟨[game "2016_09_05_nynmlb_cinmlb_1" "Preview"]⟩ (by decide)).2 (by decide)⟩

/-! ## The transport -/

/-- The status 201 is a 2xx status, and `get` answers it with the error
`HTTP 201` instead of the body. -/
theorem get_status_201_fails :
    (200 ≤ (201 : Int) ∧ (201 : Int) ≤ 299) ∧
    (fixedClient 201 [60, 97, 47, 62]).URL "linescore.xml" =
      some "http://gd2.mlb.com/linescore.xml" ∧
    (fixedClient 201 [60, 97, 47, 62]).Get "http://gd2.mlb.com/linescore.xml" =
      .ok ⟨201, ([60, 97, 47, 62], none)⟩ ∧
    ((fixedClient 201 [60, 97, 47, 62]).get "linescore.xml" []).map Prod.fst =
      some ([], some ⟨"HTTP 201"⟩) :=
  ⟨by decide, by decide, rfl, by decide⟩

/-- C8, amended: for a response received by `get` whose body is read without
error, `get` returns an error exactly when the status is not 200, and that
error is `HTTP ` followed by the status code; for status 200 it returns the
body and no error, also when the body is empty. -/
theorem get_fails_iff_not_200 (c : Client) (path : String) (log : Log) (u : String)
    (resp : Response) (hurl : c.URL path = some u) (hresp : c.Get u = .ok resp)
    (hread : resp.Body.2 = none) :
    (∃ r, (c.get path log).map Prod.fst = some r ∧ (r.2 ≠ none ↔ resp.StatusCode ≠ 200)) ∧
    (resp.StatusCode ≠ 200 →
      (c.get path log).map Prod.fst =
        some ([], some ⟨"HTTP " ++ fmt.verbInt resp.StatusCode⟩)) ∧
    (resp.StatusCode = 200 → (c.get path log).map Prod.fst = some (resp.Body.1, none)) := by
  obtain ⟨code, data, rerr⟩ := resp
  simp only at hread
  subst hread
  by_cases h : code = 200
  · simp [Client.get, hurl, hresp, h]
  · simp [Client.get, hurl, hresp, h, fmt.Errorf]

theorem get_fails_iff_not_200_witness :
    (((fixedClient 404 [60]).get "linescore.xml" []).map Prod.fst =
      some ([], some ⟨"HTTP 404"⟩)) ∧
    (((fixedClient 201 [60]).get "linescore.xml" []).map Prod.fst =
      some ([], some ⟨"HTTP 201"⟩)) ∧
    (((fixedClient 200 []).get "linescore.xml" []).map Prod.fst = some ([], none)) ∧
    (((fixedClient 200 [60]).get "linescore.xml" []).map Prod.fst = some ([60], none)) :=
  ⟨(get_fails_iff_not_200 (fixedClient 404 [60]) "linescore.xml" []
      "http://gd2.mlb.com/linescore.xml" ⟨404, ([60], none)⟩ (by decide) rfl rfl).2.1
      (by decide),
   (get_fails_iff_not_200 (fixedClient 201 [60]) "linescore.xml" []
      "http://gd2.mlb.com/linescore.xml" ⟨201, ([60], none)⟩ (by decide) rfl rfl).2.1
      (by decide),
   (get_fails_iff_not_200 (fixedClient 200 []) "linescore.xml" []
      "http://gd2.mlb.com/linescore.xml" ⟨200, ([], none)⟩ (by decide) rfl rfl).2.2 rfl,
   (get_fails_iff_not_200 (fixedClient 200 [60]) "linescore.xml" []
      "http://gd2.mlb.com/linescore.xml" ⟨200, ([60], none)⟩ (by decide) rfl rfl).2.2 rfl⟩

/-! ## Errors of the fetch -/

theorem AtBats_of_fetch_error (s : GameServiceOp) (xml : XML) (log log1 : Log) (data : Bytes)
    (e : GoError)
    (hget : s.client.get (s.path ++ "inning/inning_all.xml") log = some ((data, some e), log1)) :
    s.AtBats xml log = some ((none, some e), log1) := by
  simp [GameServiceOp.AtBats, hget]

theorem getScoreboard_of_fetch_error (d : GamedayServiceOp) (xml : XML) (log log1 : Log)
    (data : Bytes) (e : GoError)
    (hget : d.client.get (d.path ++ "/miniscoreboard.xml") log = some ((data, some e), log1)) :
    d.getScoreboard xml log = some ((none, some e), log1) := by
  simp [GamedayServiceOp.getScoreboard, hget]

/-- C9: every operation that fetches returns no result and the error of the
fetch, unchanged, when its fetch returns an error `e`: `Scoreboard` and
`GamesInProgress` (the nil slice) for the scoreboard of the day, `LineScore`,
`Players`, `AtBats`, `CurrentAtBat`, `FilterAtBats` and `Notifications` for the
resources of the game. -/
theorem fetch_error_propagates (d : GamedayServiceOp) (s : GameServiceOp) (xml : XML)
    (p : AtBat → Bool) (log log1 : Log) (e : GoError) :
    (∀ data, d.client.get (d.path ++ "/miniscoreboard.xml") log = some ((data, some e), log1) →
      d.Scoreboard xml log = some ((none, some e), log1) ∧
      d.GamesInProgress xml log = some (([], some e), log1)) ∧
    (∀ data, s.client.get (s.path ++ "linescore.xml") log = some ((data, some e), log1) →
      s.LineScore xml log = some ((none, some e), log1)) ∧
    (∀ data, s.client.get (s.path ++ "players.xml") log = some ((data, some e), log1) →
      s.Players xml log = some ((none, some e), log1)) ∧
    (∀ data, s.client.get (s.path ++ "inning/inning_all.xml") log = some ((data, some e), log1) →
      s.AtBats xml log = some ((none, some e), log1) ∧
      s.CurrentAtBat xml log = some ((none, some e), log1) ∧
      s.FilterAtBats xml p log = some ((none, some e), log1)) ∧
    (∀ data, s.client.get (s.path ++ "notifications/notifications_full.xml") log =
        some ((data, some e), log1) →
      s.Notifications xml log = some ((none, some e), log1)) := by
  refine ⟨?_, ?_, ?_, ?_, ?_⟩
  · intro data hget
    have h := getScoreboard_of_fetch_error d xml log log1 data e hget
    exact ⟨by rw [Scoreboard_eq_getScoreboard, h], by simp [GamedayServiceOp.GamesInProgress, h]⟩
  · intro data hget
    simp [GameServiceOp.LineScore, hget]
  · intro data hget
    simp [GameServiceOp.Players, hget]
  · intro data hget
    have h := AtBats_of_fetch_error s xml log log1 data e hget
    exact ⟨h, by simp [GameServiceOp.CurrentAtBat, h], by simp [GameServiceOp.FilterAtBats, h]⟩
  · intro data hget
    simp [GameServiceOp.Notifications, hget]

theorem fetch_error_propagates_witness :
    (gameday404.Scoreboard (fixedXML seventhInning scoreboard20160905) [] =
        some ((none, some ⟨"HTTP 404"⟩),
          [request "components/game/mlb/year_2016/month_09/day_05//miniscoreboard.xml"]) ∧
      gameday404.GamesInProgress (fixedXML seventhInning scoreboard20160905) [] =
        some (([], some ⟨"HTTP 404"⟩),
          [request "components/game/mlb/year_2016/month_09/day_05//miniscoreboard.xml"])) ∧
    ((gameService (fixedClient 404 [])).LineScore (fixedXML seventhInning scoreboard20160905) [] =
        some ((none, some ⟨"HTTP 404"⟩),
          [request "components/game/mlb/year_2016/month_09/day_05/gid_2016_09_05_kcamlb_minmlb_1/linescore.xml"])) ∧
    ((gameService (fixedClient 404 [])).Players (fixedXML seventhInning scoreboard20160905) [] =
        some ((none, some ⟨"HTTP 404"⟩),
          [request "components/game/mlb/year_2016/month_09/day_05/gid_2016_09_05_kcamlb_minmlb_1/players.xml"])) ∧
    ((gameService (fixedClient 404 [])).AtBats (fixedXML seventhInning scoreboard20160905) [] =
        some ((none, some ⟨"HTTP 404"⟩),
          [request "components/game/mlb/year_2016/month_09/day_05/gid_2016_09_05_kcamlb_minmlb_1/inning/inning_all.xml"]) ∧
      (gameService (fixedClient 404 [])).CurrentAtBat (fixedXML seventhInning scoreboard20160905) [] =
        some ((none, some ⟨"HTTP 404"⟩),
          [request "components/game/mlb/year_2016/month_09/day_05/gid_2016_09_05_kcamlb_minmlb_1/inning/inning_all.xml"]) ∧
      (gameService (fixedClient 404 [])).FilterAtBats (fixedXML seventhInning scoreboard20160905)
          (fun _ => true) [] =
        some ((none, some ⟨"HTTP 404"⟩),
          [request "components/game/mlb/year_2016/month_09/day_05/gid_2016_09_05_kcamlb_minmlb_1/inning/inning_all.xml"])) ∧
    ((gameService (fixedClient 404 [])).Notifications (fixedXML seventhInning scoreboard20160905) [] =
        some ((none, some ⟨"HTTP 404"⟩),
          [request "components/game/mlb/year_2016/month_09/day_05/gid_2016_09_05_kcamlb_minmlb_1/notifications/notifications_full.xml"])) :=
  have h := fetch_error_propagates gameday404 (gameService (fixedClient 404 []))
    (fixedXML seventhInning scoreboard20160905) (fun _ => true) []
  ⟨(h _ ⟨"HTTP 404"⟩).1 [] (by decide),
   (h _ ⟨"HTTP 404"⟩).2.1 [] (by decide),
   (h _ ⟨"HTTP 404"⟩).2.2.1 [] (by decide),
   (h _ ⟨"HTTP 404"⟩).2.2.2.1 [] (by decide),
   (h _ ⟨"HTTP 404"⟩).2.2.2.2 [] (by decide)⟩

/-! ## Path of the scoreboard -/

/-- The operation `getScoreboard` hands to `get` the path of the day followed
by `/miniscoreboard.xml`, whatever the answer. -/
theorem getScoreboard_log (s : GamedayServiceOp) (xml : XML) (log : Log) :
    (s.getScoreboard xml log).map Prod.snd =
      (s.client.URL (s.path ++ "/miniscoreboard.xml")).map
        (fun u => log ++ [⟨s.path ++ "/miniscoreboard.xml", u⟩]) := by
  rw [← get_log]
  unfold GamedayServiceOp.getScoreboard
  rcases hget : s.client.get (s.path ++ "/miniscoreboard.xml") log with
    _ | ⟨⟨data, _ | err⟩, log1⟩
  · rfl
  · simp only [Option.map_some']
    rcases hdec : xml.UnmarshalScoreboard data with e | v <;> rfl
  · rfl

/-- The paths that `Scoreboard` hands to the transport. -/
theorem Scoreboard_paths (s : GamedayServiceOp) (xml : XML) (log : Log) :
    (s.Scoreboard xml log).map (fun r => r.2.map Request.path) =
      (s.client.URL (s.path ++ "/miniscoreboard.xml")).map
        (fun _ => log.map Request.path ++ [s.path ++ "/miniscoreboard.xml"]) := by
  have hlog := getScoreboard_log s xml log
  rw [← Scoreboard_eq_getScoreboard] at hlog
  rcases hs : s.Scoreboard xml log with _ | r <;>
    rcases hu : s.client.URL (s.path ++ "/miniscoreboard.xml") with _ | u <;>
    rw [hs, hu] at hlog <;> simp at hlog ⊢
  rw [hlog]
  simp

/-- The path of the day ends with a `/`, so that the path of the scoreboard has
two of them before the file name. -/
theorem scoreboard_path_double_slash (l : time.Location) (c : Client) (date : time.Time)
    (xml : XML) (log : Log) :
    ((NewGamedayService l c date).Scoreboard xml log).map (fun r => r.2.map Request.path) =
      (c.URL ("components/game/mlb/year_" ++ time.appendInt date.Date.1 4 ++
        "/month_" ++ time.appendInt date.Date.2.1 2 ++
        "/day_" ++ time.appendInt date.Date.2.2 2 ++ "//miniscoreboard.xml")).map
        (fun _ => log.map Request.path ++
          ["components/game/mlb/year_" ++ time.appendInt date.Date.1 4 ++
            "/month_" ++ time.appendInt date.Date.2.1 2 ++
            "/day_" ++ time.appendInt date.Date.2.2 2 ++ "//miniscoreboard.xml"]) := by
  have e : "/" ++ "/miniscoreboard.xml" = "//miniscoreboard.xml" := by decide
  have hp : (NewGamedayService l c date).path ++ "/miniscoreboard.xml" =
      "components/game/mlb/year_" ++ time.appendInt date.Date.1 4 ++
        "/month_" ++ time.appendInt date.Date.2.1 2 ++
        "/day_" ++ time.appendInt date.Date.2.2 2 ++ "//miniscoreboard.xml" := by
    simp only [NewGamedayService, pathFromDate]
    rw [String.append_assoc _ "/" "/miniscoreboard.xml", e]
  have h := Scoreboard_paths (NewGamedayService l c date) xml log
  rw [hp] at h
  exact h

/-- C10, on the code: for the date 2016-09-05 of the test suite `Scoreboard` and
`GamesInProgress` hand to the transport the path
`components/game/mlb/year_2016/month_09/day_05//miniscoreboard.xml`, with two
`/` before the file name, not the documented path with one. -/
theorem Scoreboard_path_20160905 :
    date20160905.Date = (2016, 9, 5) ∧
    ((NewGamedayService newYorkEDT (fixedClient 200 [60]) date20160905).Scoreboard
        (fixedXML ⟨[]⟩ scoreboard20160905) []).map Prod.snd =
      some [⟨"components/game/mlb/year_2016/month_09/day_05//miniscoreboard.xml",
        "http://gd2.mlb.com/components/game/mlb/year_2016/month_09/day_05//miniscoreboard.xml"⟩] ∧
    ((NewGamedayService newYorkEDT (fixedClient 200 [60]) date20160905).GamesInProgress
        (fixedXML ⟨[]⟩ scoreboard20160905) []).map Prod.snd =
      some [⟨"components/game/mlb/year_2016/month_09/day_05//miniscoreboard.xml",
        "http://gd2.mlb.com/components/game/mlb/year_2016/month_09/day_05//miniscoreboard.xml"⟩] ∧
    ((NewGamedayService newYorkEDT (fixedClient 200 [60]) date20160905).Scoreboard
        (fixedXML ⟨[]⟩ scoreboard20160905) []).map (fun r => r.2.map Request.path) ≠
      some ["components/game/mlb/year_2016/month_09/day_05/miniscoreboard.xml"] := by
  decide

/-! ## One fetch for each operation -/

/-- The operation `AtBats` panics when its path has no URL. -/
theorem AtBats_eq_none (s : GameServiceOp) (xml : XML) (log : Log)
    (hurl : s.client.URL (s.path ++ "inning/inning_all.xml") = none) :
    s.AtBats xml log = none := by
  simp [GameServiceOp.AtBats, get_eq_none _ _ _ hurl]

/-- When its path has a URL, the operation `AtBats` returns the error of the
fetch or of the decoder with no collection, or a collection with no error; it
logs its one request. -/
theorem AtBats_result (s : GameServiceOp) (xml : XML) (log : Log) (u : String)
    (hurl : s.client.URL (s.path ++ "inning/inning_all.xml") = some u) :
    (∃ e, s.AtBats xml log =
      some ((none, some e), log ++ [⟨s.path ++ "inning/inning_all.xml", u⟩])) ∨
    (∃ g, s.AtBats xml log =
      some ((some g, none), log ++ [⟨s.path ++ "inning/inning_all.xml", u⟩])) := by
  obtain ⟨r, hget⟩ := get_eq_some s.client _ log u hurl
  rcases r with ⟨data, _ | err⟩
  · cases hdec : xml.UnmarshalAtBats data with
    | error e => left; exact ⟨e, by simp [GameServiceOp.AtBats, hget, hdec]⟩
    | ok g => right; exact ⟨g, by simp [GameServiceOp.AtBats, hget, hdec]⟩
  · left
    exact ⟨err, by simp [GameServiceOp.AtBats, hget]⟩

theorem LineScore_log (s : GameServiceOp) (xml : XML) (log : Log) :
    (s.LineScore xml log).map Prod.snd =
      (s.client.URL (s.path ++ "linescore.xml")).map
        (fun u => log ++ [⟨s.path ++ "linescore.xml", u⟩]) := by
  rw [← get_log]
  unfold GameServiceOp.LineScore
  rcases hget : s.client.get (s.path ++ "linescore.xml") log with _ | ⟨⟨data, _ | err⟩, log1⟩
  · rfl
  · simp only [Option.map_some']
    rcases hdec : xml.UnmarshalLineScore data with e | v <;> rfl
  · rfl

theorem Players_log (s : GameServiceOp) (xml : XML) (log : Log) :
    (s.Players xml log).map Prod.snd =
      (s.client.URL (s.path ++ "players.xml")).map
        (fun u => log ++ [⟨s.path ++ "players.xml", u⟩]) := by
  rw [← get_log]
  unfold GameServiceOp.Players
  rcases hget : s.client.get (s.path ++ "players.xml") log with _ | ⟨⟨data, _ | err⟩, log1⟩
  · rfl
  · simp only [Option.map_some']
    rcases hdec : xml.UnmarshalPlayers data with e | v <;> rfl
  · rfl

theorem AtBats_log (s : GameServiceOp) (xml : XML) (log : Log) :
    (s.AtBats xml log).map Prod.snd =
      (s.client.URL (s.path ++ "inning/inning_all.xml")).map
        (fun u => log ++ [⟨s.path ++ "inning/inning_all.xml", u⟩]) := by
  rw [← get_log]
  unfold GameServiceOp.AtBats
  rcases hget : s.client.get (s.path ++ "inning/inning_all.xml") log with
    _ | ⟨⟨data, _ | err⟩, log1⟩
  · rfl
  · simp only [Option.map_some']
    rcases hdec : xml.UnmarshalAtBats data with e | v <;> rfl
  · rfl

theorem Notifications_log (s : GameServiceOp) (xml : XML) (log : Log) :
    (s.Notifications xml log).map Prod.snd =
      (s.client.URL (s.path ++ "notifications/notifications_full.xml")).map
        (fun u => log ++ [⟨s.path ++ "notifications/notifications_full.xml", u⟩]) := by
  rw [← get_log]
  unfold GameServiceOp.Notifications
  rcases hget : s.client.get (s.path ++ "notifications/notifications_full.xml") log with
    _ | ⟨⟨data, _ | err⟩, log1⟩
  · rfl
  · simp only [Option.map_some']
    rcases hdec : xml.UnmarshalNotifications data with e | v <;> rfl
  · rfl

/-- When its path has a URL, the operation `CurrentAtBat` returns, and has then
issued the one request of `AtBats`. -/
theorem CurrentAtBat_returns (s : GameServiceOp) (xml : XML) (log : Log) (u : String)
    (hurl : s.client.URL (s.path ++ "inning/inning_all.xml") = some u) :
    ∃ r, s.CurrentAtBat xml log =
      some (r, log ++ [⟨s.path ++ "inning/inning_all.xml", u⟩]) := by
  rcases AtBats_result s xml log u hurl with ⟨e, h⟩ | ⟨g, h⟩
  · exact ⟨(none, some e), by simp [GameServiceOp.CurrentAtBat, h]⟩
  · by_cases hall : ∀ x ∈ g.Innings, x.Top = [] ∧ x.Bottom = []
    · exact ⟨_, CurrentAtBat_of_empty s xml log _ g h hall⟩
    · obtain ⟨k, inn, hk, hne, hlater⟩ := exists_last_nonempty g hall
      obtain ⟨ab, _, hres⟩ := CurrentAtBat_of_found s xml log _ g h k inn hk hne hlater
      exact ⟨_, hres⟩

/-- When its path has a URL, the operation `FilterAtBats` returns, and has
then issued the one request of `AtBats`. -/
theorem FilterAtBats_returns (s : GameServiceOp) (xml : XML) (p : AtBat → Bool) (log : Log)
    (u : String) (hurl : s.client.URL (s.path ++ "inning/inning_all.xml") = some u) :
    ∃ r, s.FilterAtBats xml p log =
      some (r, log ++ [⟨s.path ++ "inning/inning_all.xml", u⟩]) := by
  rcases AtBats_result s xml log u hurl with ⟨e, h⟩ | ⟨g, h⟩
  · exact ⟨(none, some e), by simp [GameServiceOp.FilterAtBats, h]⟩
  · exact ⟨_, FilterAtBats_eq_spec s xml p log _ g h⟩

theorem CurrentAtBat_log (s : GameServiceOp) (xml : XML) (log : Log) :
    (s.CurrentAtBat xml log).map Prod.snd =
      (s.client.URL (s.path ++ "inning/inning_all.xml")).map
        (fun u => log ++ [⟨s.path ++ "inning/inning_all.xml", u⟩]) := by
  rcases hurl : s.client.URL (s.path ++ "inning/inning_all.xml") with _ | u
  · simp [GameServiceOp.CurrentAtBat, AtBats_eq_none s xml log hurl]
  · obtain ⟨r, hr⟩ := CurrentAtBat_returns s xml log u hurl
    rw [hr]
    rfl

theorem FilterAtBats_log (s : GameServiceOp) (xml : XML) (p : AtBat → Bool) (log : Log) :
    (s.FilterAtBats xml p log).map Prod.snd =
      (s.client.URL (s.path ++ "inning/inning_all.xml")).map
        (fun u => log ++ [⟨s.path ++ "inning/inning_all.xml", u⟩]) := by
  rcases hurl : s.client.URL (s.path ++ "inning/inning_all.xml") with _ | u
  · simp [GameServiceOp.FilterAtBats, AtBats_eq_none s xml log hurl]
  · obtain ⟨r, hr⟩ := FilterAtBats_returns s xml p log u hurl
    rw [hr]
    rfl

theorem NewGameService_bound (c : Client) (gid : String) (svc : GameServiceOp)
    (h : NewGameService c gid = (some svc, none)) :
    svc = { client := c, gid := gid, path := (pathFromGID gid "").1 } := by
  unfold NewGameService at h
  split at h
  · simp at h
  · rename_i path hp
    simp only [Prod.mk.injEq, Option.some.injEq, and_true] at h
    rw [← h, hp]

/-- A game service bound to a valid `gid`, with game path
`P = pathFromGID(gid, "")`, calls the transport once in each operation, with
`P` followed by the resource of the operation.  When `url.Parse` accepts that
path the operation returns and the log grows by the one request, of the URL
the path resolves to; when it does not, the operation panics. -/
theorem game_operations_one_request (s : GamedayServiceOp) (gid : String)
    (svc : GameServiceOp) (xml : XML) (p : AtBat → Bool) (log : Log)
    (hgame : s.Game gid = (some svc, none)) :
    (svc.LineScore xml log).map Prod.snd =
      (s.client.URL ((pathFromGID gid "").1 ++ "linescore.xml")).map
        (fun u => log ++ [⟨(pathFromGID gid "").1 ++ "linescore.xml", u⟩]) ∧
    (svc.Players xml log).map Prod.snd =
      (s.client.URL ((pathFromGID gid "").1 ++ "players.xml")).map
        (fun u => log ++ [⟨(pathFromGID gid "").1 ++ "players.xml", u⟩]) ∧
    (svc.AtBats xml log).map Prod.snd =
      (s.client.URL ((pathFromGID gid "").1 ++ "inning/inning_all.xml")).map
        (fun u => log ++ [⟨(pathFromGID gid "").1 ++ "inning/inning_all.xml", u⟩]) ∧
    (svc.CurrentAtBat xml log).map Prod.snd =
      (s.client.URL ((pathFromGID gid "").1 ++ "inning/inning_all.xml")).map
        (fun u => log ++ [⟨(pathFromGID gid "").1 ++ "inning/inning_all.xml", u⟩]) ∧
    (svc.FilterAtBats xml p log).map Prod.snd =
      (s.client.URL ((pathFromGID gid "").1 ++ "inning/inning_all.xml")).map
        (fun u => log ++ [⟨(pathFromGID gid "").1 ++ "inning/inning_all.xml", u⟩]) ∧
    (svc.Notifications xml log).map Prod.snd =
      (s.client.URL ((pathFromGID gid "").1 ++ "notifications/notifications_full.xml")).map
        (fun u => log ++
          [⟨(pathFromGID gid "").1 ++ "notifications/notifications_full.xml", u⟩]) := by
  rw [Game_eq] at hgame
  have hsvc := NewGameService_bound s.client gid svc hgame
  have hpath : svc.path = (pathFromGID gid "").1 := by rw [hsvc]
  have hclient : svc.client = s.client := by rw [hsvc]
  rw [← hpath, ← hclient]
  exact ⟨LineScore_log svc xml log, Players_log svc xml log, AtBats_log svc xml log,
    CurrentAtBat_log svc xml log, FilterAtBats_log svc xml p log,
    Notifications_log svc xml log⟩

/-- The requests of the game of the test suite: one for each operation, to the
path of the game followed by the resource. -/
theorem game_operations_one_request_20160905 :
    ((gameService (fixedClient 200 [60])).LineScore (fixedXML seventhInning ⟨[]⟩)
        [request "components/game/mlb/year_2016/month_09/day_05//miniscoreboard.xml"]).map
        Prod.snd =
      some [request "components/game/mlb/year_2016/month_09/day_05//miniscoreboard.xml",
        request "components/game/mlb/year_2016/month_09/day_05/gid_2016_09_05_kcamlb_minmlb_1/linescore.xml"] ∧
    ((gameService (fixedClient 200 [60])).CurrentAtBat (fixedXML seventhInning ⟨[]⟩) []).map
        Prod.snd =
      some [request "components/game/mlb/year_2016/month_09/day_05/gid_2016_09_05_kcamlb_minmlb_1/inning/inning_all.xml"] := by
  decide

/-- C11, on the code: the identifier `2016_09_05_kc%zz_minmlb_1` has six tokens,
so `Game` binds a service to it; `url.Parse` rejects the paths of that game for
the escape `%zz`, `get` drops the error and every operation of the service
panics before any request, where the claim has exactly one fetch. -/
theorem game_operations_panic_on_bad_escape :
    (strings.Split "2016_09_05_kc%zz_minmlb_1" '_').length = 6 ∧
    (NewGamedayService newYorkEDT (fixedClient 200 [60]) date20160905).Game
        "2016_09_05_kc%zz_minmlb_1" =
      (some ⟨fixedClient 200 [60], "2016_09_05_kc%zz_minmlb_1",
        "components/game/mlb/year_2016/month_09/day_05/gid_2016_09_05_kc%zz_minmlb_1/"⟩, none) ∧
    (fixedClient 200 [60]).URL
        "components/game/mlb/year_2016/month_09/day_05/gid_2016_09_05_kc%zz_minmlb_1/linescore.xml" =
      none ∧
    GameServiceOp.LineScore ⟨fixedClient 200 [60], "2016_09_05_kc%zz_minmlb_1",
        "components/game/mlb/year_2016/month_09/day_05/gid_2016_09_05_kc%zz_minmlb_1/"⟩
      (fixedXML seventhInning ⟨[]⟩) [] = none ∧
    GameServiceOp.Players ⟨fixedClient 200 [60], "2016_09_05_kc%zz_minmlb_1",
        "components/game/mlb/year_2016/month_09/day_05/gid_2016_09_05_kc%zz_minmlb_1/"⟩
      (fixedXML seventhInning ⟨[]⟩) [] = none ∧
    GameServiceOp.AtBats ⟨fixedClient 200 [60], "2016_09_05_kc%zz_minmlb_1",
        "components/game/mlb/year_2016/month_09/day_05/gid_2016_09_05_kc%zz_minmlb_1/"⟩
      (fixedXML seventhInning ⟨[]⟩) [] = none ∧
    GameServiceOp.CurrentAtBat ⟨fixedClient 200 [60], "2016_09_05_kc%zz_minmlb_1",
        "components/game/mlb/year_2016/month_09/day_05/gid_2016_09_05_kc%zz_minmlb_1/"⟩
      (fixedXML seventhInning ⟨[]⟩) [] = none ∧
    GameServiceOp.FilterAtBats ⟨fixedClient 200 [60], "2016_09_05_kc%zz_minmlb_1",
        "components/game/mlb/year_2016/month_09/day_05/gid_2016_09_05_kc%zz_minmlb_1/"⟩
      (fixedXML seventhInning ⟨[]⟩) (fun _ => true) [] = none ∧
    GameServiceOp.Notifications ⟨fixedClient 200 [60], "2016_09_05_kc%zz_minmlb_1",
        "components/game/mlb/year_2016/month_09/day_05/gid_2016_09_05_kc%zz_minmlb_1/"⟩
      (fixedXML seventhInning ⟨[]⟩) [] = none :=
  ⟨by decide, rfl, by decide, by decide, by decide, by decide, by decide, by decide, by decide⟩

/-! ## The day of the service -/

/-- C12, on the code: for the instant 2016-09-06 02:00 UTC, which is
2016-09-05 22:00 in New York, `NewGamedayService` stores the date converted to
New York time but takes the path from the date as given: the service fetches
the resources of 2016-09-06, not those of the day in ET, 2016-09-05. -/
theorem NewGamedayService_path_not_ET :
    evening20160905.Date = (2016, 9, 6) ∧
    (evening20160905.In newYorkEDT).Date = (2016, 9, 5) ∧
    (NewGamedayService newYorkEDT (fixedClient 200 [60]) evening20160905).date.Date =
      (2016, 9, 5) ∧
    (NewGamedayService newYorkEDT (fixedClient 200 [60]) evening20160905).path =
      "components/game/mlb/year_2016/month_09/day_06/" ∧
    pathFromDate (evening20160905.In newYorkEDT) =
      "components/game/mlb/year_2016/month_09/day_05/" ∧
    (NewGamedayService newYorkEDT (fixedClient 200 [60]) evening20160905).path ≠
      pathFromDate (evening20160905.In newYorkEDT) := by
  decide

/-- The path of the service is that of the date as given, in its own location. -/
theorem NewGamedayService_path (l : time.Location) (c : Client) (date : time.Time) :
    (NewGamedayService l c date).path = pathFromDate date := rfl

/-! ## The game service is built without the network -/

/-- C13: `Game(gid)` performs no fetch: its error, and the `gid` and path of
the service it returns, are the same for every day service and every client,
whatever the transport would answer; they are a function of `gid` alone. -/
theorem Game_independent_of_transport (s1 s2 : GamedayServiceOp) (gid : String) :
    (s1.Game gid).2 = (s2.Game gid).2 ∧
    (s1.Game gid).1.map (fun svc => (svc.gid, svc.path)) =
      (s2.Game gid).1.map (fun svc => (svc.gid, svc.path)) ∧
    (s1.Game gid).1.map (fun svc => (svc.gid, svc.path)) =
      (if (strings.Split gid '_').length = 6 then some (gid, (pathFromGID gid "").1) else none) ∧
    (s1.Game gid).2 =
      (if (strings.Split gid '_').length = 6 then none
        else some ⟨"Could not derive date from id " ++ gid⟩) := by
  have key : ∀ s : GamedayServiceOp,
      (s.Game gid).1.map (fun svc => (svc.gid, svc.path)) =
        (if (strings.Split gid '_').length = 6 then some (gid, (pathFromGID gid "").1)
          else none) ∧
      (s.Game gid).2 =
        (if (strings.Split gid '_').length = 6 then none
          else some ⟨"Could not derive date from id " ++ gid⟩) := by
    intro s
    rw [Game_eq]
    by_cases h : (strings.Split gid '_').length = 6
    · simp [NewGameService, pathFromGID_of_six gid "" h, h]
    · simp [NewGameService, pathFromGID_of_ne_six gid "" h, h]
  exact ⟨by rw [(key s1).2, (key s2).2], by rw [(key s1).1, (key s2).1], (key s1).1, (key s1).2⟩

/-! ## The empty document -/

/-- C14: when the decoder answers the empty document with `EOF`, as
`xml.Unmarshal` does, every operation whose fetch succeeds with an empty body
returns no record and the error `EOF`. -/
theorem empty_body_is_EOF (d : GamedayServiceOp) (s : GameServiceOp) (xml : XML)
    (p : AtBat → Bool) (log log1 : Log) (hxml : xml.EOFOnEmpty) :
    (d.client.get (d.path ++ "/miniscoreboard.xml") log = some (([], none), log1) →
      d.Scoreboard xml log = some ((none, some ⟨"EOF"⟩), log1)) ∧
    (s.client.get (s.path ++ "linescore.xml") log = some (([], none), log1) →
      s.LineScore xml log = some ((none, some ⟨"EOF"⟩), log1)) ∧
    (s.client.get (s.path ++ "players.xml") log = some (([], none), log1) →
      s.Players xml log = some ((none, some ⟨"EOF"⟩), log1)) ∧
    (s.client.get (s.path ++ "inning/inning_all.xml") log = some (([], none), log1) →
      s.AtBats xml log = some ((none, some ⟨"EOF"⟩), log1) ∧
      s.CurrentAtBat xml log = some ((none, some ⟨"EOF"⟩), log1) ∧
      s.FilterAtBats xml p log = some ((none, some ⟨"EOF"⟩), log1)) ∧
    (s.client.get (s.path ++ "notifications/notifications_full.xml") log = some (([], none), log1) →
      s.Notifications xml log = some ((none, some ⟨"EOF"⟩), log1)) := by
  obtain ⟨hsb, hls, hpl, hab, hno⟩ := hxml
  refine ⟨?_, ?_, ?_, ?_, ?_⟩
  · intro hget
    rw [Scoreboard_eq_getScoreboard]
    simp [GamedayServiceOp.getScoreboard, hget, hsb]
  · intro hget
    simp [GameServiceOp.LineScore, hget, hls]
  · intro hget
    simp [GameServiceOp.Players, hget, hpl]
  · intro hget
    have h : s.AtBats xml log = some ((none, some ⟨"EOF"⟩), log1) := by
      simp [GameServiceOp.AtBats, hget, hab]
    exact ⟨h, by simp [GameServiceOp.CurrentAtBat, h], by simp [GameServiceOp.FilterAtBats, h]⟩
  · intro hget
    simp [GameServiceOp.Notifications, hget, hno]

theorem empty_body_is_EOF_witness :
    (NewGamedayService newYorkEDT (fixedClient 200 []) date20160905).Scoreboard
        (fixedXML seventhInning scoreboard20160905) [] =
      some ((none, some ⟨"EOF"⟩),
        [request "components/game/mlb/year_2016/month_09/day_05//miniscoreboard.xml"]) ∧
    (gameService (fixedClient 200 [])).LineScore (fixedXML seventhInning scoreboard20160905) [] =
      some ((none, some ⟨"EOF"⟩),
        [request "components/game/mlb/year_2016/month_09/day_05/gid_2016_09_05_kcamlb_minmlb_1/linescore.xml"]) ∧
    (gameService (fixedClient 200 [])).Players (fixedXML seventhInning scoreboard20160905) [] =
      some ((none, some ⟨"EOF"⟩),
        [request "components/game/mlb/year_2016/month_09/day_05/gid_2016_09_05_kcamlb_minmlb_1/players.xml"]) ∧
    ((gameService (fixedClient 200 [])).AtBats (fixedXML seventhInning scoreboard20160905) [] =
      some ((none, some ⟨"EOF"⟩),
        [request "components/game/mlb/year_2016/month_09/day_05/gid_2016_09_05_kcamlb_minmlb_1/inning/inning_all.xml"]) ∧
     (gameService (fixedClient 200 [])).CurrentAtBat (fixedXML seventhInning scoreboard20160905) [] =
      some ((none, some ⟨"EOF"⟩),
        [request "components/game/mlb/year_2016/month_09/day_05/gid_2016_09_05_kcamlb_minmlb_1/inning/inning_all.xml"]) ∧
     (gameService (fixedClient 200 [])).FilterAtBats (fixedXML seventhInning scoreboard20160905)
        (fun _ => true) [] =
      some ((none, some ⟨"EOF"⟩),
        [request "components/game/mlb/year_2016/month_09/day_05/gid_2016_09_05_kcamlb_minmlb_1/inning/inning_all.xml"])) ∧
    (gameService (fixedClient 200 [])).Notifications (fixedXML seventhInning scoreboard20160905) [] =
      some ((none, some ⟨"EOF"⟩),
        [request "components/game/mlb/year_2016/month_09/day_05/gid_2016_09_05_kcamlb_minmlb_1/notifications/notifications_full.xml"]) :=
  have h := empty_body_is_EOF (NewGamedayService newYorkEDT (fixedClient 200 []) date20160905)
    (gameService (fixedClient 200 [])) (fixedXML seventhInning scoreboard20160905)
    (fun _ => true) []
  ⟨(h _ ⟨rfl, rfl, rfl, rfl, rfl⟩).1 (by decide),
   (h _ ⟨rfl, rfl, rfl, rfl, rfl⟩).2.1 (by decide),
   (h _ ⟨rfl, rfl, rfl, rfl, rfl⟩).2.2.1 (by decide),
   (h _ ⟨rfl, rfl, rfl, rfl, rfl⟩).2.2.2.1 (by decide),
   (h _ ⟨rfl, rfl, rfl, rfl, rfl⟩).2.2.2.2 (by decide)⟩

/-! ## The scan of the current at-bat -/

/-- In the top of the second inning the first inning has a bottom half with an
at-bat, and `CurrentAtBat` returns the last at-bat of the top of the second,
not the last bottom-half at-bat of the first inning. -/
theorem CurrentAtBat_top_of_second :
    (∃ inn ∈ topOfSecond.Innings, inn.Bottom ≠ []) ∧
    topOfSecond.Innings[0]? = some ⟨1, [atBat 1 10], [atBat 2 20]⟩ ∧
    topOfSecond.Innings[1]? = some ⟨2, [atBat 3 11], []⟩ ∧
    (gameService (fixedClient 200 [60])).CurrentAtBat (fixedXML topOfSecond ⟨[]⟩) [] =
      some ((some (atBat 3 11), none),
        [request "components/game/mlb/year_2016/month_09/day_05/gid_2016_09_05_kcamlb_minmlb_1/inning/inning_all.xml"]) ∧
    atBat 3 11 ≠ atBat 2 20 := by
  decide

/-- C16, amended: `CurrentAtBat` scans the innings from the last index
backward and stops at the first inning met that has an at-bat in either half,
inning `k`: it returns the last bottom-half at-bat of inning `k` when that
bottom half is non-empty, and otherwise the last top-half at-bat of inning
`k`, whatever the bottom halves of the innings before `k` hold. -/
theorem CurrentAtBat_first_inning_with_atbat (s : GameServiceOp) (xml : XML) (log log1 : Log)
    (g : AtBats) (hfetch : s.AtBats xml log = some ((some g, none), log1))
    (k : Nat) (inn : AtBatInning) (hk : g.Innings[k]? = some inn)
    (hlater : ∀ x ∈ g.Innings.drop (k + 1), x.Top = [] ∧ x.Bottom = []) :
    (∀ b, inn.Bottom.getLast? = some b →
      s.CurrentAtBat xml log = some ((some b, none), log1)) ∧
    (∀ t, inn.Bottom = [] → inn.Top.getLast? = some t →
      s.CurrentAtBat xml log = some ((some t, none), log1)) := by
  constructor
  · intro b hb
    have hne : inn.Bottom ≠ [] := by
      intro h
      rw [h] at hb
      cases hb
    obtain ⟨ab, hab, hres⟩ :=
      CurrentAtBat_of_found s xml log log1 g hfetch k inn hk (Or.inr hne) hlater
    rw [if_pos hne, hb] at hab
    cases hab
    exact hres
  · intro t hb ht
    have hne : inn.Top ≠ [] := by
      intro h
      rw [h] at ht
      cases ht
    obtain ⟨ab, hab, hres⟩ :=
      CurrentAtBat_of_found s xml log log1 g hfetch k inn hk (Or.inl hne) hlater
    rw [if_neg (not_not.mpr hb), ht] at hab
    cases hab
    exact hres

theorem CurrentAtBat_first_inning_with_atbat_witness :
    (gameService (fixedClient 200 [60])).CurrentAtBat (fixedXML topOfSecond ⟨[]⟩) [] =
      some ((some (atBat 3 11), none),
        [request "components/game/mlb/year_2016/month_09/day_05/gid_2016_09_05_kcamlb_minmlb_1/inning/inning_all.xml"]) ∧
    (gameService (fixedClient 200 [60])).CurrentAtBat (fixedXML seventhInning ⟨[]⟩) [] =
      some ((some (atBat 16 27), none),
        [request "components/game/mlb/year_2016/month_09/day_05/gid_2016_09_05_kcamlb_minmlb_1/inning/inning_all.xml"]) :=
  ⟨(CurrentAtBat_first_inning_with_atbat (gameService (fixedClient 200 [60]))
      (fixedXML topOfSecond ⟨[]⟩) []
      [request "components/game/mlb/year_2016/month_09/day_05/gid_2016_09_05_kcamlb_minmlb_1/inning/inning_all.xml"]
      topOfSecond (by decide) 1 ⟨2, [atBat 3 11], []⟩ (by decide) (by decide)).2
      (atBat 3 11) rfl rfl,
   (CurrentAtBat_first_inning_with_atbat (gameService (fixedClient 200 [60]))
      (fixedXML seventhInning ⟨[]⟩) []
      [request "components/game/mlb/year_2016/month_09/day_05/gid_2016_09_05_kcamlb_minmlb_1/inning/inning_all.xml"]
      seventhInning (by decide) 6 ⟨7, [atBat 13 16, atBat 14 17], [atBat 15 26, atBat 16 27]⟩
      (by decide) (by decide)).1 (atBat 16 27) rfl⟩

/-! ## Indexing is in range -/

/-- C17: `lastHalfInning` returns on every collection (its loop ends and no
index is out of range); when it succeeds with `(i, top)`, `i` is an index of
the innings, `top` is `Y` or `N`, and the half that `CurrentAtBat` then selects,
the top for `Y` and the bottom otherwise, is non-empty; so `CurrentAtBat` never
indexes out of range: it returns whenever `AtBats` has returned. -/
theorem lastHalfInning_safe (g : AtBats) (s : GameServiceOp) (xml : XML) (log : Log) :
    (∃ r, lastHalfInning g = some r) ∧
    (∀ i top, lastHalfInning g = some (i, top, none) →
      i < g.Innings.length ∧ (top = "Y" ∨ top = "N") ∧
      ∃ inn, g.Innings[i]? = some inn ∧ (if top = "Y" then inn.Top else inn.Bottom) ≠ []) ∧
    (∀ r, s.AtBats xml log = some r → ∃ r2, s.CurrentAtBat xml log = some r2) := by
  refine ⟨?_, ?_, ?_⟩
  · rcases lastHalfInningLoop_spec g g.Innings.length le_rfl with
      ⟨_, hres⟩ | ⟨k, inn, _, _, _, _, hres⟩
    · exact ⟨_, hres⟩
    · exact ⟨_, hres⟩
  · intro i top h
    rcases lastHalfInningLoop_spec g g.Innings.length le_rfl with
      ⟨_, hres⟩ | ⟨k, inn, hlt, hkget, hne, _, hres⟩
    · unfold lastHalfInning at h
      rw [hres] at h
      simp at h
    · unfold lastHalfInning at h
      rw [hres] at h
      simp only [Option.some.injEq, Prod.mk.injEq, and_true] at h
      obtain ⟨hi, htop⟩ := h
      subst hi
      refine ⟨hlt, ?_, inn, hkget, ?_⟩
      · by_cases hb : inn.Bottom = [] <;> simp [hb] at htop <;> simp [← htop]
      · by_cases hb : inn.Bottom = []
        · simp only [hb, ne_eq, not_true_eq_false, if_false] at htop
          rw [← htop, if_pos rfl]
          rcases hne with h1 | h1
          · exact h1
          · exact absurd hb h1
        · simp only [hb, ne_eq, not_false_eq_true, if_true] at htop
          rw [← htop, if_neg (by decide)]
          exact hb
  · intro r hr
    rcases hurl : s.client.URL (s.path ++ "inning/inning_all.xml") with _ | u
    · rw [AtBats_eq_none s xml log hurl] at hr
      cases hr
    · obtain ⟨r2, hr2⟩ := CurrentAtBat_returns s xml log u hurl
      exact ⟨_, hr2⟩

/-- The seventh-inning fixture: `lastHalfInning` gives index 6 and the bottom
half, which is in range and non-empty, and `CurrentAtBat` returns, `AtBats`
having returned. -/
theorem lastHalfInning_safe_witness :
    (6 < seventhInning.Innings.length ∧ ("N" = "Y" ∨ "N" = "N") ∧
      ∃ inn, seventhInning.Innings[6]? = some inn ∧
        (if "N" = "Y" then inn.Top else inn.Bottom) ≠ []) ∧
    ∃ r2, (gameService (fixedClient 200 [60])).CurrentAtBat (fixedXML seventhInning ⟨[]⟩) [] =
      some r2 :=
  ⟨(lastHalfInning_safe seventhInning (gameService (fixedClient 200 [60]))
      (fixedXML seventhInning ⟨[]⟩) []).2.1 6 "N" (by decide),
   (lastHalfInning_safe seventhInning (gameService (fixedClient 200 [60]))
      (fixedXML seventhInning ⟨[]⟩) []).2.2
      ((some seventhInning, none),
        [request "components/game/mlb/year_2016/month_09/day_05/gid_2016_09_05_kcamlb_minmlb_1/inning/inning_all.xml"])
      rfl⟩

/-! ## Algebra of the filter -/

/-- The loop of `FilterAtBats` computes the specified collection. -/
theorem filterLoop_eq_spec (f : AtBat → Bool) (g : AtBats) :
    filterLoop f g = specFilterAtBats f g := by
  unfold filterLoop
  rw [foldl_filterInning]
  rfl

/-- On a decoded collection `FilterAtBats` returns the result of its loop. -/
theorem FilterAtBats_eq_filterLoop (s : GameServiceOp) (xml : XML) (p : AtBat → Bool)
    (log log1 : Log) (g : AtBats) (hfetch : s.AtBats xml log = some ((some g, none), log1)) :
    s.FilterAtBats xml p log = some ((some (filterLoop p g), none), log1) := by
  simp [GameServiceOp.FilterAtBats, hfetch, filterLoop]

theorem specFilterAtBats_cons (f : AtBat → Bool) (a : AtBatInning) (l : List AtBatInning) :
    specFilterAtBats f ⟨a :: l⟩ =
      if (a.Top.any f || a.Bottom.any f) = true then
        ⟨⟨a.Number, a.Top.filter f, a.Bottom.filter f⟩ :: (specFilterAtBats f ⟨l⟩).Innings⟩
      else specFilterAtBats f ⟨l⟩ := by
  by_cases h : (a.Top.any f || a.Bottom.any f) = true
  · simp [specFilterAtBats, List.filter_cons, h]
  · simp [specFilterAtBats, List.filter_cons, h]

theorem filter_then_filter (p q : AtBat → Bool) (l : List AtBat) :
    (l.filter p).filter q = l.filter (fun ab => p ab && q ab) := by
  induction l with
  | nil => rfl
  | cons a l ih =>
    by_cases hp : p a <;> by_cases hq : q a <;> simp [List.filter_cons, hp, hq, ih]

theorem any_of_filter (p q : AtBat → Bool) (l : List AtBat) :
    (l.filter p).any q = l.any (fun ab => p ab && q ab) := by
  induction l with
  | nil => rfl
  | cons a l ih =>
    by_cases hp : p a <;> by_cases hq : q a <;> simp [List.filter_cons, hp, hq, ih]

theorem any_and_of_not_any (p q : AtBat → Bool) (l : List AtBat) (h : l.any p = false) :
    l.any (fun ab => p ab && q ab) = false := by
  induction l with
  | nil => rfl
  | cons a l ih =>
    simp only [List.any_cons, Bool.or_eq_false_iff] at h
    simp [List.any_cons, h.1, ih h.2]

/-- Filtering the specified collection again. -/
theorem specFilterAtBats_compose (p q : AtBat → Bool) : ∀ l : List AtBatInning,
    specFilterAtBats q (specFilterAtBats p ⟨l⟩) =
      specFilterAtBats (fun ab => p ab && q ab) ⟨l⟩ := by
  intro l
  induction l with
  | nil => rfl
  | cons a l ih =>
    rw [specFilterAtBats_cons p, specFilterAtBats_cons (fun ab => p ab && q ab)]
    by_cases h : (a.Top.any p || a.Bottom.any p) = true
    · rw [if_pos h, specFilterAtBats_cons q]
      simp only [any_of_filter, filter_then_filter]
      by_cases h2 : (a.Top.any (fun ab => p ab && q ab) ||
          a.Bottom.any (fun ab => p ab && q ab)) = true
      · rw [if_pos h2, if_pos h2]
        have e : (⟨(specFilterAtBats p ⟨l⟩).Innings⟩ : AtBats) = specFilterAtBats p ⟨l⟩ := rfl
        rw [e, ih]
      · rw [if_neg h2, if_neg h2]
        have e : (⟨(specFilterAtBats p ⟨l⟩).Innings⟩ : AtBats) = specFilterAtBats p ⟨l⟩ := rfl
        rw [e, ih]
    · rw [if_neg h]
      simp only [Bool.or_eq_true, not_or, Bool.not_eq_true] at h
      have h2 : ¬ (a.Top.any (fun ab => p ab && q ab) ||
          a.Bottom.any (fun ab => p ab && q ab)) = true := by
        rw [any_and_of_not_any p q a.Top h.1, any_and_of_not_any p q a.Bottom h.2]
        decide
      rw [if_neg h2, ih]

theorem filterLoop_compose (p q : AtBat → Bool) (g : AtBats) :
    filterLoop q (filterLoop p g) = filterLoop (fun ab => p ab && q ab) g := by
  rw [filterLoop_eq_spec p, filterLoop_eq_spec q, filterLoop_eq_spec]
  exact specFilterAtBats_compose p q g.Innings

/-- With a predicate that holds for every at-bat the loop keeps the innings
that have an at-bat, unchanged. -/
theorem filterLoop_true (p : AtBat → Bool) (hp : ∀ ab, p ab = true) : ∀ l : List AtBatInning,
    filterLoop p ⟨l⟩ = ⟨l.filter (fun inning => decide (inning.Top ≠ [] ∨ inning.Bottom ≠ []))⟩ := by
  have hfil : ∀ l : List AtBat, l.filter p = l := fun l =>
    List.filter_eq_self.mpr (fun ab _ => hp ab)
  have hany : ∀ l : List AtBat, (l.any p = true ↔ l ≠ []) := by
    intro l
    cases l with
    | nil => simp
    | cons a l => simp [hp a]
  intro l
  rw [filterLoop_eq_spec]
  induction l with
  | nil => rfl
  | cons a l ih =>
    rw [specFilterAtBats_cons, ih]
    by_cases h : a.Top ≠ [] ∨ a.Bottom ≠ []
    · have h1 : (a.Top.any p || a.Bottom.any p) = true := by
        simpa [Bool.or_eq_true, hany] using h
      rw [if_pos h1, hfil, hfil, List.filter_cons_of_pos (by simpa using h)]
    · have h1 : ¬ (a.Top.any p || a.Bottom.any p) = true := by
        simpa [Bool.or_eq_true, hany] using h
      rw [if_neg h1, List.filter_cons_of_neg (by simpa using h)]

theorem flatten_filter_nonempty (l : List AtBatInning) :
    ((l.filter (fun inning => decide (inning.Top ≠ [] ∨ inning.Bottom ≠ []))).map
        (fun inning => inning.Top ++ inning.Bottom)).flatten =
      (l.map (fun inning => inning.Top ++ inning.Bottom)).flatten := by
  induction l with
  | nil => rfl
  | cons a l ih =>
    by_cases h : a.Top ≠ [] ∨ a.Bottom ≠ []
    · rw [List.filter_cons_of_pos (by simpa using h)]
      simp only [List.map_cons, List.flatten_cons, ih]
    · rw [List.filter_cons_of_neg (by simpa using h)]
      have h0 : a.Top = [] ∧ a.Bottom = [] := by
        simpa [not_or] using h
      simp only [List.map_cons, List.flatten_cons, ih, h0.1, h0.2, List.append_nil,
        List.nil_append]

/-- C18: with a predicate that holds for every at-bat `FilterAtBats` returns
the input innings without those that are empty in both halves; the result is
the decoded collection itself exactly when no inning is empty in both halves;
and in every case the at-bats of the result, in order, are those of the
input. -/
theorem FilterAtBats_true_drops_empty_innings (s : GameServiceOp) (xml : XML)
    (p : AtBat → Bool) (log log1 : Log) (g : AtBats)
    (hfetch : s.AtBats xml log = some ((some g, none), log1)) (hp : ∀ ab, p ab = true) :
    s.FilterAtBats xml p log =
      some ((some ⟨g.Innings.filter
        (fun inning => decide (inning.Top ≠ [] ∨ inning.Bottom ≠ []))⟩, none), log1) ∧
    (s.FilterAtBats xml p log = some ((some g, none), log1) ↔
      ∀ inning ∈ g.Innings, inning.Top ≠ [] ∨ inning.Bottom ≠ []) ∧
    (∀ r, s.FilterAtBats xml p log = some ((some r, none), log1) →
      (r.Innings.map (fun inning => inning.Top ++ inning.Bottom)).flatten =
        (g.Innings.map (fun inning => inning.Top ++ inning.Bottom)).flatten) := by
  have hres : s.FilterAtBats xml p log =
      some ((some ⟨g.Innings.filter
        (fun inning => decide (inning.Top ≠ [] ∨ inning.Bottom ≠ []))⟩, none), log1) := by
    rw [FilterAtBats_eq_filterLoop s xml p log log1 g hfetch]
    have e : g = ⟨g.Innings⟩ := rfl
    rw [e, filterLoop_true p hp]
  refine ⟨hres, ?_, ?_⟩
  · rw [hres]
    constructor
    · intro h
      simp only [Option.some.injEq, Prod.mk.injEq, and_true] at h
      have h2 : g.Innings.filter
          (fun inning => decide (inning.Top ≠ [] ∨ inning.Bottom ≠ [])) = g.Innings :=
        congrArg AtBats.Innings h
      intro inning hmem
      simpa using List.filter_eq_self.mp h2 inning hmem
    · intro h
      have h2 : g.Innings.filter
          (fun inning => decide (inning.Top ≠ [] ∨ inning.Bottom ≠ [])) = g.Innings :=
        List.filter_eq_self.mpr (fun inning hmem => by simpa using h inning hmem)
      rw [h2]
  · intro r hr
    rw [hres] at hr
    simp only [Option.some.injEq, Prod.mk.injEq, and_true] at hr
    rw [← hr]
    exact flatten_filter_nonempty g.Innings

theorem FilterAtBats_true_drops_empty_innings_witness :
    (gameService (fixedClient 200 [60])).FilterAtBats (fixedXML seventhInning ⟨[]⟩)
        (fun _ => true) [] =
      some ((some ⟨seventhInning.Innings.take 7⟩, none),
        [request "components/game/mlb/year_2016/month_09/day_05/gid_2016_09_05_kcamlb_minmlb_1/inning/inning_all.xml"]) ∧
    (⟨seventhInning.Innings.take 7⟩ : AtBats) ≠ seventhInning :=
  ⟨((FilterAtBats_true_drops_empty_innings (gameService (fixedClient 200 [60]))
      (fixedXML seventhInning ⟨[]⟩) (fun _ => true) []
      [request "components/game/mlb/year_2016/month_09/day_05/gid_2016_09_05_kcamlb_minmlb_1/inning/inning_all.xml"]
      seventhInning (by decide) (fun _ => rfl)).1).trans (by decide),
   by decide⟩

/-- C19: the filtering step of `FilterAtBats` composes: filtering by `p` and
then by `q` is filtering once by the conjunction of `p` and `q`; hence
filtering twice by `p` is filtering once, and two filters commute. -/
theorem filterLoop_composes (g : AtBats) (p q : AtBat → Bool) :
    filterLoop q (filterLoop p g) = filterLoop (fun ab => p ab && q ab) g ∧
    filterLoop p (filterLoop p g) = filterLoop p g ∧
    filterLoop q (filterLoop p g) = filterLoop p (filterLoop q g) := by
  refine ⟨filterLoop_compose p q g, ?_, ?_⟩
  · rw [filterLoop_compose p p g]
    have e : (fun ab => p ab && p ab) = p := funext (fun ab => Bool.and_self (p ab))
    rw [e]
  · rw [filterLoop_compose p q g, filterLoop_compose q p g]
    have e : (fun ab => p ab && q ab) = (fun ab => q ab && p ab) :=
      funext (fun ab => Bool.and_comm (p ab) (q ab))
    rw [e]

/-! ## Decoding the attributes of an element -/

/-- The tags of each record of the package are distinct, so that an attribute
is copied into at most one field. -/
theorem packageFields_nodup : ∀ fields ∈ packageFields, (fields.map Prod.fst).Nodup := by
  decide

theorem mem_dropWhile_of_not {α : Type} (p : α → Bool) (c : α) (hc : p c = false) :
    ∀ l : List α, c ∈ l → c ∈ l.dropWhile p := by
  intro l
  induction l with
  | nil => intro h; exact h
  | cons a l ih =>
    intro h
    by_cases hpa : p a = true
    · rw [List.dropWhile_cons_of_pos hpa]
      rcases List.mem_cons.mp h with rfl | h2
      · rw [hc] at hpa
        cases hpa
      · exact ih h2
    · rw [List.dropWhile_cons_of_neg hpa]
      exact h

/-- A character that is no white space is kept by `TrimSpace`. -/
theorem mem_TrimSpace (s : String) (c : Char) (hmem : c ∈ s.data)
    (hc : unicode.IsSpace c = false) : c ∈ (strings.TrimSpace s).data := by
  unfold strings.TrimSpace
  simp only [List.mem_reverse]
  apply mem_dropWhile_of_not _ _ hc
  simp only [List.mem_reverse]
  exact mem_dropWhile_of_not _ _ hc _ hmem

/-- The digit loop fails on a text with a character that is no digit. -/
theorem parseUintLoop_error (cs : List Char) (c : Char) (hmem : c ∈ cs)
    (hc : c.toNat < 48 ∨ 57 < c.toNat) : ∀ n, ∃ e, strconv.parseUintLoop cs n = .error e := by
  induction cs with
  | nil => cases hmem
  | cons a cs ih =>
    intro n
    unfold strconv.parseUintLoop
    by_cases ha : a.toNat < 48 ∨ 57 < a.toNat
    · exact ⟨_, if_pos ha⟩
    · rw [if_neg ha]
      by_cases hr : 2 ^ 64 ≤ n * 10 + (a.toNat - 48)
      · exact ⟨_, if_pos hr⟩
      · rw [if_neg hr]
        rcases List.mem_cons.mp hmem with rfl | h2
        · exact absurd hc ha
        · exact ih h2 _

/-- The call `ParseInt` fails on a text with a character that is no digit and
no sign. -/
theorem ParseInt_error (s : String) (c : Char) (hmem : c ∈ s.data)
    (hc : c.toNat < 48 ∨ 57 < c.toNat) (hplus : c ≠ '+') (hminus : c ≠ '-') :
    ∃ e, strconv.ParseInt s = .error e := by
  unfold strconv.ParseInt
  rcases hs : s.data with _ | ⟨c0, cs⟩
  · rw [hs] at hmem
    cases hmem
  · simp only
    rw [hs] at hmem
    have hd : c ∈ (if c0 = '+' ∨ c0 = '-' then cs else c0 :: cs) := by
      by_cases h0 : c0 = '+' ∨ c0 = '-'
      · rw [if_pos h0]
        rcases List.mem_cons.mp hmem with rfl | h2
        · rcases h0 with h | h
          · exact absurd h hplus
          · exact absurd h hminus
        · exact h2
      · rw [if_neg h0]
        exact hmem
    have hne : (if c0 = '+' ∨ c0 = '-' then cs else c0 :: cs) ≠ [] := by
      intro h
      rw [h] at hd
      cases hd
    rw [if_neg hne]
    obtain ⟨e, he⟩ := parseUintLoop_error _ c hd hc 0
    rw [he]
    exact ⟨_, rfl⟩

/-- A value that is not numeric cannot be copied into a field of kind `int`. -/
theorem copyValueInt_error (src : String) (h : xml.nonNumeric src) :
    ∃ e, xml.copyValueInt src = .error e := by
  obtain ⟨c, hmem, hc, hplus, hminus, hsp⟩ := h
  unfold xml.copyValueInt
  have hlen : src.length ≠ 0 := by
    intro h0
    have : src.data = [] := List.length_eq_zero.mp h0
    rw [this] at hmem
    cases hmem
  rw [if_neg hlen]
  exact ParseInt_error _ c (mem_TrimSpace src c hmem hsp) hc hplus hminus

/-- One attribute is decoded exactly when its value, if a tag binds it to a
number, can be copied; the record so far plays no part. -/
theorem unmarshalAttr_ok_iff (pf : String → Except strconv.NumError Float32)
    (fields : xml.Fields) (v : xml.Values) (a : String × String) :
    (∃ v1, xml.unmarshalAttr pf fields v a = .ok v1) ↔
      ((xml.kindOf fields a.1 = some .int → ∃ i, xml.copyValueInt a.2 = .ok i) ∧
       (xml.kindOf fields a.1 = some .float32 → ∃ f, xml.copyValueFloat32 pf a.2 = .ok f)) := by
  unfold xml.unmarshalAttr
  rcases hk : xml.kindOf fields a.1 with _ | k
  · simp
  · cases k
    · simp
    · rcases hc : xml.copyValueInt a.2 with e | i <;> simp
    · rcases hc : xml.copyValueFloat32 pf a.2 with e | f <;> simp

theorem unmarshalAttrs_ok_iff (pf : String → Except strconv.NumError Float32)
    (fields : xml.Fields) : ∀ (attrs : xml.Attrs) (v : xml.Values),
    (∃ v1, xml.unmarshalAttrs pf fields v attrs = .ok v1) ↔
      ∀ a ∈ attrs,
        (xml.kindOf fields a.1 = some .int → ∃ i, xml.copyValueInt a.2 = .ok i) ∧
        (xml.kindOf fields a.1 = some .float32 →
          ∃ f, xml.copyValueFloat32 pf a.2 = .ok f) := by
  intro attrs
  induction attrs with
  | nil => intro v; simp [xml.unmarshalAttrs]
  | cons a rest ih =>
    intro v
    simp only [xml.unmarshalAttrs, List.mem_cons, forall_eq_or_imp]
    rw [← unmarshalAttr_ok_iff pf fields v a]
    rcases hs : xml.unmarshalAttr pf fields v a with e | v1
    · simp
    · simp only [Except.ok.injEq, exists_eq', true_and]
      exact ih v1

/-- Removing attributes from an element never makes its decoding fail. -/
theorem unmarshalAttrs_sublist (pf : String → Except strconv.NumError Float32)
    (fields : xml.Fields) (attrs attrs2 : xml.Attrs) (v : xml.Values)
    (hsub : attrs2.Sublist attrs) (h : ∃ v1, xml.unmarshalAttrs pf fields v attrs = .ok v1) :
    ∃ v2, xml.unmarshalAttrs pf fields v attrs2 = .ok v2 := by
  rw [unmarshalAttrs_ok_iff] at h ⊢
  exact fun a ha => h a (hsub.subset ha)

/-- Decoding the attributes fails only with the error of copying the value
of an attribute that is present and bound to a number. -/
theorem unmarshalAttrs_error_origin (pf : String → Except strconv.NumError Float32)
    (fields : xml.Fields) : ∀ (attrs : xml.Attrs) (v : xml.Values) (e : strconv.NumError),
    xml.unmarshalAttrs pf fields v attrs = .error e →
    ∃ a ∈ attrs,
      (xml.kindOf fields a.1 = some .int ∧ xml.copyValueInt a.2 = .error e) ∨
      (xml.kindOf fields a.1 = some .float32 ∧ xml.copyValueFloat32 pf a.2 = .error e) := by
  intro attrs
  induction attrs with
  | nil => intro v e h; cases h
  | cons a rest ih =>
    intro v e h
    simp only [xml.unmarshalAttrs] at h
    rcases hs : xml.unmarshalAttr pf fields v a with e1 | v1
    · rw [hs] at h
      simp only [Except.error.injEq] at h
      subst h
      refine ⟨a, List.mem_cons_self _ _, ?_⟩
      unfold xml.unmarshalAttr at hs
      rcases hk : xml.kindOf fields a.1 with _ | k
      · rw [hk] at hs
        cases hs
      · rw [hk] at hs
        cases k
        · cases hs
        · left
          rcases hc : xml.copyValueInt a.2 with e2 | i
          · rw [hc] at hs
            simp only [Except.error.injEq] at hs
            rw [hs]
            exact ⟨rfl, rfl⟩
          · rw [hc] at hs
            cases hs
        · right
          rcases hc : xml.copyValueFloat32 pf a.2 with e2 | f
          · rw [hc] at hs
            simp only [Except.error.injEq] at hs
            rw [hs]
            exact ⟨rfl, rfl⟩
          · rw [hc] at hs
            cases hs
    · rw [hs] at h
      obtain ⟨b, hb, hor⟩ := ih v1 e h
      exact ⟨b, List.mem_cons_of_mem _ hb, hor⟩

/-- An attribute that is bound to an `int` and is not numeric makes the
decoding of the element fail. -/
theorem unmarshalAttrs_nonNumeric (pf : String → Except strconv.NumError Float32)
    (fields : xml.Fields) (attrs : xml.Attrs) (v : xml.Values)
    (h : ∃ a ∈ attrs, xml.kindOf fields a.1 = some .int ∧ xml.nonNumeric a.2) :
    ∃ e, xml.unmarshalAttrs pf fields v attrs = .error e := by
  obtain ⟨a, ha, hk, hn⟩ := h
  rcases hr : xml.unmarshalAttrs pf fields v attrs with e | v1
  · exact ⟨e, rfl⟩
  · exfalso
    have hok := (unmarshalAttrs_ok_iff pf fields attrs v).mp ⟨v1, hr⟩ a ha
    obtain ⟨i, hi⟩ := hok.1 hk
    obtain ⟨e, he⟩ := copyValueInt_error a.2 hn
    rw [he] at hi
    cases hi

/-- One attribute keeps a field at its zero value when it is another
attribute or its value is empty. -/
theorem unmarshalAttr_zero (pf : String → Except strconv.NumError Float32)
    (fields : xml.Fields) (tag : String) (v v1 : xml.Values) (a : String × String)
    (hv : v.int tag = 0 ∧ v.float32 tag = ⟨0⟩ ∧ v.str tag = "")
    (ha : a.1 = tag → a.2 = "") (h : xml.unmarshalAttr pf fields v a = .ok v1) :
    v1.int tag = 0 ∧ v1.float32 tag = ⟨0⟩ ∧ v1.str tag = "" := by
  unfold xml.unmarshalAttr at h
  rcases hk : xml.kindOf fields a.1 with _ | k
  · rw [hk] at h
    cases h
    exact hv
  · rw [hk] at h
    by_cases htag : a.1 = tag
    · have hemp := ha htag
      cases k
      · cases h
        refine ⟨hv.1, hv.2.1, ?_⟩
        simp [Function.update, htag, hemp]
      · have hc : xml.copyValueInt a.2 = .ok 0 := by rw [hemp]; rfl
        rw [hc] at h
        cases h
        refine ⟨?_, hv.2.1, hv.2.2⟩
        simp [Function.update, htag]
      · have hc : xml.copyValueFloat32 pf a.2 = .ok ⟨0⟩ := by rw [hemp]; rfl
        rw [hc] at h
        cases h
        refine ⟨hv.1, ?_, hv.2.2⟩
        simp [Function.update, htag]
    · have hne : tag ≠ a.1 := fun h2 => htag h2.symm
      cases k
      · cases h
        refine ⟨hv.1, hv.2.1, ?_⟩
        simp [Function.update, hne, hv.2.2]
      · rcases hc : xml.copyValueInt a.2 with e | i
        · rw [hc] at h
          cases h
        · rw [hc] at h
          cases h
          refine ⟨?_, hv.2.1, hv.2.2⟩
          simp [Function.update, hne, hv.1]
      · rcases hc : xml.copyValueFloat32 pf a.2 with e | f
        · rw [hc] at h
          cases h
        · rw [hc] at h
          cases h
          refine ⟨hv.1, ?_, hv.2.2⟩
          simp [Function.update, hne, hv.2.1]

theorem unmarshalAttrs_zero_from (pf : String → Except strconv.NumError Float32)
    (fields : xml.Fields) (tag : String) : ∀ (attrs : xml.Attrs) (v v1 : xml.Values),
    (v.int tag = 0 ∧ v.float32 tag = ⟨0⟩ ∧ v.str tag = "") →
    (∀ a ∈ attrs, a.1 = tag → a.2 = "") →
    xml.unmarshalAttrs pf fields v attrs = .ok v1 →
    v1.int tag = 0 ∧ v1.float32 tag = ⟨0⟩ ∧ v1.str tag = "" := by
  intro attrs
  induction attrs with
  | nil =>
    intro v v1 hv _ h
    simp only [xml.unmarshalAttrs, Except.ok.injEq] at h
    exact h ▸ hv
  | cons a rest ih =>
    intro v v1 hv hall h
    simp only [xml.unmarshalAttrs] at h
    rcases hs : xml.unmarshalAttr pf fields v a with e | v2
    · rw [hs] at h
      cases h
    · rw [hs] at h
      exact ih v2 v1
        (unmarshalAttr_zero pf fields tag v v2 a hv (hall a (List.mem_cons_self _ _)) hs)
        (fun b hb => hall b (List.mem_cons_of_mem _ hb)) h

/-- A field whose attribute is absent or empty in the element is zero in the
decoded record: `0` for a number, the empty string for a string. -/
theorem unmarshalAttrs_zero (pf : String → Except strconv.NumError Float32)
    (fields : xml.Fields) (attrs : xml.Attrs) (v : xml.Values) (tag : String)
    (h : xml.unmarshalAttrs pf fields xml.Values.zero attrs = .ok v)
    (hall : ∀ a ∈ attrs, a.1 = tag → a.2 = "") :
    v.int tag = 0 ∧ v.float32 tag = ⟨0⟩ ∧ v.str tag = "" :=
  unmarshalAttrs_zero_from pf fields tag attrs xml.Values.zero v ⟨rfl, rfl, rfl⟩ hall h

/-- The fields of a decoded game whose attribute is absent or empty: zero for
a number, the empty string for a string. -/
theorem unmarshalGame_zero (pf : String → Except strconv.NumError Float32) (attrs : xml.Attrs)
    (g : Game) (hg : unmarshalGame pf attrs = .ok g) :
    ((∀ a ∈ attrs, a.1 = "inning" → a.2 = "") → g.Inning = 0) ∧
    ((∀ a ∈ attrs, a.1 = "outs" → a.2 = "") → g.Outs = 0) ∧
    ((∀ a ∈ attrs, a.1 = "away_team_runs" → a.2 = "") → g.AwayTeamRuns = 0) ∧
    ((∀ a ∈ attrs, a.1 = "home_team_runs" → a.2 = "") → g.HomeTeamRuns = 0) ∧
    ((∀ a ∈ attrs, a.1 = "away_team_hits" → a.2 = "") → g.AwayHitsRuns = 0) ∧
    ((∀ a ∈ attrs, a.1 = "home_team_hits" → a.2 = "") → g.HomeHitsRuns = 0) ∧
    ((∀ a ∈ attrs, a.1 = "away_team_errors" → a.2 = "") → g.AwayTeamErrors = 0) ∧
    ((∀ a ∈ attrs, a.1 = "home_team_errors" → a.2 = "") → g.HomeTeamErrors = 0) ∧
    ((∀ a ∈ attrs, a.1 = "runner_on_base_status" → a.2 = "") → g.BaseState = 0) ∧
    ((∀ a ∈ attrs, a.1 = "gameday_link" → a.2 = "") → g.GID = "") ∧
    ((∀ a ∈ attrs, a.1 = "time_date" → a.2 = "") → g.TimeDate = "") ∧
    ((∀ a ∈ attrs, a.1 = "time_zone" → a.2 = "") → g.TimeZone = "") ∧
    ((∀ a ∈ attrs, a.1 = "ampm" → a.2 = "") → g.AMPM = "") ∧
    ((∀ a ∈ attrs, a.1 = "away_name_abbrev" → a.2 = "") → g.AwayNameAbbrev = "") ∧
    ((∀ a ∈ attrs, a.1 = "home_name_abbrev" → a.2 = "") → g.HomeNameAbbrev = "") ∧
    ((∀ a ∈ attrs, a.1 = "away_team_city" → a.2 = "") → g.AwayTeamCity = "") ∧
    ((∀ a ∈ attrs, a.1 = "home_team_city" → a.2 = "") → g.HomeTeamCity = "") ∧
    ((∀ a ∈ attrs, a.1 = "away_team_name" → a.2 = "") → g.AwayTeamName = "") ∧
    ((∀ a ∈ attrs, a.1 = "home_team_name" → a.2 = "") → g.HomeTeamName = "") ∧
    ((∀ a ∈ attrs, a.1 = "top_inning" → a.2 = "") → g.TopInning = "") ∧
    ((∀ a ∈ attrs, a.1 = "status" → a.2 = "") → g.Status = "") := by
  unfold unmarshalGame at hg
  cases hv : xml.unmarshalAttrs pf gameFields xml.Values.zero attrs with
  | error e => rw [hv] at hg; cases hg
  | ok v =>
    rw [hv] at hg
    cases hg
    refine ⟨?_, ?_, ?_, ?_, ?_, ?_, ?_, ?_, ?_, ?_, ?_, ?_, ?_, ?_, ?_, ?_, ?_, ?_, ?_, ?_, ?_⟩
    · exact fun hall => (unmarshalAttrs_zero pf gameFields attrs v "inning" hv hall).1
    · exact fun hall => (unmarshalAttrs_zero pf gameFields attrs v "outs" hv hall).1
    · exact fun hall => (unmarshalAttrs_zero pf gameFields attrs v "away_team_runs" hv hall).1
    · exact fun hall => (unmarshalAttrs_zero pf gameFields attrs v "home_team_runs" hv hall).1
    · exact fun hall => (unmarshalAttrs_zero pf gameFields attrs v "away_team_hits" hv hall).1
    · exact fun hall => (unmarshalAttrs_zero pf gameFields attrs v "home_team_hits" hv hall).1
    · exact fun hall => (unmarshalAttrs_zero pf gameFields attrs v "away_team_errors" hv hall).1
    · exact fun hall => (unmarshalAttrs_zero pf gameFields attrs v "home_team_errors" hv hall).1
    · exact fun hall => (unmarshalAttrs_zero pf gameFields attrs v "runner_on_base_status" hv hall).1
    · exact fun hall => (unmarshalAttrs_zero pf gameFields attrs v "gameday_link" hv hall).2.2
    · exact fun hall => (unmarshalAttrs_zero pf gameFields attrs v "time_date" hv hall).2.2
    · exact fun hall => (unmarshalAttrs_zero pf gameFields attrs v "time_zone" hv hall).2.2
    · exact fun hall => (unmarshalAttrs_zero pf gameFields attrs v "ampm" hv hall).2.2
    · exact fun hall => (unmarshalAttrs_zero pf gameFields attrs v "away_name_abbrev" hv hall).2.2
    · exact fun hall => (unmarshalAttrs_zero pf gameFields attrs v "home_name_abbrev" hv hall).2.2
    · exact fun hall => (unmarshalAttrs_zero pf gameFields attrs v "away_team_city" hv hall).2.2
    · exact fun hall => (unmarshalAttrs_zero pf gameFields attrs v "home_team_city" hv hall).2.2
    · exact fun hall => (unmarshalAttrs_zero pf gameFields attrs v "away_team_name" hv hall).2.2
    · exact fun hall => (unmarshalAttrs_zero pf gameFields attrs v "home_team_name" hv hall).2.2
    · exact fun hall => (unmarshalAttrs_zero pf gameFields attrs v "top_inning" hv hall).2.2
    · exact fun hall => (unmarshalAttrs_zero pf gameFields attrs v "status" hv hall).2.2

/-! ## Decoding a document -/

/-- Induction over a document: a property of elements and a property of lists
of elements, the first passing from the children to their parent, the second
from the members to the list. -/
theorem Element_induct (P : xml.Element → Prop) (Q : List xml.Element → Prop)
    (hmk : ∀ name attrs children, Q children → P (.mk name attrs children))
    (hnil : Q [])
    (hcons : ∀ c rest, P c → Q rest → Q (c :: rest)) :
    (∀ e, P e) ∧ (∀ cs, Q cs) :=
  ⟨fun e => @xml.Element.rec P Q hmk hnil hcons e,
   fun cs => @xml.Element.rec_1 P Q hmk hnil hcons cs⟩

/-- Whether the attributes decode does not depend on the record they are
decoded into. -/
theorem unmarshalAttrs_ok_indep (pf : String → Except strconv.NumError Float32)
    (fields : xml.Fields) (attrs : xml.Attrs) (v w : xml.Values)
    (h : ∃ v1, xml.unmarshalAttrs pf fields v attrs = .ok v1) :
    ∃ w1, xml.unmarshalAttrs pf fields w attrs = .ok w1 := by
  rw [unmarshalAttrs_ok_iff] at h ⊢
  exact h

theorem unmarshal_ok_iff_aux (pf : String → Except strconv.NumError Float32) :
    (∀ c, ∀ (s : xml.Struct) (parents : List String) (r : xml.Record),
      (∃ r1, xml.unmarshalPath pf s parents r c = .ok r1) ↔
        ∀ p ∈ xml.decodedPath s parents c,
          ∃ v, xml.unmarshalAttrs pf p.1 xml.Values.zero p.2 = .ok v) ∧
    (∀ cs, ∀ (s : xml.Struct) (parents : List String) (r : xml.Record),
      (∃ r1, xml.unmarshalChildren pf s parents r cs = .ok r1) ↔
        ∀ p ∈ xml.decodedChildren s parents cs,
          ∃ v, xml.unmarshalAttrs pf p.1 xml.Values.zero p.2 = .ok v) := by
  apply Element_induct
  · intro name attrs children ih s parents r
    rw [xml.unmarshalPath, xml.decodedPath]
    rcases hf : xml.findField s.elems 0 parents name with ⟨i, f⟩ | _ | _
    · simp only [List.mem_cons, forall_eq_or_imp]
      rcases ha : xml.unmarshalAttrs pf f.typ.fields
          (if f.slice = true then xml.Record.zero else r.field i).values attrs with e | v
      · constructor
        · rintro ⟨r1, h1⟩
          cases h1
        · rintro ⟨h, _⟩
          obtain ⟨w, hw⟩ := unmarshalAttrs_ok_indep pf _ _ _
            (if f.slice = true then xml.Record.zero else r.field i).values h
          rw [ha] at hw
          cases hw
      · have h0 : ∃ w, xml.unmarshalAttrs pf f.typ.fields xml.Values.zero attrs = .ok w :=
          unmarshalAttrs_ok_indep pf _ _ _ _ ⟨v, ha⟩
        simp only [h0, true_and]
        rw [← ih f.typ [] (.mk v (if f.slice = true then xml.Record.zero else r.field i).elems)]
        rcases hc : xml.unmarshalChildren pf f.typ []
            (.mk v (if f.slice = true then xml.Record.zero else r.field i).elems) children
          with e | r1
        · simp
        · simp
    · exact ih s (parents ++ [name]) r
    · simp
  · intro s parents r
    simp [xml.unmarshalChildren, xml.decodedChildren]
  · intro c rest ihc ihr s parents r
    rw [xml.unmarshalChildren, xml.decodedChildren]
    simp only [List.mem_append]
    rcases hc : xml.unmarshalPath pf s parents r c with e | r1
    · have hn : ¬ ∀ p ∈ xml.decodedPath s parents c,
          ∃ v, xml.unmarshalAttrs pf p.1 xml.Values.zero p.2 = .ok v := by
        rw [← ihc s parents r, hc]
        simp
      constructor
      · rintro ⟨r1, h1⟩
        cases h1
      · intro h
        exact absurd (fun p hp => h p (Or.inl hp)) hn
    · have hy : ∀ p ∈ xml.decodedPath s parents c,
          ∃ v, xml.unmarshalAttrs pf p.1 xml.Values.zero p.2 = .ok v := by
        rw [← ihc s parents r, hc]
        exact ⟨r1, rfl⟩
      simp only
      rw [ihr s parents r1]
      constructor
      · intro h p hp
        rcases hp with hp | hp
        · exact hy p hp
        · exact h p hp
      · intro h p hp
        exact h p (Or.inr hp)

/-- A document decodes exactly when the attributes of each element that is
decoded into a record decode on their own. -/
theorem unmarshal_ok_iff (pf : String → Except strconv.NumError Float32) (s : xml.Struct)
    (r : xml.Record) (root : xml.Element) :
    (∃ r1, xml.unmarshal pf s r root = .ok r1) ↔
      ∀ p ∈ xml.decoded s root, ∃ v, xml.unmarshalAttrs pf p.1 xml.Values.zero p.2 = .ok v := by
  unfold xml.unmarshal xml.decoded
  simp only [List.mem_cons, forall_eq_or_imp]
  rcases ha : xml.unmarshalAttrs pf s.fields r.values root.attrs with e | v
  · constructor
    · rintro ⟨r1, h1⟩
      cases h1
    · rintro ⟨h, _⟩
      obtain ⟨w, hw⟩ := unmarshalAttrs_ok_indep pf _ _ _ r.values h
      rw [ha] at hw
      cases hw
  · have h0 : ∃ w, xml.unmarshalAttrs pf s.fields xml.Values.zero root.attrs = .ok w :=
      unmarshalAttrs_ok_indep pf _ _ _ _ ⟨v, ha⟩
    simp only [h0, true_and]
    exact (unmarshal_ok_iff_aux pf).2 root.children s [] (.mk v r.elems)

theorem unmarshal_error_origin_aux (pf : String → Except strconv.NumError Float32) :
    (∀ c, ∀ (s : xml.Struct) (parents : List String) (r : xml.Record) (e : strconv.NumError),
      xml.unmarshalPath pf s parents r c = .error e →
        ∃ p ∈ xml.decodedPath s parents c, ∃ a ∈ p.2,
          (xml.kindOf p.1 a.1 = some .int ∧ xml.copyValueInt a.2 = .error e) ∨
          (xml.kindOf p.1 a.1 = some .float32 ∧ xml.copyValueFloat32 pf a.2 = .error e)) ∧
    (∀ cs, ∀ (s : xml.Struct) (parents : List String) (r : xml.Record) (e : strconv.NumError),
      xml.unmarshalChildren pf s parents r cs = .error e →
        ∃ p ∈ xml.decodedChildren s parents cs, ∃ a ∈ p.2,
          (xml.kindOf p.1 a.1 = some .int ∧ xml.copyValueInt a.2 = .error e) ∨
          (xml.kindOf p.1 a.1 = some .float32 ∧ xml.copyValueFloat32 pf a.2 = .error e)) := by
  apply Element_induct
  · intro name attrs children ih s parents r e
    rw [xml.unmarshalPath, xml.decodedPath]
    rcases hf : xml.findField s.elems 0 parents name with ⟨i, f⟩ | _ | _
    · simp only
      rcases ha : xml.unmarshalAttrs pf f.typ.fields
          (if f.slice = true then xml.Record.zero else r.field i).values attrs with e1 | v
      · intro h
        simp only [Except.error.injEq] at h
        subst h
        obtain ⟨a, hmem, hor⟩ := unmarshalAttrs_error_origin pf _ _ _ _ ha
        exact ⟨(f.typ.fields, attrs), List.mem_cons_self _ _, a, hmem, hor⟩
      · simp only
        rcases hc : xml.unmarshalChildren pf f.typ []
            (.mk v (if f.slice = true then xml.Record.zero else r.field i).elems) children
          with e1 | r1
        · intro h
          simp only [Except.error.injEq] at h
          subst h
          obtain ⟨p, hp, hrest⟩ := ih _ _ _ _ hc
          exact ⟨p, List.mem_cons_of_mem _ hp, hrest⟩
        · intro h
          cases h
    · exact ih s (parents ++ [name]) r e
    · intro h
      cases h
  · intro s parents r e h
    rw [xml.unmarshalChildren] at h
    cases h
  · intro c rest ihc ihr s parents r e
    rw [xml.unmarshalChildren, xml.decodedChildren]
    rcases hc : xml.unmarshalPath pf s parents r c with e1 | r1
    · intro h
      simp only [Except.error.injEq] at h
      subst h
      obtain ⟨p, hp, hrest⟩ := ihc _ _ _ _ hc
      exact ⟨p, List.mem_append_left _ hp, hrest⟩
    · intro h
      obtain ⟨p, hp, hrest⟩ := ihr _ _ _ _ h
      exact ⟨p, List.mem_append_right _ hp, hrest⟩

/-- The copy of an empty value never fails. -/
theorem copy_error_nonempty (pf : String → Except strconv.NumError Float32) (src : String)
    (e : strconv.NumError)
    (h : xml.copyValueInt src = .error e ∨ xml.copyValueFloat32 pf src = .error e) :
    src ≠ "" := by
  rintro rfl
  rcases h with h | h <;> cases h

/-- Decoding a document fails only with the error of copying the value,
which is not empty, of an attribute that an element decoded into a record has
and that a tag binds to a number. -/
theorem unmarshal_error_origin (pf : String → Except strconv.NumError Float32)
    (s : xml.Struct) (r : xml.Record) (root : xml.Element) (e : strconv.NumError)
    (h : xml.unmarshal pf s r root = .error e) :
    ∃ p ∈ xml.decoded s root, ∃ a ∈ p.2, a.2 ≠ "" ∧
      ((xml.kindOf p.1 a.1 = some .int ∧ xml.copyValueInt a.2 = .error e) ∨
       (xml.kindOf p.1 a.1 = some .float32 ∧ xml.copyValueFloat32 pf a.2 = .error e)) := by
  have key : ∃ p ∈ xml.decoded s root, ∃ a ∈ p.2,
      (xml.kindOf p.1 a.1 = some .int ∧ xml.copyValueInt a.2 = .error e) ∨
      (xml.kindOf p.1 a.1 = some .float32 ∧ xml.copyValueFloat32 pf a.2 = .error e) := by
    unfold xml.unmarshal at h
    unfold xml.decoded
    rcases ha : xml.unmarshalAttrs pf s.fields r.values root.attrs with e1 | v
    · rw [ha] at h
      simp only [Except.error.injEq] at h
      subst h
      obtain ⟨a, hmem, hor⟩ := unmarshalAttrs_error_origin pf _ _ _ _ ha
      exact ⟨(s.fields, root.attrs), List.mem_cons_self _ _, a, hmem, hor⟩
    · rw [ha] at h
      obtain ⟨p, hp, hrest⟩ := (unmarshal_error_origin_aux pf).2 _ _ _ _ _ h
      exact ⟨p, List.mem_cons_of_mem _ hp, hrest⟩
  obtain ⟨p, hp, a, ha, hor⟩ := key
  refine ⟨p, hp, a, ha, ?_, hor⟩
  exact copy_error_nonempty pf a.2 e (hor.imp And.right And.right)

/-- A document with an element that is decoded into a record and has a value
that is not numeric for a field of kind `int` does not decode. -/
theorem unmarshal_nonNumeric (pf : String → Except strconv.NumError Float32)
    (s : xml.Struct) (r : xml.Record) (root : xml.Element)
    (h : ∃ p ∈ xml.decoded s root, ∃ a ∈ p.2,
      xml.kindOf p.1 a.1 = some .int ∧ xml.nonNumeric a.2) :
    ∃ e, xml.unmarshal pf s r root = .error e := by
  obtain ⟨p, hp, a, ha, hk, hn⟩ := h
  rcases hr : xml.unmarshal pf s r root with e | r1
  · exact ⟨e, rfl⟩
  · exfalso
    obtain ⟨v, hv⟩ := (unmarshal_ok_iff pf s r root).mp ⟨r1, hr⟩ p hp
    obtain ⟨e, he⟩ := unmarshalAttrs_nonNumeric pf p.1 p.2 xml.Values.zero ⟨a, ha, hk, hn⟩
    rw [he] at hv
    cases hv

theorem forall₂_exists_of_mem {α β : Type} (R : α → β → Prop) :
    ∀ (l1 : List α) (l2 : List β), List.Forall₂ R l1 l2 → ∀ x ∈ l1, ∃ y ∈ l2, R x y := by
  intro l1 l2 h
  induction h with
  | nil => intro x hx; cases hx
  | cons hr _ ih =>
    intro x hx
    rcases List.mem_cons.mp hx with rfl | hx
    · exact ⟨_, List.mem_cons_self _ _, hr⟩
    · obtain ⟨y, hy, hxy⟩ := ih x hx
      exact ⟨y, List.mem_cons_of_mem _ hy, hxy⟩

theorem decoded_fewerAttrs_aux :
    (∀ c, ∀ (c2 : xml.Element) (s : xml.Struct) (parents : List String),
      c2.fewerAttrs c = true →
        List.Forall₂ (fun p2 p => p2.1 = p.1 ∧ p2.2.Sublist p.2)
          (xml.decodedPath s parents c2) (xml.decodedPath s parents c)) ∧
    (∀ cs, ∀ (cs2 : List xml.Element) (s : xml.Struct) (parents : List String),
      xml.fewerAttrsList cs2 cs = true →
        List.Forall₂ (fun p2 p => p2.1 = p.1 ∧ p2.2.Sublist p.2)
          (xml.decodedChildren s parents cs2) (xml.decodedChildren s parents cs)) := by
  apply Element_induct
  · intro name attrs children ih c2 s parents h
    rcases c2 with ⟨name2, attrs2, children2⟩
    rw [xml.Element.fewerAttrs] at h
    simp only [Bool.and_eq_true, decide_eq_true_eq] at h
    obtain ⟨⟨hname, hsub⟩, hch⟩ := h
    subst hname
    rw [xml.decodedPath, xml.decodedPath]
    rcases hf : xml.findField s.elems 0 parents name2 with ⟨i, f⟩ | _ | _
    · exact List.Forall₂.cons ⟨rfl, hsub⟩ (ih children2 f.typ [] hch)
    · exact ih children2 s (parents ++ [name2]) hch
    · exact List.Forall₂.nil
  · intro cs2 s parents h
    rcases cs2 with _ | ⟨c2, rest2⟩
    · rw [xml.decodedChildren]
      exact List.Forall₂.nil
    · rw [xml.fewerAttrsList] at h
      cases h
  · intro c rest ihc ihr cs2 s parents h
    rcases cs2 with _ | ⟨c2, rest2⟩
    · rw [xml.fewerAttrsList] at h
      cases h
    · rw [xml.fewerAttrsList] at h
      simp only [Bool.and_eq_true] at h
      rw [xml.decodedChildren, xml.decodedChildren]
      exact List.rel_append (ihc c2 s parents h.1) (ihr rest2 s parents h.2)

/-- A document that decodes still decodes after attributes are removed from
its elements. -/
theorem unmarshal_fewerAttrs (pf : String → Except strconv.NumError Float32)
    (s : xml.Struct) (r r2 : xml.Record) (root root2 : xml.Element)
    (hfew : root2.fewerAttrs root = true)
    (h : ∃ r1, xml.unmarshal pf s r root = .ok r1) :
    ∃ r3, xml.unmarshal pf s r2 root2 = .ok r3 := by
  rw [unmarshal_ok_iff] at h ⊢
  have hrel : List.Forall₂ (fun p2 p => p2.1 = p.1 ∧ p2.2.Sublist p.2)
      (xml.decoded s root2) (xml.decoded s root) := by
    rcases root with ⟨name, attrs, children⟩
    rcases root2 with ⟨name2, attrs2, children2⟩
    rw [xml.Element.fewerAttrs] at hfew
    simp only [Bool.and_eq_true, decide_eq_true_eq] at hfew
    exact List.Forall₂.cons ⟨rfl, hfew.1.2⟩ (decoded_fewerAttrs_aux.2 children children2 s [] hfew.2)
  intro p2 hp2
  obtain ⟨p, hp, hfields, hsub⟩ := forall₂_exists_of_mem _ _ _ hrel p2 hp2
  rw [hfields]
  exact unmarshalAttrs_sublist pf p.1 p.2 p2.2 xml.Values.zero hsub (h p hp)

theorem unmarshalChildren_values_aux (pf : String → Except strconv.NumError Float32) :
    (∀ c, ∀ (s : xml.Struct) (parents : List String) (r r1 : xml.Record),
      xml.unmarshalPath pf s parents r c = .ok r1 → r1.values = r.values) ∧
    (∀ cs, ∀ (s : xml.Struct) (parents : List String) (r r1 : xml.Record),
      xml.unmarshalChildren pf s parents r cs = .ok r1 → r1.values = r.values) := by
  apply Element_induct
  · intro name attrs children ih s parents r r1
    rw [xml.unmarshalPath]
    rcases hf : xml.findField s.elems 0 parents name with ⟨i, f⟩ | _ | _
    · simp only
      rcases ha : xml.unmarshalAttrs pf f.typ.fields
          (if f.slice = true then xml.Record.zero else r.field i).values attrs with e1 | v
      · intro h
        cases h
      · simp only
        rcases hc : xml.unmarshalChildren pf f.typ []
            (.mk v (if f.slice = true then xml.Record.zero else r.field i).elems) children
          with e1 | r2
        · intro h
          cases h
        · intro h
          simp only [Except.ok.injEq] at h
          rw [← h]
          rfl
    · exact ih s (parents ++ [name]) r r1
    · intro h
      simp only [Except.ok.injEq] at h
      rw [h]
  · intro s parents r r1 h
    rw [xml.unmarshalChildren] at h
    simp only [Except.ok.injEq] at h
    rw [h]
  · intro c rest ihc ihr s parents r r1
    rw [xml.unmarshalChildren]
    rcases hc : xml.unmarshalPath pf s parents r c with e1 | r2
    · intro h
      cases h
    · intro h
      rw [ihr s parents r2 r1 h, ihc s parents r r2 hc]

/-- The attribute fields of a decoded record are what the attributes of its
own element give: the children leave them as they are. -/
theorem unmarshal_values (pf : String → Except strconv.NumError Float32) (s : xml.Struct)
    (r r1 : xml.Record) (root : xml.Element) (h : xml.unmarshal pf s r root = .ok r1) :
    xml.unmarshalAttrs pf s.fields r.values root.attrs = .ok r1.values := by
  unfold xml.unmarshal at h
  rcases ha : xml.unmarshalAttrs pf s.fields r.values root.attrs with e | v
  · rw [ha] at h
    cases h
  · rw [ha] at h
    rw [(unmarshalChildren_values_aux pf).2 _ _ _ _ _ h]
    rfl

/-- A field of a record decoded from the zero value whose attribute is absent
from the element, or empty, is zero. -/
theorem unmarshal_zero (pf : String → Except strconv.NumError Float32) (s : xml.Struct)
    (r1 : xml.Record) (root : xml.Element) (tag : String)
    (h : xml.unmarshal pf s xml.Record.zero root = .ok r1)
    (hall : ∀ a ∈ root.attrs, a.1 = tag → a.2 = "") :
    r1.values.int tag = 0 ∧ r1.values.float32 tag = ⟨0⟩ ∧ r1.values.str tag = "" :=
  unmarshalAttrs_zero pf s.fields root.attrs r1.values tag (unmarshal_values pf s _ r1 root h) hall

/-- A child element that matches a field is decoded into it and nothing else
of the record changes: a slice gets a new element, decoded from the zero
value, and a struct is decoded further from the value it has. -/
theorem unmarshalPath_field (pf : String → Except strconv.NumError Float32) (s : xml.Struct)
    (parents : List String) (r r1 : xml.Record) (c : xml.Element) (i : Nat)
    (f : xml.FieldInfo xml.Struct)
    (hf : xml.findField s.elems 0 parents c.name = .field i f)
    (h : xml.unmarshalPath pf s parents r c = .ok r1) :
    ∃ rc, xml.unmarshal pf f.typ (if f.slice then xml.Record.zero else r.field i) c = .ok rc ∧
      r1 = .mk r.values (r.elems ++ [(i, rc)]) := by
  rcases c with ⟨name, attrs, children⟩
  rw [xml.unmarshalPath] at h
  simp only [xml.Element.name] at hf
  rw [hf] at h
  simp only at h
  unfold xml.unmarshal
  simp only [xml.Element.attrs, xml.Element.children]
  rcases ha : xml.unmarshalAttrs pf f.typ.fields
      (if f.slice = true then xml.Record.zero else r.field i).values attrs with e | v
  · rw [ha] at h
    cases h
  · rw [ha] at h
    simp only at h ⊢
    rcases hc : xml.unmarshalChildren pf f.typ []
        (.mk v (if f.slice = true then xml.Record.zero else r.field i).elems) children
      with e | r2
    · rw [hc] at h
      cases h
    · rw [hc] at h
      simp only [Except.ok.injEq] at h
      exact ⟨r2, rfl, h.symm⟩

/-- A struct field into which nothing was decoded has the zero value. -/
theorem field_zero (r : xml.Record) (i : Nat) (h : ∀ p ∈ r.elems, p.1 ≠ i) :
    r.field i = xml.Record.zero := by
  unfold xml.Record.field xml.Record.slice
  have hnil : r.elems.filter (fun p => p.1 = i) = [] := by
    rw [List.filter_eq_nil_iff]
    intro p hp
    simpa using h p hp
  rw [hnil]
  rfl

/-- The search for a child of a scoreboard: the elements `game` match the
slice `Games`, every other element is skipped. -/
theorem findField_scoreboard (name : String) :
    xml.findField scoreboardStruct.elems 0 [] name =
      if name = "game" then .field 0 ⟨[], "game", true, gameStruct⟩ else .unmatched := by
  by_cases h : name = "game"
  · subst h
    rfl
  · rw [if_neg h]
    have h2 : ¬ "game" = name := fun e => h e.symm
    simp [scoreboardStruct, xml.Struct.elems, xml.findField, h2]

/-- The children of an element of a struct type without element fields are
all skipped. -/
theorem unmarshalChildren_no_elems (pf : String → Except strconv.NumError Float32)
    (s : xml.Struct) (hs : s.elems = []) (parents : List String) (r : xml.Record) :
    ∀ cs, xml.unmarshalChildren pf s parents r cs = .ok r := by
  intro cs
  induction cs with
  | nil => rw [xml.unmarshalChildren]
  | cons c rest ih =>
    rcases c with ⟨name, attrs, children⟩
    rw [xml.unmarshalChildren, xml.unmarshalPath, hs, xml.findField]
    exact ih

theorem decodedChildren_no_elems (s : xml.Struct) (hs : s.elems = [])
    (parents : List String) : ∀ cs, xml.decodedChildren s parents cs = [] := by
  intro cs
  induction cs with
  | nil => rw [xml.decodedChildren]
  | cons c rest ih =>
    rcases c with ⟨name, attrs, children⟩
    rw [xml.decodedChildren, xml.decodedPath, hs, xml.findField, ih]
    rfl

/-- The elements of a scoreboard document that are decoded into a record:
the root and its children `game`. -/
theorem decoded_scoreboard (root : xml.Element) :
    xml.decoded scoreboardStruct root =
      ([], root.attrs) ::
        (root.children.filter (fun c => c.name = "game")).map (fun c => (gameFields, c.attrs)) := by
  unfold xml.decoded
  congr 1
  generalize root.children = cs
  induction cs with
  | nil => rw [xml.decodedChildren]; rfl
  | cons c rest ih =>
    rcases c with ⟨name, attrs, children⟩
    rw [xml.decodedChildren, xml.decodedPath, findField_scoreboard, ih]
    by_cases h : name = "game"
    · rw [if_pos h]
      simp only
      rw [decodedChildren_no_elems gameStruct rfl]
      simp [xml.Element.name, xml.Element.attrs, h]
      rfl
    · rw [if_neg h]
      simp [xml.Element.name, h]

theorem unmarshalChildren_scoreboard (pf : String → Except strconv.NumError Float32) :
    ∀ (cs : List xml.Element) (r r1 : xml.Record),
      xml.unmarshalChildren pf scoreboardStruct [] r cs = .ok r1 ↔
        ∃ vs, List.Forall₂
            (fun c v => xml.unmarshalAttrs pf gameFields xml.Values.zero c.attrs = .ok v)
            (cs.filter (fun c => c.name = "game")) vs ∧
          r1 = .mk r.values (r.elems ++ vs.map (fun v => (0, .mk v []))) := by
  intro cs
  induction cs with
  | nil =>
    intro r r1
    rw [xml.unmarshalChildren]
    rcases r with ⟨values, elems⟩
    simp [xml.Record.values, xml.Record.elems, eq_comm]
  | cons c rest ih =>
    intro r r1
    rcases c with ⟨name, attrs, children⟩
    rw [xml.unmarshalChildren, xml.unmarshalPath, findField_scoreboard]
    by_cases h : name = "game"
    · rw [if_pos h]
      have hfil : (xml.Element.mk name attrs children :: rest).filter
          (fun c => c.name = "game") =
          xml.Element.mk name attrs children :: rest.filter (fun c => c.name = "game") := by
        simp [xml.Element.name, h]
      rw [hfil]
      simp only [if_true]
      have hz : xml.Record.zero.values = xml.Values.zero := rfl
      rw [hz]
      rcases ha : xml.unmarshalAttrs pf gameStruct.fields xml.Values.zero attrs with e | v
      · simp only
        constructor
        · intro h1
          cases h1
        · rintro ⟨vs, hvs, _⟩
          cases hvs with
          | cons h1 _ =>
            simp only [xml.Element.attrs] at h1
            have ha2 : xml.unmarshalAttrs pf gameFields xml.Values.zero attrs = .error e := ha
            rw [ha2] at h1
            cases h1
      · simp only
        rw [unmarshalChildren_no_elems pf gameStruct rfl]
        simp only
        rw [ih]
        have ha2 : xml.unmarshalAttrs pf gameFields xml.Values.zero attrs = .ok v := ha
        constructor
        · rintro ⟨vs, hvs, hr1⟩
          refine ⟨v :: vs, List.Forall₂.cons ha2 hvs, ?_⟩
          rw [hr1]
          simp [xml.Record.values, xml.Record.elems]
          rfl
        · rintro ⟨vs, hvs, hr1⟩
          cases hvs with
          | cons h1 h2 =>
            rename_i v1 vs1
            simp only [xml.Element.attrs] at h1
            rw [ha2] at h1
            simp only [Except.ok.injEq] at h1
            subst h1
            refine ⟨vs1, h2, ?_⟩
            rw [hr1]
            simp [xml.Record.values, xml.Record.elems]
            rfl
    · rw [if_neg h]
      have hfil : (xml.Element.mk name attrs children :: rest).filter
          (fun c => c.name = "game") = rest.filter (fun c => c.name = "game") := by
        simp [xml.Element.name, h]
      rw [hfil]
      exact ih r r1

/-- The games of a record decoded as a scoreboard. -/
theorem ofRecord_games (v : xml.Values) (vs : List xml.Values) :
    Scoreboard.ofRecord (.mk v ([] ++ vs.map (fun w => (0, xml.Record.mk w [])))) =
      ⟨vs.map Game.ofValues⟩ := by
  unfold Scoreboard.ofRecord xml.Record.slice
  simp only [xml.Record.elems, List.nil_append]
  congr 1
  induction vs with
  | nil => rfl
  | cons w ws ih =>
    simp only [List.map_cons, List.filter_cons, decide_True, if_true]
    rw [ih]
    rfl

/-- The attributes of a `game` decode to a game exactly when they decode to
the values of that game. -/
theorem unmarshalGame_ok_iff (pf : String → Except strconv.NumError Float32)
    (attrs : xml.Attrs) (g : Game) :
    unmarshalGame pf attrs = .ok g ↔
      ∃ v, xml.unmarshalAttrs pf gameFields xml.Values.zero attrs = .ok v ∧
        g = Game.ofValues v := by
  unfold unmarshalGame
  rcases ha : xml.unmarshalAttrs pf gameFields xml.Values.zero attrs with e | v
  · simp
  · simp [eq_comm]

/-- A scoreboard document decodes to the games that its children `game`
decode to, in document order, and to nothing else; it decodes exactly when
each of them does. -/
theorem unmarshalScoreboard_ok_iff (pf : String → Except strconv.NumError Float32)
    (root : xml.Element) (sb : Scoreboard) :
    unmarshalScoreboard pf root = .ok sb ↔
      List.Forall₂ (fun c g => unmarshalGame pf c.attrs = .ok g)
        (root.children.filter (fun c => c.name = "game")) sb.Games := by
  have hroot : ∀ attrs : xml.Attrs,
      xml.unmarshalAttrs pf scoreboardStruct.fields xml.Record.zero.values attrs =
        .ok xml.Values.zero := by
    intro attrs
    induction attrs with
    | nil => rfl
    | cons a rest ih =>
      rw [xml.unmarshalAttrs]
      have h1 : xml.unmarshalAttr pf scoreboardStruct.fields xml.Record.zero.values a =
          .ok xml.Record.zero.values := rfl
      rw [h1]
      exact ih
  unfold unmarshalScoreboard xml.unmarshal
  rw [hroot]
  simp only
  constructor
  · intro h
    rcases hc : xml.unmarshalChildren pf scoreboardStruct []
        (.mk xml.Values.zero xml.Record.zero.elems) root.children with e | r1
    · rw [hc] at h
      cases h
    · rw [hc] at h
      simp only [Except.ok.injEq] at h
      obtain ⟨vs, hvs, hr1⟩ := (unmarshalChildren_scoreboard pf _ _ _).mp hc
      have hg : sb.Games = vs.map Game.ofValues := by
        rw [← h, hr1]
        exact congrArg Scoreboard.Games (ofRecord_games _ vs)
      rw [hg]
      clear hg hr1 hc h
      generalize root.children.filter (fun c => c.name = "game") = cs at hvs
      induction hvs with
      | nil => exact List.Forall₂.nil
      | cons h1 _ ih =>
        exact List.Forall₂.cons ((unmarshalGame_ok_iff pf _ _).mpr ⟨_, h1, rfl⟩) ih
  · intro h
    have hex : ∃ vs, List.Forall₂
        (fun c v => xml.unmarshalAttrs pf gameFields xml.Values.zero c.attrs = .ok v)
        (root.children.filter (fun c => c.name = "game")) vs ∧
        sb.Games = vs.map Game.ofValues := by
      generalize root.children.filter (fun c => c.name = "game") = cs at h
      generalize sb.Games = gs at h
      induction h with
      | nil => exact ⟨[], List.Forall₂.nil, rfl⟩
      | cons h1 _ ih =>
        obtain ⟨vs, hvs, hgs⟩ := ih
        obtain ⟨v, hv, hg⟩ := (unmarshalGame_ok_iff pf _ _).mp h1
        exact ⟨v :: vs, List.Forall₂.cons hv hvs, by rw [hg, hgs]; rfl⟩
    obtain ⟨vs, hvs, hgs⟩ := hex
    have hc := (unmarshalChildren_scoreboard pf root.children
      (.mk xml.Values.zero xml.Record.zero.elems) _).mpr ⟨vs, hvs, rfl⟩
    rw [hc]
    simp only [Except.ok.injEq]
    have h2 := ofRecord_games xml.Values.zero vs
    rcases sb with ⟨games⟩
    simp only at hgs
    rw [hgs]
    exact h2

/-- A scoreboard document with a game that has a value that is not numeric
for one of its numbers does not decode. -/
theorem unmarshalScoreboard_nonNumeric (pf : String → Except strconv.NumError Float32)
    (root : xml.Element)
    (h : ∃ c ∈ root.children, c.name = "game" ∧
      ∃ a ∈ c.attrs, xml.kindOf gameFields a.1 = some .int ∧ xml.nonNumeric a.2) :
    ∃ e, unmarshalScoreboard pf root = .error e := by
  obtain ⟨c, hc, hname, a, ha, hk, hn⟩ := h
  have hd : ∃ p ∈ xml.decoded scoreboardStruct root, ∃ a ∈ p.2,
      xml.kindOf p.1 a.1 = some .int ∧ xml.nonNumeric a.2 := by
    rw [decoded_scoreboard]
    refine ⟨(gameFields, c.attrs), ?_, a, ha, hk, hn⟩
    apply List.mem_cons_of_mem
    apply List.mem_map.mpr
    exact ⟨c, List.mem_filter.mpr ⟨hc, by simp [hname]⟩, rfl⟩
  obtain ⟨e, he⟩ := unmarshal_nonNumeric pf scoreboardStruct xml.Record.zero root hd
  unfold unmarshalScoreboard
  rw [he]
  exact ⟨e, rfl⟩


/-- The elements of the at-bats fixture that are decoded into a record: the
at-bats below `top` and `bottom` and the pitch, not the elements `runner` and
`action`, which no tag names. -/
theorem decoded_atBatsDocument :
    xml.decoded atBatsStruct atBatsDocument =
      [([], [("atBat", "543877"), ("deck", "457705")]),
       (atBatInningFields, [("num", "1"), ("away_team", "tor")]),
       (atBatFields, [("num", "1"), ("b", "1"), ("event", "Single")]),
       (pitchFields, [("des", "Ball"), ("type", "B")]),
       (atBatFields, [("num", "2")])] := by
  decide

/-- The at-bats fixture decodes to one inning with number 1, whose top half
has the at-bat 1 with its event and one pitch and whose bottom half has the
at-bat 2. -/
theorem unmarshal_atBatsDocument :
    (xml.unmarshal fixedParseFloat atBatsStruct xml.Record.zero atBatsDocument).toOption.map
        (fun r => (r.slice 0).map (fun inn =>
          (inn.values.int "num",
            (inn.slice 0).map
              (fun ab => (ab.values.int "num", ab.values.str "event", (ab.slice 0).length)),
            (inn.slice 1).map (fun ab => ab.values.int "num")))) =
      some [(1, [(1, "Single", 1)], [2])] := by
  rfl

/-- The elements of the other fixtures that are decoded into a record: the
innings and the review of the line score; the team, its player and coach and
the umpire below `umpires` of the players; the notification below `game`, with
its player and type, and the team with its notification of the notifications. -/
theorem decoded_documents :
    xml.decoded lineScoreStruct lineScoreDocument =
      [(lineScoreFields, [("status", "In Progress"), ("inning", "3"), ("is_no_hitter", "N")]),
       (lineScoreInningFields,
         [("inning", "1"), ("home_inning_runs", "0"), ("away_inning_runs", "2")]),
       (lineScoreInningFields, [("inning", "2"), ("away_inning_runs", "0")]),
       (reviewFields, [("challenges_away_used", "1")])] ∧
    xml.decoded playersStruct playersDocument =
      [([], [("venue", "Target Field")]),
       (rosterFields, [("type", "away"), ("id", "KC")]),
       (playerFields, [("id", "543877"), ("avg", ".266")]),
       (coachFields, [("id", "119271")]),
       (umpireFields, [("id", "427044"), ("position", "home")])] ∧
    xml.decoded notificationsStruct notificationsDocument =
      [([], [("modified_date", "2016-09-05")]),
       (notificationFields, [("inning", "1"), ("ab", "5")]),
       (playerFields, [("id", "543877")]),
       (typeFields, [("category", "scoring")]),
       (teamFields, [("id", "142"), ("code", "min")]),
       (notificationFields, [("inning", "2")])] := by
  decide

/-- A decimal number that `int` cannot hold is a range error, not zero. -/
theorem copyValueInt_out_of_range :
    xml.copyValueInt "9223372036854775808" =
      .error ⟨"ParseInt", "9223372036854775808", strconv.ErrRange⟩ := by
  rfl

/-- The scoreboard fixture decodes to the two games that the scoreboard test
expects. -/
theorem unmarshalScoreboard_scoreboardDocument :
    unmarshalScoreboard fixedParseFloat scoreboardDocument =
      .ok ⟨[inProgressGame, previewGame]⟩ :=
  (unmarshalScoreboard_ok_iff fixedParseFloat scoreboardDocument ⟨[inProgressGame, previewGame]⟩).mpr
    (List.Forall₂.cons rfl (List.Forall₂.cons rfl List.Forall₂.nil))

/-- C15, counterexample: a scoreboard whose game has `inning="abc"` does not
decode to a game with inning zero; the decoding fails with the syntax error
of `strconv.ParseInt`. -/
theorem unmarshalScoreboard_non_numeric_inning :
    unmarshalScoreboard fixedParseFloat nonNumericDocument =
      .error ⟨"ParseInt", "abc", strconv.ErrSyntax⟩ := by
  rfl

/-- C15, amended: decoding never fails because an attribute is missing, and
a value that is not numeric for an `int` field is an error, not zero.  For
every document `root`, every struct type `s` it is decoded into (among them
`scoreboardStruct`, `lineScoreStruct`, `playersStruct`, `atBatsStruct` and
`notificationsStruct`, the five of the package) and every parser of floats
`pf`:
a document that decodes still decodes after attributes are removed from its
elements; a decoding that fails does so with the error of copying the value,
which is not empty, of an attribute that an element decoded into a record has
and that a tag binds to a number; a field whose attribute is absent from the
element or empty is zero in the record, `0` for a number and the empty string
for a string; each child that matches a field is decoded in the same way,
from the zero value into a new element of a slice and from its present value
into a struct; and a document with an attribute for an `int` field whose value
has a character other than a digit, a sign and white space does not decode.
For a scoreboard: it decodes exactly to the games that its elements `game`
decode to, it does not decode when a game has such a value for one of its
numbers, and each field of a game whose attribute is absent or empty is zero
or the empty string. -/
theorem decoding_missing_attributes (pf : String → Except strconv.NumError Float32)
    (s : xml.Struct) (root root2 : xml.Element) (attrs : xml.Attrs) :
    (root2.fewerAttrs root = true →
      (∃ r, xml.unmarshal pf s xml.Record.zero root = .ok r) →
      ∃ r2, xml.unmarshal pf s xml.Record.zero root2 = .ok r2) ∧
    (∀ e, xml.unmarshal pf s xml.Record.zero root = .error e →
      ∃ p ∈ xml.decoded s root, ∃ a ∈ p.2, a.2 ≠ "" ∧
        ((xml.kindOf p.1 a.1 = some .int ∧ xml.copyValueInt a.2 = .error e) ∨
         (xml.kindOf p.1 a.1 = some .float32 ∧ xml.copyValueFloat32 pf a.2 = .error e))) ∧
    (∀ r tag, xml.unmarshal pf s xml.Record.zero root = .ok r →
      (∀ a ∈ root.attrs, a.1 = tag → a.2 = "") →
      r.values.int tag = 0 ∧ r.values.float32 tag = ⟨0⟩ ∧ r.values.str tag = "") ∧
    (∀ parents r r1 c i f, xml.findField s.elems 0 parents c.name = .field i f →
      xml.unmarshalPath pf s parents r c = .ok r1 →
      ∃ rc, xml.unmarshal pf f.typ (if f.slice then xml.Record.zero else r.field i) c =
          .ok rc ∧
        r1 = .mk r.values (r.elems ++ [(i, rc)])) ∧
    ((∃ p ∈ xml.decoded s root, ∃ a ∈ p.2,
        xml.kindOf p.1 a.1 = some .int ∧ xml.nonNumeric a.2) →
      ∃ e, xml.unmarshal pf s xml.Record.zero root = .error e) ∧
    (∀ sb, unmarshalScoreboard pf root = .ok sb ↔
      List.Forall₂ (fun c g => unmarshalGame pf c.attrs = .ok g)
        (root.children.filter (fun c => c.name = "game")) sb.Games) ∧
    ((∃ c ∈ root.children, c.name = "game" ∧
        ∃ a ∈ c.attrs, xml.kindOf gameFields a.1 = some .int ∧ xml.nonNumeric a.2) →
      ∃ e, unmarshalScoreboard pf root = .error e) ∧
    (∀ g, unmarshalGame pf attrs = .ok g →
      ((∀ a ∈ attrs, a.1 = "inning" → a.2 = "") → g.Inning = 0) ∧
      ((∀ a ∈ attrs, a.1 = "outs" → a.2 = "") → g.Outs = 0) ∧
      ((∀ a ∈ attrs, a.1 = "away_team_runs" → a.2 = "") → g.AwayTeamRuns = 0) ∧
      ((∀ a ∈ attrs, a.1 = "home_team_runs" → a.2 = "") → g.HomeTeamRuns = 0) ∧
      ((∀ a ∈ attrs, a.1 = "away_team_hits" → a.2 = "") → g.AwayHitsRuns = 0) ∧
      ((∀ a ∈ attrs, a.1 = "home_team_hits" → a.2 = "") → g.HomeHitsRuns = 0) ∧
      ((∀ a ∈ attrs, a.1 = "away_team_errors" → a.2 = "") → g.AwayTeamErrors = 0) ∧
      ((∀ a ∈ attrs, a.1 = "home_team_errors" → a.2 = "") → g.HomeTeamErrors = 0) ∧
      ((∀ a ∈ attrs, a.1 = "runner_on_base_status" → a.2 = "") → g.BaseState = 0) ∧
      ((∀ a ∈ attrs, a.1 = "gameday_link" → a.2 = "") → g.GID = "") ∧
      ((∀ a ∈ attrs, a.1 = "time_date" → a.2 = "") → g.TimeDate = "") ∧
      ((∀ a ∈ attrs, a.1 = "time_zone" → a.2 = "") → g.TimeZone = "") ∧
      ((∀ a ∈ attrs, a.1 = "ampm" → a.2 = "") → g.AMPM = "") ∧
      ((∀ a ∈ attrs, a.1 = "away_name_abbrev" → a.2 = "") → g.AwayNameAbbrev = "") ∧
      ((∀ a ∈ attrs, a.1 = "home_name_abbrev" → a.2 = "") → g.HomeNameAbbrev = "") ∧
      ((∀ a ∈ attrs, a.1 = "away_team_city" → a.2 = "") → g.AwayTeamCity = "") ∧
      ((∀ a ∈ attrs, a.1 = "home_team_city" → a.2 = "") → g.HomeTeamCity = "") ∧
      ((∀ a ∈ attrs, a.1 = "away_team_name" → a.2 = "") → g.AwayTeamName = "") ∧
      ((∀ a ∈ attrs, a.1 = "home_team_name" → a.2 = "") → g.HomeTeamName = "") ∧
      ((∀ a ∈ attrs, a.1 = "top_inning" → a.2 = "") → g.TopInning = "") ∧
      ((∀ a ∈ attrs, a.1 = "status" → a.2 = "") → g.Status = "")) :=
  ⟨fun hfew h => unmarshal_fewerAttrs pf s _ _ root root2 hfew h,
   fun e h => unmarshal_error_origin pf s _ root e h,
   fun r tag h hall => unmarshal_zero pf s r root tag h hall,
   fun parents r r1 c i f hf h => unmarshalPath_field pf s parents r r1 c i f hf h,
   fun h => unmarshal_nonNumeric pf s _ root h,
   fun sb => unmarshalScoreboard_ok_iff pf root sb,
   fun h => unmarshalScoreboard_nonNumeric pf root h,
   fun g hg => unmarshalGame_zero pf attrs g hg⟩

/-- The amended claim at the fixtures.  The scoreboard with most of its
attributes removed still decodes; the scoreboard decodes to the two games of
the scoreboard test; the preview, whose element is decoded into a new element
of the slice, has inning zero and an empty `top_inning`; and the scoreboard
with `inning="abc"` does not decode, its error being the one of copying that
value. -/
theorem decoding_missing_attributes_witness :
    strippedDocument.fewerAttrs scoreboardDocument = true ∧
    (∃ r2, xml.unmarshal fixedParseFloat scoreboardStruct xml.Record.zero strippedDocument =
      .ok r2) ∧
    unmarshalScoreboard fixedParseFloat scoreboardDocument =
      .ok ⟨[inProgressGame, previewGame]⟩ ∧
    (unmarshalGame fixedParseFloat previewAttrs = .ok previewGame ∧
      previewGame.Inning = 0 ∧ previewGame.TopInning = "") ∧
    (∃ rc, xml.unmarshal fixedParseFloat gameStruct xml.Record.zero
        (.mk "game" previewAttrs []) = .ok rc ∧
      rc.values.int "inning" = 0 ∧ rc.values.str "top_inning" = "") ∧
    (xml.unmarshal fixedParseFloat scoreboardStruct xml.Record.zero nonNumericDocument =
        .error ⟨"ParseInt", "abc", strconv.ErrSyntax⟩ ∧
      ∃ p ∈ xml.decoded scoreboardStruct nonNumericDocument, ∃ a ∈ p.2, a.2 ≠ "" ∧
        ((xml.kindOf p.1 a.1 = some .int ∧
            xml.copyValueInt a.2 = .error ⟨"ParseInt", "abc", strconv.ErrSyntax⟩) ∨
         (xml.kindOf p.1 a.1 = some .float32 ∧
            xml.copyValueFloat32 fixedParseFloat a.2 =
              .error ⟨"ParseInt", "abc", strconv.ErrSyntax⟩))) ∧
    (xml.nonNumeric "abc" ∧
      (∃ e, xml.unmarshal fixedParseFloat scoreboardStruct xml.Record.zero nonNumericDocument =
        .error e) ∧
      ∃ e, unmarshalScoreboard fixedParseFloat nonNumericDocument = .error e) := by
  obtain ⟨h1, _, _, h4, _, h6, _, h8⟩ :=
    decoding_missing_attributes fixedParseFloat scoreboardStruct scoreboardDocument
      strippedDocument previewAttrs
  obtain ⟨_, n2, _, _, n5, _, n7, _⟩ :=
    decoding_missing_attributes fixedParseFloat scoreboardStruct nonNumericDocument
      nonNumericDocument previewAttrs
  obtain ⟨_, _, g3, _, _, _, _, _⟩ :=
    decoding_missing_attributes fixedParseFloat gameStruct (.mk "game" previewAttrs [])
      (.mk "game" previewAttrs []) previewAttrs
  have hsb : unmarshalScoreboard fixedParseFloat scoreboardDocument =
      .ok ⟨[inProgressGame, previewGame]⟩ :=
    (h6 ⟨[inProgressGame, previewGame]⟩).mpr
      (List.Forall₂.cons rfl (List.Forall₂.cons rfl List.Forall₂.nil))
  have hok : ∃ r, xml.unmarshal fixedParseFloat scoreboardStruct xml.Record.zero
      scoreboardDocument = .ok r := by
    rcases h : xml.unmarshal fixedParseFloat scoreboardStruct xml.Record.zero
      scoreboardDocument with e | r
    · unfold unmarshalScoreboard at hsb
      rw [h] at hsb
      cases hsb
    · exact ⟨r, rfl⟩
  have hnon : xml.nonNumeric "abc" :=
    ⟨'a', by decide, by decide, by decide, by decide, by decide⟩
  have hpath : ∃ r1, xml.unmarshalPath fixedParseFloat scoreboardStruct [] xml.Record.zero
      (.mk "game" previewAttrs []) = .ok r1 :=
    ((unmarshal_ok_iff_aux fixedParseFloat).1 _ _ _ _).mpr
      (fun p hp => by
        have hd : xml.decodedPath scoreboardStruct [] (.mk "game" previewAttrs []) =
            [(gameFields, previewAttrs)] := by decide
        rw [hd] at hp
        rw [List.mem_singleton.mp hp]
        exact ⟨_, rfl⟩)
  obtain ⟨r1, hr1⟩ := hpath
  obtain ⟨rc, hrc, _⟩ := h4 [] xml.Record.zero r1 (.mk "game" previewAttrs []) 0
    ⟨[], "game", true, gameStruct⟩ rfl hr1
  refine ⟨by decide, h1 (by decide) hok, hsb, ⟨rfl, ?_, ?_⟩, ⟨rc, hrc, ?_, ?_⟩,
    ⟨rfl, n2 _ rfl⟩, hnon, ?_, ?_⟩
  · exact (h8 previewGame rfl).1 (by decide)
  · exact (h8 previewGame rfl).2.2.2.2.2.2.2.2.2.2.2.2.2.2.2.2.2.2.2.1 (by decide)
  · exact (g3 rc "inning" hrc (by decide)).1
  · exact (g3 rc "top_inning" hrc (by decide)).2.2
  · exact n5 ⟨(gameFields, [("status", "In Progress"), ("inning", "abc")]), by decide,
      ("inning", "abc"), by decide, by decide, hnon⟩
  · exact n7 ⟨.mk "game" [("status", "In Progress"), ("inning", "abc")] [],
      List.mem_cons_self _ _, rfl, ("inning", "abc"), by decide, by decide, hnon⟩


end Mlbgameday
